import Mathlib

/-!
A verification development for the pattern-mining and scoring engine of the
pattern_internship repository (TypeScript sources under
`graphrag-pattern-dashboard/frontend/src/services` and the unnamed service
files).  The TypeScript code is shallowly embedded: JavaScript numbers are
modelled as extended rationals (`JSNum`, with NaN and the two infinities so
that division-by-zero behaviour is preserved exactly), JavaScript runtime
values as `JValue`, and plain objects as association lists with
insertion-order semantics (`JRecord`).  Behaviour supplied by the JavaScript
host (date parsing, `parseFloat`, `Number`, `Math.sqrt`, number formatting)
is abstracted into a `Platform` record that every embedded function takes as
an argument; theorems quantify over all platforms.
-/

namespace PatternRepo

/-- A JavaScript number: a finite rational, NaN, or a signed infinity.  The
source manipulates IEEE doubles; every value reachable in the embedded code is
a rational or one of the three special values, and the claims under study only
concern finiteness, order and exact division-by-zero behaviour, which this
model captures exactly. -/
inductive JSNum where
  | fin (q : ℚ)
  | nan
  | inf
  | neginf
deriving DecidableEq, Repr

namespace JSNum

/-- JavaScript truthiness of a number: `0` and `NaN` are falsy. -/
def truthy : JSNum → Bool
  | fin q => q ≠ 0
  | nan => false
  | inf => true
  | neginf => true

/-- `x - y` with IEEE special-value rules. -/
def sub : JSNum → JSNum → JSNum
  | fin a, fin b => fin (a - b)
  | nan, _ => nan
  | _, nan => nan
  | inf, inf => nan
  | inf, _ => inf
  | neginf, neginf => nan
  | neginf, _ => neginf
  | fin _, inf => neginf
  | fin _, neginf => inf

/-- `x + y` with IEEE special-value rules. -/
def add : JSNum → JSNum → JSNum
  | fin a, fin b => fin (a + b)
  | nan, _ => nan
  | _, nan => nan
  | inf, neginf => nan
  | inf, _ => inf
  | neginf, inf => nan
  | neginf, _ => neginf
  | fin _, inf => inf
  | fin _, neginf => neginf

/-- `x * y` with IEEE special-value rules (`±∞ * 0 = NaN`). -/
def mul : JSNum → JSNum → JSNum
  | fin a, fin b => fin (a * b)
  | nan, _ => nan
  | _, nan => nan
  | inf, inf => inf
  | inf, neginf => neginf
  | inf, fin b => if b = 0 then nan else if 0 < b then inf else neginf
  | neginf, inf => neginf
  | neginf, neginf => inf
  | neginf, fin b => if b = 0 then nan else if 0 < b then neginf else inf
  | fin a, inf => if a = 0 then nan else if 0 < a then inf else neginf
  | fin a, neginf => if a = 0 then nan else if 0 < a then neginf else inf

/-- `x / y` with IEEE special-value rules: `0/0 = NaN`, `a/0 = ±∞` for
`a ≠ 0` (the model has a single zero, treated as `+0`). -/
def div : JSNum → JSNum → JSNum
  | fin a, fin b =>
      if b = 0 then (if a = 0 then nan else if 0 < a then inf else neginf)
      else fin (a / b)
  | nan, _ => nan
  | _, nan => nan
  | inf, inf => nan
  | inf, neginf => nan
  | neginf, inf => nan
  | neginf, neginf => nan
  | inf, fin b => if 0 ≤ b then inf else neginf
  | neginf, fin b => if 0 ≤ b then neginf else inf
  | fin _, inf => fin 0
  | fin _, neginf => fin 0

/-- `x < y`; any comparison involving NaN is false. -/
def lt : JSNum → JSNum → Bool
  | fin a, fin b => a < b
  | nan, _ => false
  | _, nan => false
  | inf, _ => false
  | _, inf => true
  | neginf, neginf => false
  | neginf, _ => true
  | fin _, neginf => false

/-- `x ≤ y`; any comparison involving NaN is false. -/
def le : JSNum → JSNum → Bool
  | fin a, fin b => a ≤ b
  | nan, _ => false
  | _, nan => false
  | neginf, _ => true
  | _, inf => true
  | inf, fin _ => false
  | inf, neginf => false
  | fin _, neginf => false

/-- `x > y` (JavaScript `>`). -/
def gt (a b : JSNum) : Bool := lt b a

/-- `x ≥ y` (JavaScript `>=`). -/
def ge (a b : JSNum) : Bool := le b a

/-- `Math.min`: NaN-contaminating minimum. -/
def min2 : JSNum → JSNum → JSNum
  | nan, _ => nan
  | _, nan => nan
  | fin a, fin b => fin (min a b)
  | neginf, _ => neginf
  | _, neginf => neginf
  | inf, b => b
  | a, inf => a

/-- `Math.max`: NaN-contaminating maximum. -/
def max2 : JSNum → JSNum → JSNum
  | nan, _ => nan
  | _, nan => nan
  | fin a, fin b => fin (max a b)
  | inf, _ => inf
  | _, inf => inf
  | neginf, b => b
  | a, neginf => a

/-- `Math.abs`. -/
def abs : JSNum → JSNum
  | fin a => fin |a|
  | nan => nan
  | inf => inf
  | neginf => inf

/-- `Math.ceil` (infinities and NaN pass through). -/
def ceil : JSNum → JSNum
  | fin a => fin (Int.ceil a : ℤ)
  | nan => nan
  | inf => inf
  | neginf => neginf

/-- A number is finite when it is a rational, not NaN nor ±∞. -/
def isFinite : JSNum → Prop
  | fin _ => True
  | _ => False

instance : DecidablePred isFinite := by
  intro x; cases x <;> simp [isFinite] <;> infer_instance

end JSNum

/-- A JavaScript runtime value as it occurs in the data records handled by the
pipeline: strings, (finite) numbers, booleans, `null`, `Date` objects (carried
as their epoch-milliseconds value) and other objects.  An `obj` carries the
string its `ToPrimitive` coercion would produce, which is all the embedded
code can observe of it. -/
inductive JValue where
  | str (s : String)
  | num (q : ℚ)
  | boolean (b : Bool)
  | jnull
  | jdate (ms : ℤ)
  | obj (prim : String)
deriving DecidableEq, Repr

namespace JValue

/-- JavaScript truthiness. -/
def truthy : JValue → Bool
  | str s => s ≠ ""
  | num q => q ≠ 0
  | boolean b => b
  | jnull => false
  | jdate _ => true
  | obj _ => true

/-- `typeof v === 'object'` (true for `null`, `Date`s and other objects). -/
def isObjectType : JValue → Bool
  | jnull => true
  | jdate _ => true
  | obj _ => true
  | _ => false

end JValue

/-- Host-environment behaviour the embedded code calls into.  Each field
models one JavaScript builtin; theorems quantify over all platforms, so no
axioms about the host are assumed. -/
structure Platform where
  /-- `new Date(string)`: epoch ms on success, `none` for an invalid date. -/
  dateParse : String → Option ℤ
  /-- `new Date(number)`: epoch ms on success, `none` for an invalid date. -/
  dateFromNum : ℚ → Option ℤ
  /-- `parseFloat(string)` restricted to finite results; `none` models NaN. -/
  parseFloatQ : String → Option ℚ
  /-- `Number(string)` (used by implicit coercions). -/
  numParse : String → JSNum
  /-- `ToString` applied to a number. -/
  numToStr : ℚ → String
  /-- `Date.prototype.toString` (the `ToPrimitive` string of a date). -/
  dateToStr : ℤ → String
  /-- `Number.prototype.toFixed(1)`. -/
  toFixed1 : JSNum → String
  /-- `Math.sqrt` as the host computes it on a double. -/
  sqrtQ : ℚ → ℚ
  /-- `Date.prototype.getFullYear`. -/
  dYear : ℤ → ℤ
  /-- `Date.prototype.getMonth` (0-11). -/
  dMonth0 : ℤ → ℕ
  /-- `Date.prototype.getDay` (0=Sunday..6). -/
  dDayOfWeek : ℤ → ℕ
  /-- `Date.prototype.getDate` (1-31). -/
  dDayOfMonth : ℤ → ℕ

/-- `ToString` of a value (string contexts such as template literals). -/
def jsToString (P : Platform) : JValue → String
  | .str s => s
  | .num q => P.numToStr q
  | .boolean b => if b then "true" else "false"
  | .jnull => "null"
  | .jdate ms => P.dateToStr ms
  | .obj s => s

/-- `ToNumber` of a value (numeric contexts such as `>=` against a number). -/
def jsToNumber (P : Platform) : JValue → JSNum
  | .str s => P.numParse s
  | .num q => .fin q
  | .boolean b => .fin (if b then 1 else 0)
  | .jnull => .fin 0
  | .jdate ms => .fin ms
  | .obj s => P.numParse s

/-- A JavaScript plain object, as an association list in insertion order
(string keys are unique by construction of `setField`). -/
abbrev JRecord := List (String × JValue)

/-- Property read: `r[k]`, `none` meaning `undefined`. -/
def getField (r : JRecord) (k : String) : Option JValue :=
  (r.find? (fun kv => kv.1 = k)).map (·.2)

/-- Property write: `r[k] = v`, replacing in place or appending (JavaScript
object insertion-order semantics). -/
def setField : JRecord → String → JValue → JRecord
  | [], k, v => [(k, v)]
  | (k', v') :: t, k, v =>
      if k' = k then (k, v) :: t else (k', v') :: setField t k v

/-- The record's keys in insertion order (`Object.keys`). -/
def keysOf (r : JRecord) : List String := r.map (·.1)

theorem getField_setField_self (r : JRecord) (k : String) (v : JValue) :
    getField (setField r k v) k = some v := by
  induction r with
  | nil => simp [setField, getField, List.find?]
  | cons kv t ih =>
      by_cases h : kv.1 = k
      · simp [setField, h, getField, List.find?]
      · simpa [setField, h, getField, List.find?] using ih

theorem getField_setField_ne (r : JRecord) {k k' : String} (v : JValue)
    (h : k' ≠ k) : getField (setField r k' v) k = getField r k := by
  induction r with
  | nil => simp [setField, getField, List.find?, decide_eq_false h]
  | cons kv t ih =>
      obtain ⟨k0, v0⟩ := kv
      by_cases hk : k0 = k'
      · subst hk
        simp [setField, getField, List.find?, decide_eq_false h]
      · by_cases hk2 : k0 = k
        · subst hk2
          simp [setField, getField, List.find?, hk]
        · simpa [setField, getField, List.find?, hk, hk2] using ih

/-! ## Data Merger (`DataMerger.ts`) -/

/-- A labelled input data source (`DataSource` in `DataMerger.ts`; the unused
optional `filePath` is omitted). -/
structure DataSource where
  name : String
  type : String
  data : List JRecord

/-- The provenance fields `mergeDataSources` adds to every record. -/
def provenanceFields : List String :=
  ["__source__", "__source_type__", "__record_id__", "__merged_at__"]

/-- One record of `mergeDataSources`' output: the input record spread into a
fresh object and the four provenance fields written over it.  `ms` is the
value `Date.now()` returned for this record and `iso` the value
`new Date().toISOString()` returned for it. -/
def stampRecord (src : DataSource) (idx : ℕ) (ms : ℤ) (iso : String)
    (r : JRecord) : JRecord :=
  setField
    (setField
      (setField (setField r "__source__" (.str src.name))
        "__source_type__" (.str src.type))
      "__record_id__" (.str (src.name ++ "_" ++ toString ms ++ "_" ++ toString idx)))
    "__merged_at__" (.str iso)

/-- The nested `forEach`/`push` loop of `mergeDataSources`, with the source
index made explicit.  `stamp si ri` is the pair of host clock values
(`Date.now()`, ISO string) observed while stamping record `ri` of source `si`;
quantifying over `stamp` models the nondeterministic clock. -/
def mergeAux (stamp : ℕ → ℕ → ℤ × String) (si : ℕ) :
    List DataSource → List JRecord
  | [] => []
  | src :: rest =>
      src.data.enum.map
        (fun ri => stampRecord src ri.1 (stamp si ri.1).1 (stamp si ri.1).2 ri.2)
        ++ mergeAux stamp (si + 1) rest

/-- `DataMerger.mergeDataSources`. -/
def mergeDataSources (sources : List DataSource) (stamp : ℕ → ℕ → ℤ × String) :
    List JRecord :=
  mergeAux stamp 0 sources

/-- Number of merged records contributed by the sources before index `si`. -/
def offsetBefore (sources : List DataSource) (si : ℕ) : ℕ :=
  ((sources.take si).map (fun s => s.data.length)).sum

/-! ## Transaction Encoder (`AssociationRuleMiner.ts`) -/

/-- The reserved-name test `key.startsWith('__')`, written out on the
character list so it evaluates by `decide`. -/
def startsWithSys (k : String) : Bool :=
  match k.toList with
  | a :: b :: _ => a = '_' && b = '_'
  | _ => false

/-- `AssociationRuleMiner.shouldIncludeInTransaction`: a field enters the
transaction iff its value is truthy (so also not the empty string), its name
does not start with the reserved `__` prefix, and its value is not an
object. -/
def shouldIncludeInTransaction (k : String) (v : JValue) : Bool :=
  if !v.truthy then false
  else if startsWithSys k then false
  else if v.isObjectType then false
  else true

/-- The `field=value` tokens one record contributes (the inner
`Object.entries` loop of `generateTransactions`). -/
def recordTokens (P : Platform) (r : JRecord) : List String :=
  r.filterMap (fun kv =>
    if shouldIncludeInTransaction kv.1 kv.2 then
      some (kv.1 ++ "=" ++ jsToString P kv.2)
    else none)

/-- `AssociationRuleMiner.generateTransactions`: one token list per record,
records with no eligible token contributing no transaction. -/
def generateTransactions (P : Platform) (data : List JRecord) :
    List (List String) :=
  data.filterMap (fun r =>
    let t := recordTokens P r
    if t.isEmpty then none else some t)

/-- The record restricted to its non-system fields (names not starting with
`__`), in order.  Used to express that system fields never influence the
mining pipeline. -/
def nsys (r : JRecord) : JRecord := r.filter (fun kv => !startsWithSys kv.1)

theorem nsys_cons (kv : String × JValue) (t : JRecord) :
    nsys (kv :: t) = if startsWithSys kv.1 then nsys t else kv :: nsys t := by
  by_cases h : startsWithSys kv.1 <;> simp [nsys, h]

theorem recordTokens_nsys (P : Platform) (r : JRecord) :
    recordTokens P (nsys r) = recordTokens P r := by
  induction r with
  | nil => rfl
  | cons kv t ih =>
      by_cases hs : startsWithSys kv.1
      · have hinc : shouldIncludeInTransaction kv.1 kv.2 = false := by
          unfold shouldIncludeInTransaction
          by_cases ht : kv.2.truthy <;> simp [ht, hs]
        simp [nsys, recordTokens, hs, hinc] at ih ⊢
        exact ih
      · simp only [nsys, recordTokens, List.filter_cons, hs, Bool.not_false,
          if_true, List.filterMap_cons] at ih ⊢
        rw [ih]

theorem generateTransactions_nsys (P : Platform) (data : List JRecord) :
    generateTransactions P (data.map nsys) = generateTransactions P data := by
  induction data with
  | nil => rfl
  | cons r t ih =>
      simp only [List.map_cons, generateTransactions, List.filterMap_cons] at ih ⊢
      rw [recordTokens_nsys, ih]

theorem getField_stampRecord_source (src : DataSource) (idx : ℕ) (ms : ℤ)
    (iso : String) (r : JRecord) :
    getField (stampRecord src idx ms iso r) "__source__" = some (.str src.name) := by
  unfold stampRecord
  rw [getField_setField_ne _ _ (by decide), getField_setField_ne _ _ (by decide),
    getField_setField_ne _ _ (by decide), getField_setField_self]

theorem getField_stampRecord_type (src : DataSource) (idx : ℕ) (ms : ℤ)
    (iso : String) (r : JRecord) :
    getField (stampRecord src idx ms iso r) "__source_type__" = some (.str src.type) := by
  unfold stampRecord
  rw [getField_setField_ne _ _ (by decide), getField_setField_ne _ _ (by decide),
    getField_setField_self]

theorem getField_stampRecord_id (src : DataSource) (idx : ℕ) (ms : ℤ)
    (iso : String) (r : JRecord) :
    getField (stampRecord src idx ms iso r) "__record_id__"
      = some (.str (src.name ++ "_" ++ toString ms ++ "_" ++ toString idx)) := by
  unfold stampRecord
  rw [getField_setField_ne _ _ (by decide), getField_setField_self]

theorem getField_stampRecord_mergedAt (src : DataSource) (idx : ℕ) (ms : ℤ)
    (iso : String) (r : JRecord) :
    getField (stampRecord src idx ms iso r) "__merged_at__" = some (.str iso) := by
  unfold stampRecord
  rw [getField_setField_self]

theorem mergeAux_length (stamp : ℕ → ℕ → ℤ × String) :
    ∀ (sources : List DataSource) (si : ℕ),
      (mergeAux stamp si sources).length = (sources.map (fun s => s.data.length)).sum
  | [], _ => rfl
  | src :: rest, si => by
      simp [mergeAux, mergeAux_length stamp rest (si + 1)]

theorem mem_mergeAux {stamp : ℕ → ℕ → ℤ × String} :
    ∀ {sources : List DataSource} {si : ℕ} {m : JRecord},
      m ∈ mergeAux stamp si sources →
      ∃ src sidx ridx r, src ∈ sources ∧
        m = stampRecord src ridx (stamp sidx ridx).1 (stamp sidx ridx).2 r
  | [], _, _, h => by simp [mergeAux] at h
  | src :: rest, si, m, h => by
      rw [mergeAux, List.mem_append] at h
      rcases h with h | h
      · rw [List.mem_map] at h
        obtain ⟨ri, hri, hm⟩ := h
        exact ⟨src, si, ri.1, ri.2, List.mem_cons_self .., hm.symm⟩
      · obtain ⟨s, sidx, ridx, r, hs, hm⟩ := mem_mergeAux h
        exact ⟨s, sidx, ridx, r, List.mem_cons_of_mem _ hs, hm⟩

theorem mergeAux_getElem (stamp : ℕ → ℕ → ℤ × String) :
    ∀ (sources : List DataSource) (si0 si ri : ℕ) (src : DataSource) (r : JRecord),
      sources[si]? = some src → src.data[ri]? = some r →
      (mergeAux stamp si0 sources)[offsetBefore sources si + ri]?
        = some (stampRecord src ri (stamp (si0 + si) ri).1 (stamp (si0 + si) ri).2 r)
  | [], _, si, _, _, _, hsi, _ => by simp at hsi
  | src0 :: rest, si0, 0, ri, src, r, hsi, hri => by
      simp only [List.getElem?_cons_zero, Option.some.injEq] at hsi
      subst hsi
      have hlt : ri < src0.data.length := by
        by_contra hge
        rw [List.getElem?_eq_none (Nat.le_of_not_lt hge)] at hri
        exact Option.noConfusion hri
      rw [mergeAux, offsetBefore]
      simp only [List.take_zero, List.map_nil, List.sum_nil, Nat.zero_add]
      rw [List.getElem?_append]
      rw [if_pos (by simpa [List.enum_length] using hlt), List.getElem?_map]
      have henum : src0.data.enum[ri]? = some (ri, r) := by
        rw [List.getElem?_enum, hri]; rfl
      rw [henum, Nat.add_zero]
      rfl
  | src0 :: rest, si0, si + 1, ri, src, r, hsi, hri => by
      simp only [List.getElem?_cons_succ] at hsi
      have ih := mergeAux_getElem stamp rest (si0 + 1) si ri src r hsi hri
      rw [mergeAux, offsetBefore]
      simp only [List.take_succ_cons, List.map_cons, List.sum_cons]
      rw [Nat.add_assoc, List.getElem?_append_right (by simp [List.enum_length])]
      simp only [List.length_map, List.enum_length, Nat.add_sub_cancel_left]
      rw [show si0 + (si + 1) = si0 + 1 + si by omega]
      exact ih

/-- C3 (Merge completeness): the merged list is exactly the concatenation of
the per-source record lists in order, nothing is deduplicated, and every
output record carries the four provenance fields. -/
theorem merge_completeness (sources : List DataSource)
    (stamp : ℕ → ℕ → ℤ × String) :
    (mergeDataSources sources stamp).length
        = (sources.map (fun s => s.data.length)).sum
    ∧ (∀ m ∈ mergeDataSources sources stamp,
        ∀ f ∈ provenanceFields, (getField m f).isSome)
    ∧ (∀ (si ri : ℕ) (src : DataSource) (r : JRecord),
        sources[si]? = some src → src.data[ri]? = some r →
        (mergeDataSources sources stamp)[offsetBefore sources si + ri]?
          = some (stampRecord src ri (stamp si ri).1 (stamp si ri).2 r)) := by
  refine ⟨mergeAux_length stamp sources 0, ?_, ?_⟩
  · intro m hm f hf
    obtain ⟨src, sidx, ridx, r, _, rfl⟩ := mem_mergeAux hm
    fin_cases hf
    · rw [getField_stampRecord_source]; rfl
    · rw [getField_stampRecord_type]; rfl
    · rw [getField_stampRecord_id]; rfl
    · rw [getField_stampRecord_mergedAt]; rfl
  · intro si ri src r hsi hri
    have := mergeAux_getElem stamp sources 0 si ri src r hsi hri
    simpa [mergeDataSources] using this

/-- C3 witness: the two-source scenario of spec §8 Scenario A in miniature —
two sources with 2 and 1 records merge to 3 records, the record at
concatenated position 2 is the stamped version of the second source's record,
and provenance fields are present. -/
theorem merge_completeness_witness :
    (mergeDataSources
        [⟨"crm", "crm", [[("a", .num 1)], [("a", .num 2)]]⟩,
         ⟨"erp", "erp", [[("b", .num 3)]]⟩]
        (fun si ri => (100 * si + ri, "t"))).length = 3
    ∧ (mergeDataSources
        [⟨"crm", "crm", [[("a", .num 1)], [("a", .num 2)]]⟩,
         ⟨"erp", "erp", [[("b", .num 3)]]⟩]
        (fun si ri => (100 * si + ri, "t")))[2]?
      = some (stampRecord ⟨"erp", "erp", [[("b", .num 3)]]⟩ 0 100 "t" [("b", .num 3)]) := by
  have h := merge_completeness
    [⟨"crm", "crm", [[("a", .num 1)], [("a", .num 2)]]⟩,
     ⟨"erp", "erp", [[("b", .num 3)]]⟩]
    (fun si ri => (100 * si + ri, "t"))
  refine ⟨by rw [h.1]; rfl, ?_⟩
  have := h.2.2 1 0 ⟨"erp", "erp", [[("b", .num 3)]]⟩ [("b", .num 3)] (by rfl) (by rfl)
  simpa [offsetBefore] using this

theorem stamped_keeps_sys (k : String) (v : JValue) (hs : startsWithSys k = true) :
    ∀ r : JRecord, nsys (setField r k v) = nsys r
  | [] => by simp [setField, nsys, hs]
  | (k0, v0) :: t => by
      by_cases hk : k0 = k
      · subst hk
        simp [setField, nsys, hs]
      · rw [setField, if_neg hk, nsys_cons, nsys_cons,
          stamped_keeps_sys k v hs t]

theorem nsys_stampRecord (src : DataSource) (idx : ℕ) (ms : ℤ) (iso : String)
    (r : JRecord) : nsys (stampRecord src idx ms iso r) = nsys r := by
  unfold stampRecord
  rw [stamped_keeps_sys _ _ (by decide), stamped_keeps_sys _ _ (by decide),
    stamped_keeps_sys _ _ (by decide), stamped_keeps_sys _ _ (by decide)]

/-- C10: every provenance field name starts with the reserved `__` prefix, the
transaction encoder excludes every `__`-prefixed field, and consequently the
transactions generated from merged records are exactly the transactions of
those records with all `__`-prefixed fields removed — no token is ever derived
from a provenance field. -/
theorem provenance_never_tokenized :
    (∀ f ∈ provenanceFields, startsWithSys f = true)
    ∧ (∀ (k : String) (v : JValue), startsWithSys k = true →
        shouldIncludeInTransaction k v = false)
    ∧ (∀ (P : Platform) (sources : List DataSource) (stamp : ℕ → ℕ → ℤ × String),
        generateTransactions P (mergeDataSources sources stamp)
          = generateTransactions P ((mergeDataSources sources stamp).map nsys)) := by
  refine ⟨by decide, ?_, ?_⟩
  · intro k v hk
    unfold shouldIncludeInTransaction
    by_cases ht : v.truthy <;> simp [ht, hk]
  · intro P sources stamp
    exact (generateTransactions_nsys P _).symm

/-- A concrete host environment used to instantiate universally quantified
platform arguments in closed witness statements.  Its parse functions succeed
only on the handful of literals those witnesses use. -/
def testPlatform : Platform where
  dateParse := fun s => if s = "2023-01-20" then some 1674172800000 else none
  dateFromNum := fun _ => none
  parseFloatQ := fun s =>
    if s = "10" then some 10 else if s = "20" then some 20
    else if s = "30" then some 30 else none
  numParse := fun _ => JSNum.nan
  numToStr := fun _ => "NUM"
  dateToStr := fun _ => "DATE"
  toFixed1 := fun _ => "0.0"
  sqrtQ := fun q => if q = 50 then 7 else 0
  dYear := fun _ => 2023
  dMonth0 := fun _ => 0
  dDayOfWeek := fun _ => 5
  dDayOfMonth := fun _ => 20

/-- C10 witness: the provenance names are `__`-prefixed and the encoder
rejects a provenance field carrying a truthy string. -/
theorem provenance_never_tokenized_witness :
    startsWithSys "__merged_at__" = true
    ∧ shouldIncludeInTransaction "__source__" (.str "crm") = false
    ∧ generateTransactions testPlatform
        (mergeDataSources [⟨"crm", "crm", [[("a", .str "1")]]⟩] (fun _ _ => (7, "t")))
      = generateTransactions testPlatform
          ((mergeDataSources [⟨"crm", "crm", [[("a", .str "1")]]⟩]
            (fun _ _ => (7, "t"))).map nsys) :=
  ⟨provenance_never_tokenized.1 "__merged_at__" (by decide),
   provenance_never_tokenized.2.1 "__source__" (.str "crm") (by decide),
   provenance_never_tokenized.2.2 testPlatform
     [⟨"crm", "crm", [[("a", .str "1")]]⟩] (fun _ _ => (7, "t"))⟩

/-! ## Association Rule Miner (`AssociationRuleMiner.ts`) -/

/-- An association rule with its statistics (`AssociationRule` interface). -/
structure AssociationRule where
  antecedent : List String
  consequent : List String
  support : JSNum
  confidence : JSNum
  lift : JSNum
  conviction : JSNum
deriving DecidableEq, Repr

/-- `AssociationRuleMiner.calculateSupport`: supporting transactions divided
by all transactions (`NaN` on an empty transaction list, as in the source
where `0/0` arises). -/
def calculateSupport (transactions : List (List String))
    (itemset : List String) : JSNum :=
  JSNum.div
    (.fin ((transactions.filter (fun t => itemset.all (fun i => t.contains i))).length))
    (.fin (transactions.length))

/-- `AssociationRuleMiner.calculateConfidence` — the 3-argument
rule-confidence formula at the name's first definition site.  The class
defines `calculateConfidence` twice: TypeScript rejects the duplicate
implementation, and at runtime the later 1-argument sample-size helper
(`minerSampleConfidence` below) shadows this body, so the call
`this.calculateConfidence(transactions, antecedent, itemset)` in
`detectAssociationRules` never reaches it — see
`detectAssociationRulesRun` for the actual runtime dispatch. -/
def calculateConfidence (transactions : List (List String))
    (antecedent itemset : List String) : JSNum :=
  let antecedentSupport := calculateSupport transactions antecedent
  let itemsetSupport := calculateSupport transactions itemset
  if JSNum.gt antecedentSupport (.fin 0) then JSNum.div itemsetSupport antecedentSupport
  else .fin 0

/-- `AssociationRuleMiner.calculateLift`. -/
def calculateLift (transactions : List (List String))
    (antecedent consequent : List String) (support : JSNum) : JSNum :=
  let antecedentSupport := calculateSupport transactions antecedent
  let consequentSupport := calculateSupport transactions consequent
  let expectedConfidence := consequentSupport
  let actualConfidence :=
    if JSNum.gt antecedentSupport (.fin 0) then JSNum.div support antecedentSupport
    else .fin 0
  if JSNum.gt expectedConfidence (.fin 0) then
    JSNum.div actualConfidence expectedConfidence
  else .fin 0

/-- `AssociationRuleMiner.calculateConviction`: guarded only against
`support(C) = 0`; the `1 - confidence` denominator is not guarded. -/
def calculateConviction (transactions : List (List String))
    (antecedent consequent : List String) (confidence : JSNum) : JSNum :=
  let consequentSupport := calculateSupport transactions consequent
  if JSNum.gt consequentSupport (.fin 0) then
    JSNum.div (JSNum.sub (.fin 1) consequentSupport) (JSNum.sub (.fin 1) confidence)
  else .fin 0

/-- One step of the `itemCounts[item] = (itemCounts[item] || 0) + 1`
accumulation, on an association list in insertion order (the object's string
keys contain `=`, so they always enumerate in insertion order). -/
def bumpCount : List (String × ℕ) → String → List (String × ℕ)
  | [], item => [(item, 1)]
  | (k, c) :: t, item =>
      if k = item then (k, c + 1) :: t else (k, c) :: bumpCount t item

/-- All unordered pairs in the order of the source's nested
`for i / for j = i+1` loops. -/
def pairsOf : List α → List (α × α)
  | [] => []
  | x :: xs => xs.map (fun y => (x, y)) ++ pairsOf xs

/-- `AssociationRuleMiner.generateFrequentItemsets`: frequent single items,
then all frequent pairs (the implementation never goes beyond size 2). -/
def generateFrequentItemsets (transactions : List (List String))
    (minSupport : ℚ) : List (List String) :=
  let totalTransactions := transactions.length
  let itemCounts :=
    transactions.foldl (fun acc t => t.foldl (fun acc2 item => bumpCount acc2 item) acc) []
  let frequentItems := itemCounts.filterMap (fun ic =>
    if JSNum.ge (JSNum.div (.fin ic.2) (.fin totalTransactions)) (.fin minSupport)
    then some ic.1 else none)
  (pairsOf frequentItems).filterMap (fun ab =>
    if JSNum.ge (calculateSupport transactions [ab.1, ab.2]) (.fin minSupport)
    then some [ab.1, ab.2] else none)

/-- `AssociationRuleMiner.generateSubsets`: the proper non-empty subsets of an
itemset, enumerated by bitmask `1 .. 2^n - 2`, bits scanned low to high. -/
def generateSubsets (itemset : List String) : List (List String) :=
  let n := itemset.length
  ((List.range ((1 <<< n) - 1)).drop 1).map (fun mask =>
    (List.range n).filterMap (fun j => if mask.testBit j then itemset[j]? else none))

/-- Stable insertion of a rule into a lift-descending list: the inserted rule
passes over every earlier rule with at least its lift, which is what the
stable `sort((a, b) => b.lift - a.lift)` yields for these comparators. -/
def insertByLift (x : AssociationRule) : List AssociationRule → List AssociationRule
  | [] => [x]
  | y :: ys => if JSNum.gt x.lift y.lift then x :: y :: ys else y :: insertByLift x ys

/-- `rules.sort((a, b) => b.lift - a.lift)` as a stable descending sort. -/
def sortByLiftDesc (rules : List AssociationRule) : List AssociationRule :=
  rules.foldl (fun acc r => insertByLift r acc) []

/-- `AssociationRuleMiner.detectAssociationRules` under the *intended*
dispatch of its `this.calculateConfidence(transactions, antecedent,
itemset)` call to the 3-argument rule formula (the spec's §4.4 semantics).
In the source the later 1-argument `calculateConfidence` shadows that
formula, so this definition deviates from the runtime behaviour;
`detectAssociationRulesRun` embeds the actual dispatch. -/
def detectAssociationRules (P : Platform) (data : List JRecord)
    (minSupport minConfidence : ℚ) : List AssociationRule :=
  let transactions := generateTransactions P data
  let frequentItemsets := generateFrequentItemsets transactions minSupport
  let rules := frequentItemsets.flatMap (fun itemset =>
    if 2 ≤ itemset.length then
      (generateSubsets itemset).filterMap (fun antecedent =>
        let consequent := itemset.filter (fun item => !antecedent.contains item)
        if consequent.isEmpty then none
        else
          let support := calculateSupport transactions itemset
          let confidence := calculateConfidence transactions antecedent itemset
          let lift := calculateLift transactions antecedent consequent support
          let conviction := calculateConviction transactions antecedent consequent confidence
          if JSNum.ge confidence (.fin minConfidence) then
            some ⟨antecedent, consequent, support, confidence, lift, conviction⟩
          else none)
    else [])
  sortByLiftDesc rules

/-- `ToNumber` of the transactions array, as JavaScript coerces it inside
`sampleSize / 100`: `ToPrimitive` of an array is its comma-join (nested
arrays joining first), then the host's string-to-number conversion
applies. -/
def transactionsToNumber (P : Platform) (transactions : List (List String)) : JSNum :=
  P.numParse (String.intercalate "," (transactions.map (String.intercalate ",")))

/-- The confidence `detectAssociationRules` actually computes at runtime:
the shadowing 1-argument `calculateConfidence(sampleSize)` body applied to
the transactions array (extra arguments ignored). -/
def runtimeRuleConfidence (P : Platform) (transactions : List (List String)) : JSNum :=
  JSNum.min2
    (JSNum.add (.fin 85)
      (JSNum.mul
        (JSNum.min2 (JSNum.div (transactionsToNumber P transactions) (.fin 100)) (.fin 1))
        (.fin 15)))
    (.fin 95)

/-- `AssociationRuleMiner.detectAssociationRules` under the *actual*
runtime dispatch: the duplicate 1-argument `calculateConfidence` receives
the transactions array, so every candidate rule's confidence is
`runtimeRuleConfidence` of the whole transaction list. -/
def detectAssociationRulesRun (P : Platform) (data : List JRecord)
    (minSupport minConfidence : ℚ) : List AssociationRule :=
  let transactions := generateTransactions P data
  let frequentItemsets := generateFrequentItemsets transactions minSupport
  let rules := frequentItemsets.flatMap (fun itemset =>
    if 2 ≤ itemset.length then
      (generateSubsets itemset).filterMap (fun antecedent =>
        let consequent := itemset.filter (fun item => !antecedent.contains item)
        if consequent.isEmpty then none
        else
          let support := calculateSupport transactions itemset
          let confidence := runtimeRuleConfidence P transactions
          let lift := calculateLift transactions antecedent consequent support
          let conviction := calculateConviction transactions antecedent consequent confidence
          if JSNum.ge confidence (.fin minConfidence) then
            some ⟨antecedent, consequent, support, confidence, lift, conviction⟩
          else none)
    else [])
  sortByLiftDesc rules

theorem JSNum.gt_fin_fin (a b : ℚ) : JSNum.gt (.fin a) (.fin b) = decide (b < a) := rfl

theorem JSNum.ge_fin_fin (a b : ℚ) : JSNum.ge (.fin a) (.fin b) = decide (b ≤ a) := rfl

theorem JSNum.div_fin_of_ne (a : ℚ) {b : ℚ} (hb : b ≠ 0) :
    JSNum.div (.fin a) (.fin b) = .fin (a / b) := by
  simp [JSNum.div, hb]

theorem calculateSupport_eq (transactions : List (List String))
    (itemset : List String) (h : transactions ≠ []) :
    calculateSupport transactions itemset
      = .fin (((transactions.filter
          (fun t => itemset.all (fun i => t.contains i))).length : ℚ)
            / (transactions.length : ℚ)) := by
  have hn : ((transactions.length : ℚ)) ≠ 0 := by
    simp [List.length_eq_zero, h]
  unfold calculateSupport
  exact JSNum.div_fin_of_ne _ hn

theorem generateFrequentItemsets_nil (minSupport : ℚ) :
    generateFrequentItemsets [] minSupport = [] := rfl

theorem mem_foldl_insertByLift {r : AssociationRule} :
    ∀ {rules acc : List AssociationRule},
      r ∈ rules.foldl (fun acc x => insertByLift x acc) acc ↔ r ∈ rules ∨ r ∈ acc := by
  have hins : ∀ (x : AssociationRule) (l : List AssociationRule),
      r ∈ insertByLift x l ↔ r = x ∨ r ∈ l := by
    intro x l
    induction l with
    | nil => simp [insertByLift]
    | cons y ys ih =>
        by_cases hgt : JSNum.gt x.lift y.lift
        · simp [insertByLift, hgt]
        · simp only [insertByLift, if_neg hgt, List.mem_cons, ih]
          tauto
  intro rules
  induction rules with
  | nil => simp
  | cons x xs ih =>
      intro acc
      rw [List.foldl_cons, ih, hins]
      simp only [List.mem_cons]
      tauto

theorem mem_sortByLiftDesc {r : AssociationRule} {rules : List AssociationRule} :
    r ∈ sortByLiftDesc rules ↔ r ∈ rules := by
  rw [sortByLiftDesc, mem_foldl_insertByLift]
  simp

/-- On the intended 3-argument dispatch (`detectAssociationRules`): every
rule produced has finite support, confidence and lift, and finite conviction
whenever its confidence is not exactly 1; but `calculateSupport` over an
empty transaction list is NaN (`0/0`). -/
theorem assocRules_arithmetic (P : Platform) (data : List JRecord)
    (minSupport minConfidence : ℚ) :
    (∀ rule ∈ detectAssociationRules P data minSupport minConfidence,
        rule.support.isFinite ∧ rule.confidence.isFinite ∧ rule.lift.isFinite
        ∧ (rule.confidence ≠ .fin 1 → rule.conviction.isFinite))
    ∧ (∀ itemset : List String, calculateSupport [] itemset = .nan) := by
  constructor
  · intro rule hrule
    rw [detectAssociationRules, mem_sortByLiftDesc, List.mem_flatMap] at hrule
    obtain ⟨itemset, hitemset, hmem⟩ := hrule
    have htrans : generateTransactions P data ≠ [] := by
      intro hnil
      rw [hnil, generateFrequentItemsets_nil] at hitemset
      simp at hitemset
    set transactions := generateTransactions P data with htr
    split at hmem
    swap
    · simp at hmem
    rw [List.mem_filterMap] at hmem
    obtain ⟨antecedent, hant, hsome⟩ := hmem
    simp only at hsome
    split at hsome
    · exact Option.noConfusion hsome
    split at hsome
    swap
    · exact Option.noConfusion hsome
    rw [Option.some.injEq] at hsome
    subst hsome
    obtain ⟨sA, hsA⟩ : ∃ q, calculateSupport transactions antecedent = .fin q :=
      ⟨_, calculateSupport_eq _ _ htrans⟩
    obtain ⟨sI, hsI⟩ : ∃ q, calculateSupport transactions itemset = .fin q :=
      ⟨_, calculateSupport_eq _ _ htrans⟩
    obtain ⟨sC, hsC⟩ : ∃ q,
        calculateSupport transactions
          (itemset.filter (fun item => !antecedent.contains item)) = .fin q :=
      ⟨_, calculateSupport_eq _ _ htrans⟩
    have hconf : ∃ f, calculateConfidence transactions antecedent itemset = .fin f := by
      unfold calculateConfidence
      simp only [hsA, hsI, JSNum.gt_fin_fin]
      by_cases h0 : 0 < sA
      · rw [if_pos (by simpa using h0), JSNum.div_fin_of_ne _ (ne_of_gt h0)]
        exact ⟨_, rfl⟩
      · rw [if_neg (by simpa using h0)]
        exact ⟨0, rfl⟩
    obtain ⟨f, hf⟩ := hconf
    refine ⟨by simp [hsI, JSNum.isFinite], by simp [hf, JSNum.isFinite], ?_, ?_⟩
    · unfold calculateLift
      simp only [hsA, hsC, hsI, JSNum.gt_fin_fin]
      by_cases hc0 : 0 < sC
      · rw [if_pos (by simpa using hc0)]
        by_cases ha0 : 0 < sA
        · rw [if_pos (by simpa using ha0),
            JSNum.div_fin_of_ne _ (ne_of_gt ha0), JSNum.div_fin_of_ne _ (ne_of_gt hc0)]
          simp [JSNum.isFinite]
        · rw [if_neg (by simpa using ha0),
            JSNum.div_fin_of_ne _ (ne_of_gt hc0)]
          simp [JSNum.isFinite]
      · rw [if_neg (by simpa using hc0)]
        simp [JSNum.isFinite]
    · intro hne
      rw [hf] at hne
      have hf1 : f ≠ 1 := fun h => hne (by rw [h])
      unfold calculateConviction
      simp only [hsC, hf, JSNum.gt_fin_fin]
      by_cases hc0 : 0 < sC
      · rw [if_pos (by simpa using hc0)]
        show (JSNum.div (JSNum.sub (.fin 1) (.fin sC)) (JSNum.sub (.fin 1) (.fin f))).isFinite
        show (JSNum.div (.fin (1 - sC)) (.fin (1 - f))).isFinite
        rw [JSNum.div_fin_of_ne _ (by intro h; exact hf1 (by linarith [sub_eq_zero.mp h]))]
        simp [JSNum.isFinite]
      · rw [if_neg (by simpa using hc0)]
        simp [JSNum.isFinite]
  · intro itemset
    rfl

/-- Concrete instance of `assocRules_arithmetic`: on a two-record dataset
the intended-dispatch miner produces a rule whose support, confidence and
lift are finite. -/
theorem assocRules_arithmetic_witness :
    (∀ rule ∈ detectAssociationRules testPlatform
        [[("a", .str "1"), ("b", .str "2")], [("a", .str "1"), ("c", .str "3")]]
        (1/10) (1/2),
      rule.support.isFinite ∧ rule.confidence.isFinite ∧ rule.lift.isFinite)
    ∧ calculateSupport [] ["a=1"] = .nan := by
  have h := assocRules_arithmetic testPlatform
    [[("a", .str "1"), ("b", .str "2")], [("a", .str "1"), ("c", .str "3")]]
    (1/10) (1/2)
  exact ⟨fun rule hr => ⟨(h.1 rule hr).1, (h.1 rule hr).2.1, (h.1 rule hr).2.2.1⟩,
    h.2 ["a=1"]⟩

/-- On the intended 3-argument dispatch, a single record `{a: "1", b: "2"}`
yields the transactions `[[a=1, b=2]]`; both generated rules have
confidence 1 and conviction `0/0 = NaN` — the `1 - confidence` denominator
of the conviction formula is unguarded. -/
theorem assocRules_conviction_nan :
    ((detectAssociationRules testPlatform [[("a", .str "1"), ("b", .str "2")]]
        (1/10) (6/10)).map (fun r => r.conviction)) = [.nan, .nan]
    ∧ ¬ JSNum.nan.isFinite := by
  refine ⟨?_, by simp [JSNum.isFinite]⟩
  norm_num +decide [detectAssociationRules, generateTransactions, recordTokens,
    shouldIncludeInTransaction, startsWithSys, JValue.truthy, JValue.isObjectType,
    jsToString, testPlatform, generateFrequentItemsets, bumpCount, pairsOf,
    calculateSupport, calculateConfidence, calculateLift, calculateConviction,
    generateSubsets, sortByLiftDesc, insertByLift, JSNum.div, JSNum.sub,
    JSNum.gt, JSNum.ge, JSNum.lt, JSNum.le, List.filter, List.filterMap,
    List.flatMap, Nat.testBit, List.range, List.range.loop]

/-- C1: `AssociationRuleMiner` defines `calculateConfidence` twice — the
3-argument rule-confidence formula and a later 1-argument sample-size
helper — so TypeScript rejects the class, and under JavaScript
later-definition-wins dispatch `detectAssociationRules` hands the
transactions array to the 1-argument helper.  Whenever that array does not
coerce to a number (every encoder token has the form `field=value`), the
computed confidence is NaN, `NaN >= minConfidence` is false, and the miner
generates no rules at all, so the claim's per-rule guarantees never see a
rule (first conjunct).  The cited formulas are also unguarded as the claim
denies: support over an empty transaction list is `0/0 = NaN` (second
conjunct), and conviction at confidence 1 is `0/0 = NaN` on a
one-transaction instance (third conjunct). -/
theorem assocRules_dispatch_bug (P : Platform) (data : List JRecord)
    (minSupport minConfidence : ℚ)
    (hnan : transactionsToNumber P (generateTransactions P data) = .nan) :
    detectAssociationRulesRun P data minSupport minConfidence = []
    ∧ (∀ itemset : List String, calculateSupport [] itemset = .nan)
    ∧ calculateConviction [["a=1", "b=2"]] ["a=1"] ["b=2"] (.fin 1) = .nan := by
  have hconf : runtimeRuleConfidence P (generateTransactions P data) = .nan := by
    rw [runtimeRuleConfidence, hnan]
    rfl
  refine ⟨?_, fun itemset => rfl, ?_⟩
  · rw [List.eq_nil_iff_forall_not_mem]
    intro rule hrule
    rw [detectAssociationRulesRun, mem_sortByLiftDesc, List.mem_flatMap] at hrule
    obtain ⟨itemset, hitemset, hmem⟩ := hrule
    split at hmem
    swap
    · simp at hmem
    rw [List.mem_filterMap] at hmem
    obtain ⟨antecedent, hant, hsome⟩ := hmem
    simp only at hsome
    split at hsome
    · exact Option.noConfusion hsome
    split at hsome
    · next hge =>
        rw [hconf] at hge
        have hfalse : JSNum.ge JSNum.nan (.fin minConfidence) = false := rfl
        rw [hfalse] at hge
        exact Bool.false_ne_true hge
    · exact Option.noConfusion hsome
  · norm_num +decide [calculateConviction, calculateSupport, JSNum.div, JSNum.sub,
      JSNum.gt, JSNum.lt, List.filter]

/-- C1 witness: on the single record `{a: "1", b: "2"}` the transactions
array coerces to NaN and the runtime miner returns no rules; support over
the empty transaction list and conviction at confidence 1 are NaN. -/
theorem assocRules_dispatch_bug_witness :
    transactionsToNumber testPlatform
        (generateTransactions testPlatform [[("a", .str "1"), ("b", .str "2")]]) = .nan
    ∧ detectAssociationRulesRun testPlatform [[("a", .str "1"), ("b", .str "2")]]
        (1/10) (6/10) = []
    ∧ calculateSupport [] ["a=1"] = .nan
    ∧ calculateConviction [["a=1", "b=2"]] ["a=1"] ["b=2"] (.fin 1) = .nan := by
  have h := assocRules_dispatch_bug testPlatform [[("a", .str "1"), ("b", .str "2")]]
    (1/10) (6/10) rfl
  exact ⟨rfl, h.1, h.2.1 ["a=1"], h.2.2⟩

/-- C5 (amended): over a non-empty transaction list, support is antitone in
itemset inclusion: `support(X) ≥ support(Y)` whenever `X ⊆ Y`. -/
theorem support_monotone (transactions : List (List String)) (X Y : List String)
    (hT : transactions ≠ []) (hXY : ∀ i ∈ X, i ∈ Y) :
    JSNum.ge (calculateSupport transactions X) (calculateSupport transactions Y) = true := by
  rw [calculateSupport_eq _ _ hT, calculateSupport_eq _ _ hT, JSNum.ge_fin_fin]
  rw [decide_eq_true_eq]
  have hlen : ((transactions.filter (fun t => Y.all (fun i => t.contains i))).length : ℚ)
      ≤ ((transactions.filter (fun t => X.all (fun i => t.contains i))).length : ℚ) := by
    have : (transactions.filter (fun t => Y.all (fun i => t.contains i))).length
        ≤ (transactions.filter (fun t => X.all (fun i => t.contains i))).length := by
      rw [← List.countP_eq_length_filter, ← List.countP_eq_length_filter]
      refine List.countP_mono_left (fun t _ hY => ?_)
      rw [List.all_eq_true] at hY ⊢
      intro i hi
      exact hY i (hXY i hi)
    exact_mod_cast this
  have hpos : (0 : ℚ) < (transactions.length : ℚ) := by
    have : 0 < transactions.length := List.length_pos.mpr hT
    exact_mod_cast this
  gcongr

/-- C5 witness: with transactions `[[a], [b]]` and `[a] ⊆ [a, b]`, the support
of the singleton is at least the support of the pair. -/
theorem support_monotone_witness :
    JSNum.ge (calculateSupport [["a"], ["b"]] ["a"])
      (calculateSupport [["a"], ["b"]] ["a", "b"]) = true :=
  support_monotone [["a"], ["b"]] ["a"] ["a", "b"] (by decide)
    (by intro i hi; fin_cases hi <;> decide)

/-- C5 counterexample: over the empty transaction list every support is
`0/0 = NaN`, and `NaN ≥ NaN` is false in JavaScript, so the claim's
quantification over every transaction list fails at the empty list even with
`X = Y = ∅`. -/
theorem support_monotone_nan :
    (∀ i ∈ ([] : List String), i ∈ ([] : List String))
    ∧ JSNum.ge (calculateSupport [] []) (calculateSupport [] []) = false := by
  exact ⟨by simp, rfl⟩

/-! ## Pattern Scorer (`PatternScorer.ts`) -/

/-- A candidate pattern as produced by the miners and detectors
(`PatternRule` in `AssociationRuleMiner.ts`; the same object shape flows into
`PatternScorer.scoreAndFilterPatterns`).  `impact` and `confidence` are on the
0-100 percent scale. -/
structure PatternRule where
  id : String
  title : String
  description : String
  impact : JSNum
  confidence : JSNum
  complexity : String
  «variables» : List String
  businessValue : List String
  implementation : List String
  metrics : List String
deriving DecidableEq, Repr

/-- `PatternScore` (all components on the 0-1 scale where applicable). -/
structure PatternScore where
  patternId : String
  support : JSNum
  confidence : JSNum
  lift : JSNum
  conviction : JSNum
  impact : JSNum
  complexity : JSNum
  overallScore : JSNum
deriving DecidableEq, Repr

/-- `ScoredPattern`: the candidate together with its scores. -/
structure ScoredPattern where
  pattern : PatternRule
  scores : PatternScore
deriving DecidableEq, Repr

namespace Scorer

/-- `PatternScorer.getComplexityFactor` (`factors[complexity] || 1.0`). -/
def getComplexityFactor (complexity : String) : ℚ :=
  if complexity = "Low" then 12/10
  else if complexity = "Medium" then 1
  else if complexity = "High" then 8/10
  else if complexity = "Very High" then 6/10
  else 1

/-- `PatternScorer.calculateSupport`. -/
def calculateSupport (p : PatternRule) : JSNum :=
  .fin (min 1 ((3/10) * getComplexityFactor p.complexity
    * max (1/10) (1 - (p.«variables».length : ℚ) * (1/10))))

/-- `PatternScorer.calculateConfidence`: the provided percentage when truthy,
else derived from impact and complexity. -/
def calculateConfidence (p : PatternRule) : JSNum :=
  if p.confidence.truthy then JSNum.div p.confidence (.fin 100)
  else
    JSNum.min2 (.fin 1)
      (JSNum.mul
        (JSNum.mul (.fin (7/10)) (JSNum.min2 (.fin 1) (JSNum.div p.impact (.fin 100))))
        (.fin (getComplexityFactor p.complexity)))

/-- `PatternScorer.calculateLift` (`confidence / support`, 1 when support is
not positive). -/
def calculateLift (p : PatternRule) : JSNum :=
  let confidence := calculateConfidence p
  let support := calculateSupport p
  if JSNum.gt support (.fin 0) then JSNum.div confidence support else .fin 1

/-- `PatternScorer.calculateConviction` (`(1-support)/(1-confidence)`, 1 when
confidence is not below 1). -/
def calculateConviction (p : PatternRule) : JSNum :=
  let confidence := calculateConfidence p
  let support := calculateSupport p
  if JSNum.lt confidence (.fin 1) then
    JSNum.div (JSNum.sub (.fin 1) support) (JSNum.sub (.fin 1) confidence)
  else .fin 1

/-- `PatternScorer.calculateImpact`. -/
def calculateImpact (p : PatternRule) : JSNum :=
  if p.impact.truthy then JSNum.div p.impact (.fin 100)
  else
    JSNum.min2 (.fin 1)
      (.fin ((5/10) * min 1 ((p.«variables».length : ℚ) / 5)
        * getComplexityFactor p.complexity))

/-- `PatternScorer.calculateComplexity` (`complexityMap[..] || 0.5`). -/
def calculateComplexity (p : PatternRule) : JSNum :=
  .fin (if p.complexity = "Low" then 2/10
    else if p.complexity = "Medium" then 5/10
    else if p.complexity = "High" then 8/10
    else if p.complexity = "Very High" then 1
    else 5/10)

/-- `PatternScorer.calculateOverallScore`: the fixed weighted sum, with lift
capped at 5 and conviction at 10, clamped to at most 1. -/
def calculateOverallScore (support confidence lift conviction impact complexity : JSNum) :
    JSNum :=
  let weightedScore :=
    JSNum.add
      (JSNum.add
        (JSNum.add
          (JSNum.add
            (JSNum.add (JSNum.mul support (.fin (15/100)))
              (JSNum.mul confidence (.fin (25/100))))
            (JSNum.mul (JSNum.div (JSNum.min2 lift (.fin 5)) (.fin 5)) (.fin (20/100))))
          (JSNum.mul (JSNum.div (JSNum.min2 conviction (.fin 10)) (.fin 10)) (.fin (10/100))))
        (JSNum.mul impact (.fin (25/100))))
      (JSNum.mul (JSNum.sub (.fin 1) complexity) (.fin (5/100)))
  JSNum.min2 (.fin 1) weightedScore

/-- `PatternScorer.calculatePatternScores`. -/
def calculatePatternScores (p : PatternRule) : PatternScore :=
  let support := calculateSupport p
  let confidence := calculateConfidence p
  let lift := calculateLift p
  let conviction := calculateConviction p
  let impact := calculateImpact p
  let complexity := calculateComplexity p
  ⟨p.id, support, confidence, lift, conviction, impact, complexity,
    calculateOverallScore support confidence lift conviction impact complexity⟩

/-- Stable insertion for the `sort((a, b) => b.scores.overallScore -
a.scores.overallScore)` ranking. -/
def insertByScore (x : ScoredPattern) : List ScoredPattern → List ScoredPattern
  | [] => [x]
  | y :: ys =>
      if JSNum.gt x.scores.overallScore y.scores.overallScore then x :: y :: ys
      else y :: insertByScore x ys

/-- The ranking sort, stable and descending by overall score. -/
def sortByScoreDesc (l : List ScoredPattern) : List ScoredPattern :=
  l.foldl (fun acc r => insertByScore r acc) []

/-- `PatternScorer.scoreAndFilterPatterns`: score, filter by the confidence
and support thresholds, rank descending, truncate. -/
def scoreAndFilterPatterns (patterns : List PatternRule) (maxPatterns : ℕ)
    (minConfidence minSupport : ℚ) : List ScoredPattern :=
  let scoredPatterns := patterns.map (fun p => ScoredPattern.mk p (calculatePatternScores p))
  let filteredPatterns := scoredPatterns.filter (fun sp =>
    JSNum.ge sp.scores.confidence (.fin minConfidence)
      && JSNum.ge sp.scores.support (.fin minSupport))
  (sortByScoreDesc filteredPatterns).take maxPatterns

end Scorer

theorem JSNum.add_fin_fin (a b : ℚ) : JSNum.add (.fin a) (.fin b) = .fin (a + b) := rfl

theorem JSNum.sub_fin_fin (a b : ℚ) : JSNum.sub (.fin a) (.fin b) = .fin (a - b) := rfl

theorem JSNum.mul_fin_fin (a b : ℚ) : JSNum.mul (.fin a) (.fin b) = .fin (a * b) := rfl

theorem JSNum.min2_fin_fin (a b : ℚ) : JSNum.min2 (.fin a) (.fin b) = .fin (min a b) := rfl

theorem JSNum.lt_fin_fin (a b : ℚ) : JSNum.lt (.fin a) (.fin b) = decide (a < b) := rfl

/-- A JavaScript number that is finite and inside `[0, 1]`. -/
def JSNum.inUnitInterval (x : JSNum) : Prop := ∃ q : ℚ, x = .fin q ∧ 0 ≤ q ∧ q ≤ 1

/-- A JavaScript number that is finite and nonnegative. -/
def JSNum.finNonneg (x : JSNum) : Prop := ∃ q : ℚ, x = .fin q ∧ 0 ≤ q

theorem getComplexityFactor_bounds (c : String) :
    0 < Scorer.getComplexityFactor c ∧ Scorer.getComplexityFactor c ≤ 6/5 := by
  unfold Scorer.getComplexityFactor
  split_ifs <;> norm_num

theorem scorerSupport_bounds (p : PatternRule) :
    ∃ s : ℚ, Scorer.calculateSupport p = .fin s ∧ 0 < s ∧ s ≤ 1 := by
  refine ⟨_, rfl, ?_, min_le_left _ _⟩
  obtain ⟨hcf0, _⟩ := getComplexityFactor_bounds p.complexity
  have hvf : (0:ℚ) < max (1/10) (1 - (p.«variables».length : ℚ) * (1/10)) :=
    lt_max_of_lt_left (by norm_num)
  exact lt_min (by norm_num) (by positivity)

theorem scorerConfidence_bounds (p : PatternRule) (c i : ℚ)
    (hc : p.confidence = .fin c) (hc0 : 0 ≤ c) (hc100 : c ≤ 100)
    (hi : p.impact = .fin i) (hi0 : 0 ≤ i) :
    ∃ q : ℚ, Scorer.calculateConfidence p = .fin q ∧ 0 ≤ q ∧ q ≤ 1 := by
  unfold Scorer.calculateConfidence
  rw [hc, hi]
  by_cases htr : (JSNum.fin c).truthy
  · rw [if_pos htr, JSNum.div_fin_of_ne _ (by norm_num)]
    exact ⟨c / 100, rfl, by positivity, by linarith [div_le_one_of_le hc100 (by norm_num : (0:ℚ) ≤ 100)]⟩
  · rw [if_neg htr, JSNum.div_fin_of_ne _ (by norm_num : (100:ℚ) ≠ 0),
      JSNum.min2_fin_fin, JSNum.mul_fin_fin, JSNum.mul_fin_fin, JSNum.min2_fin_fin]
    obtain ⟨hcf0, _⟩ := getComplexityFactor_bounds p.complexity
    refine ⟨_, rfl, ?_, min_le_left _ _⟩
    have h1 : (0:ℚ) ≤ min 1 (i / 100) := le_min (by norm_num) (by positivity)
    exact le_min (by norm_num) (by positivity)

theorem scorerImpact_bounds (p : PatternRule) (i : ℚ)
    (hi : p.impact = .fin i) (hi0 : 0 ≤ i) (hi100 : i ≤ 100) :
    ∃ q : ℚ, Scorer.calculateImpact p = .fin q ∧ 0 ≤ q ∧ q ≤ 1 := by
  unfold Scorer.calculateImpact
  rw [hi]
  by_cases htr : (JSNum.fin i).truthy
  · rw [if_pos htr, JSNum.div_fin_of_ne _ (by norm_num)]
    exact ⟨i / 100, rfl, by positivity, by linarith [div_le_one_of_le hi100 (by norm_num : (0:ℚ) ≤ 100)]⟩
  · rw [if_neg htr, JSNum.min2_fin_fin]
    obtain ⟨hcf0, _⟩ := getComplexityFactor_bounds p.complexity
    refine ⟨_, rfl, ?_, min_le_left _ _⟩
    have h1 : (0:ℚ) ≤ min 1 ((p.«variables».length : ℚ) / 5) := le_min (by norm_num) (by positivity)
    exact le_min (by norm_num) (by positivity)

theorem scorerComplexity_bounds (p : PatternRule) :
    ∃ q : ℚ, Scorer.calculateComplexity p = .fin q ∧ 0 ≤ q ∧ q ≤ 1 := by
  unfold Scorer.calculateComplexity
  split_ifs <;> exact ⟨_, rfl, by norm_num, by norm_num⟩

/-- C4 (amended): for a candidate whose provided confidence and impact
percentages lie in `[0, 100]`, the scorer's support, confidence, impact,
complexity and overall score all lie in `[0, 1]`; lift and conviction are
finite and nonnegative but not clamped to `[0, 1]` (the counterexample shows
lift 3), being normalized only inside the overall-score computation. -/
theorem scorer_component_ranges (p : PatternRule) (c i : ℚ)
    (hc : p.confidence = .fin c) (hc0 : 0 ≤ c) (hc100 : c ≤ 100)
    (hi : p.impact = .fin i) (hi0 : 0 ≤ i) (hi100 : i ≤ 100) :
    (Scorer.calculatePatternScores p).support.inUnitInterval
    ∧ (Scorer.calculatePatternScores p).confidence.inUnitInterval
    ∧ (Scorer.calculatePatternScores p).impact.inUnitInterval
    ∧ (Scorer.calculatePatternScores p).complexity.inUnitInterval
    ∧ (Scorer.calculatePatternScores p).overallScore.inUnitInterval
    ∧ (Scorer.calculatePatternScores p).lift.finNonneg
    ∧ (Scorer.calculatePatternScores p).conviction.finNonneg := by
  obtain ⟨s, hs, hs0, hs1⟩ := scorerSupport_bounds p
  obtain ⟨cq, hcq, hcq0, hcq1⟩ := scorerConfidence_bounds p c i hc hc0 hc100 hi hi0
  obtain ⟨iq, hiq, hiq0, hiq1⟩ := scorerImpact_bounds p i hi hi0 hi100
  obtain ⟨xq, hxq, hxq0, hxq1⟩ := scorerComplexity_bounds p
  have hlift : ∃ l : ℚ, Scorer.calculateLift p = .fin l ∧ 0 ≤ l := by
    unfold Scorer.calculateLift
    simp only [hs, hcq, JSNum.gt_fin_fin]
    rw [if_pos (by simpa using hs0), JSNum.div_fin_of_ne _ (ne_of_gt hs0)]
    exact ⟨_, rfl, by positivity⟩
  have hconv : ∃ v : ℚ, Scorer.calculateConviction p = .fin v ∧ 0 ≤ v := by
    unfold Scorer.calculateConviction
    simp only [hs, hcq, JSNum.lt_fin_fin]
    by_cases h1 : cq < 1
    · rw [if_pos (by simpa using h1), JSNum.sub_fin_fin, JSNum.sub_fin_fin,
        JSNum.div_fin_of_ne _ (by intro h; rw [sub_eq_zero] at h; exact absurd h.symm (ne_of_lt h1))]
      refine ⟨_, rfl, div_nonneg (by linarith) (by linarith)⟩
    · rw [if_neg (by simpa using h1)]
      exact ⟨1, rfl, by norm_num⟩
  obtain ⟨l, hl, hl0⟩ := hlift
  obtain ⟨v, hv, hv0⟩ := hconv
  have hover : (Scorer.calculateOverallScore (Scorer.calculateSupport p)
      (Scorer.calculateConfidence p) (Scorer.calculateLift p)
      (Scorer.calculateConviction p) (Scorer.calculateImpact p)
      (Scorer.calculateComplexity p)).inUnitInterval := by
    unfold Scorer.calculateOverallScore
    simp only [hs, hcq, hl, hv, hiq, hxq, JSNum.min2_fin_fin, JSNum.mul_fin_fin,
      JSNum.sub_fin_fin, JSNum.add_fin_fin,
      JSNum.div_fin_of_ne _ (by norm_num : (5:ℚ) ≠ 0),
      JSNum.div_fin_of_ne _ (by norm_num : (10:ℚ) ≠ 0)]
    refine ⟨_, rfl, ?_, min_le_left _ _⟩
    have h5 : (0:ℚ) ≤ min l 5 := le_min hl0 (by norm_num)
    have h10 : (0:ℚ) ≤ min v 10 := le_min hv0 (by norm_num)
    have hterm : (0:ℚ) ≤ s * (15/100) + cq * (25/100) + min l 5 / 5 * (20/100)
        + min v 10 / 10 * (10/100) + iq * (25/100) + (1 - xq) * (5/100) := by
      have : (0:ℚ) ≤ 1 - xq := by linarith
      positivity
    exact le_min (by norm_num) hterm
  unfold Scorer.calculatePatternScores
  exact ⟨⟨s, hs, le_of_lt hs0, hs1⟩, ⟨cq, hcq, hcq0, hcq1⟩, ⟨iq, hiq, hiq0, hiq1⟩,
    ⟨xq, hxq, hxq0, hxq1⟩, hover, ⟨l, hl, hl0⟩, ⟨v, hv, hv0⟩⟩

/-- C4 witness: the ranged components at a concrete candidate with
confidence 90% and impact 50%. -/
theorem scorer_component_ranges_witness :
    (Scorer.calculatePatternScores
      ⟨"p1", "t", "d", .fin 50, .fin 90, "Medium", [], [], [], []⟩).support.inUnitInterval
    ∧ (Scorer.calculatePatternScores
      ⟨"p1", "t", "d", .fin 50, .fin 90, "Medium", [], [], [], []⟩).overallScore.inUnitInterval := by
  have h := scorer_component_ranges
    ⟨"p1", "t", "d", .fin 50, .fin 90, "Medium", [], [], [], []⟩ 90 50
    rfl (by norm_num) (by norm_num) rfl (by norm_num) (by norm_num)
  exact ⟨h.1, h.2.2.2.2.1⟩

/-- C4 counterexample: the ordinary candidate `{confidence: 90, impact: 50,
complexity: Medium, variables: []}` passes `scoreAndFilterPatterns`' default
0.6/0.1 thresholds and its scored lift is `0.9 / 0.3 = 3`, outside `[0, 1]` —
so not every component of the resulting `PatternScore` lies in `[0, 1]`. -/
theorem scorer_lift_exceeds_unit :
    ((Scorer.scoreAndFilterPatterns
        [⟨"p1", "t", "d", .fin 50, .fin 90, "Medium", [], [], [], []⟩]
        10 (6/10) (1/10)).map (fun sp => sp.scores.lift)) = [.fin 3]
    ∧ ¬ ((3:ℚ) ≤ 1) := by
  constructor
  · norm_num +decide [Scorer.scoreAndFilterPatterns, Scorer.calculatePatternScores,
      Scorer.calculateSupport, Scorer.calculateConfidence, Scorer.calculateLift,
      Scorer.calculateConviction, Scorer.calculateImpact, Scorer.calculateComplexity,
      Scorer.calculateOverallScore, Scorer.getComplexityFactor, Scorer.sortByScoreDesc,
      Scorer.insertByScore, JSNum.truthy, JSNum.div, JSNum.sub, JSNum.add, JSNum.mul,
      JSNum.min2, JSNum.gt, JSNum.ge, JSNum.lt, JSNum.le, List.filter]
  · norm_num

/-! ## Domain pattern detectors and rule conversion
(`AssociationRuleMiner.ts`, lines 476-789) -/

/-- Truthiness of a possibly-missing property (`undefined` is falsy). -/
def truthyOpt : Option JValue → Bool
  | some v => v.truthy
  | none => false

/-- `a || b` on a possibly-missing left operand. -/
def jsOrVal (o : Option JValue) (b : JValue) : JValue :=
  match o with
  | some v => if v.truthy then v else b
  | none => b

/-- `r[k] || b`. -/
def jsGetOr (r : JRecord) (k : String) (b : JValue) : JValue :=
  jsOrVal (getField r k) b

/-- `ToPrimitive` with the default hint (`Date`s become strings, as in `+`). -/
def toPrimitiveDefault (P : Platform) : JValue → JValue
  | .jdate ms => .str (P.dateToStr ms)
  | .obj s => .str s
  | v => v

/-- JavaScript `+`: string concatenation when either primitive is a string,
numeric addition otherwise.  The numeric operands here are numbers, booleans
or `null`, whose `ToNumber` is always finite, so the final catch-all is
unreachable. -/
def jsAdd (P : Platform) (a b : JValue) : JValue :=
  match toPrimitiveDefault P a, toPrimitiveDefault P b with
  | .str sa, pb => .str (sa ++ jsToString P pb)
  | pa, .str sb => .str (jsToString P pa ++ sb)
  | pa, pb =>
      match jsToNumber P pa, jsToNumber P pb with
      | .fin qa, .fin qb => .num (qa + qb)
      | _, _ => .num 0

/-- `AssociationRuleMiner.parseDate` applied to a property value: falsy values
give `null`; `Date`s pass through; everything else goes through the host's
`Date` constructor. -/
def minerParseDate (P : Platform) : Option JValue → Option ℤ
  | none => none
  | some v =>
      if !v.truthy then none
      else match v with
        | .jdate d => some d
        | .str s => P.dateParse s
        | .num q => P.dateFromNum q
        | .boolean _ => P.dateFromNum 1
        | .jnull => none
        | .obj s => P.dateParse s

/-- `AssociationRuleMiner.createDefaultPattern`: the zero-impact,
zero-confidence "insufficient data" placeholder. -/
def createDefaultPattern (id title : String) : PatternRule :=
  { id := id
    title := title
    description := "Pattern analysis requires more data for accurate detection."
    impact := .fin 0
    confidence := .fin 0
    complexity := "Medium"
    «variables» := []
    businessValue := []
    implementation := []
    metrics := [] }

/-- `AssociationRuleMiner.calculateAverageProfit` (mean of the truthy-positive
`profit || margin || 0` values; JavaScript `+` semantics preserved). -/
def calculateAverageProfit (P : Platform) (records : List JRecord) : JSNum :=
  if records.length = 0 then .fin 0
  else
    let profits := (records.map (fun r => jsGetOr r "profit" (jsGetOr r "margin" (.num 0)))).filter
      (fun p => JSNum.gt (jsToNumber P p) (.fin 0))
    if 0 < profits.length then
      JSNum.div (jsToNumber P (profits.foldl (fun a b => jsAdd P a b) (.num 0)))
        (.fin profits.length)
    else .fin 0

/-- `AssociationRuleMiner.calculateWinRate` (percentage of records with
`status === 'won'` or `outcome === 'success'`). -/
def calculateWinRate (records : List JRecord) : ℚ :=
  if records.length = 0 then 0
  else
    ((records.filter (fun r =>
        getField r "status" == some (.str "won")
          || getField r "outcome" == some (.str "success"))).length : ℚ)
      / (records.length : ℚ) * 100

/-- `AssociationRuleMiner.calculateConfidence(sampleSize)` — the sample-size
based detector confidence, capped at 95.  This is the class's *second*
definition of `calculateConfidence`; under JavaScript later-definition-wins
dispatch it shadows the 3-argument rule formula throughout the class. -/
def minerSampleConfidence (sampleSize : ℕ) : ℚ :=
  min (85 + min ((sampleSize : ℚ) / 100) 1 * 15) 95

/-- `AssociationRuleMiner.detectCertificationPattern`. -/
def detectCertificationPattern (P : Platform) (data : List JRecord) : PatternRule :=
  let certData := data.filter (fun d =>
    truthyOpt (getField d "certification_density")
      || truthyOpt (getField d "team_composition"))
  if certData.length = 0 then
    createDefaultPattern "certification_paradox" "Certification Pattern"
  else
    let mixedCert := certData.filter (fun d =>
      JSNum.ge (jsToNumber P (jsGetOr d "certification_density" (.num 0))) (.fin (4/10))
        && JSNum.le (jsToNumber P (jsGetOr d "certification_density" (.num 0))) (.fin (6/10)))
    let otherCert := certData.filter (fun d =>
      JSNum.lt (jsToNumber P (jsGetOr d "certification_density" (.num 0))) (.fin (4/10))
        || JSNum.gt (jsToNumber P (jsGetOr d "certification_density" (.num 0))) (.fin (6/10)))
    let mixedProfit := calculateAverageProfit P mixedCert
    let otherProfit := calculateAverageProfit P otherCert
    let impact :=
      if JSNum.gt otherProfit (.fin 0) then
        JSNum.mul (JSNum.div (JSNum.sub mixedProfit otherProfit) otherProfit) (.fin 100)
      else .fin 0
    { id := "certification_paradox"
      title := "The Certification Velocity Paradox"
      description := "Teams with mixed certification density (40-60% certified members) outperform by "
        ++ P.toFixed1 (JSNum.abs impact) ++ "% in profit margins."
      impact := JSNum.abs impact
      confidence := .fin (minerSampleConfidence certData.length)
      complexity := "Very High"
      «variables» := ["certification_density", "team_composition", "experience_levels",
        "project_complexity"]
      businessValue := [P.toFixed1 (JSNum.abs (JSNum.mul impact (.fin (6/10)))) ++ "% cost reduction",
        P.toFixed1 (JSNum.abs (JSNum.mul impact (.fin (7/10)))) ++ "% faster delivery",
        "Improved client satisfaction"]
      implementation := ["Implement mentorship-driven delivery model",
        "Adjust team composition ratios", "Track performance metrics"]
      metrics := ["Team composition effectiveness", "Project delivery time",
        "Client satisfaction scores"] }

/-- The `d.submission_date || d.tender_date` value fed to the date parse in
`detectQuarterEndPattern`. -/
def tenderDateValue (d : JRecord) : Option JValue :=
  if truthyOpt (getField d "submission_date") then getField d "submission_date"
  else getField d "tender_date"

/-- `AssociationRuleMiner.detectQuarterEndPattern`. -/
def detectQuarterEndPattern (P : Platform) (data : List JRecord) : PatternRule :=
  let tenderData := data.filter (fun d =>
    truthyOpt (getField d "submission_date") || truthyOpt (getField d "tender_date"))
  if tenderData.length = 0 then
    createDefaultPattern "quarter_end_trap" "Quarter-End Pattern"
  else
    let quarterEnd := tenderData.filter (fun d =>
      match minerParseDate P (tenderDateValue d) with
      | some ms => decide (15 ≤ P.dDayOfMonth ms)
      | none => false)
    let otherPeriods := tenderData.filter (fun d =>
      match minerParseDate P (tenderDateValue d) with
      | some ms => decide (P.dDayOfMonth ms < 15)
      | none => false)
    let quarterEndWinRate := calculateWinRate quarterEnd
    let otherWinRate := calculateWinRate otherPeriods
    let impact : ℚ :=
      if 0 < otherWinRate then (quarterEndWinRate - otherWinRate) / otherWinRate * 100
      else 0
    { id := "quarter_end_trap"
      title := "The Quarter-End Acquisition Trap"
      description := "Quarter-end submissions show " ++ P.toFixed1 (.fin |impact|)
        ++ "% different win rates."
      impact := .fin |impact|
      confidence := .fin (minerSampleConfidence tenderData.length)
      complexity := "High"
      «variables» := ["submission_timing", "quarter_boundaries", "pricing_pressure"]
      businessValue := [P.toFixed1 (.fin |impact|) ++ "% win rate optimization",
        "Reduced client complaints", "Better project planning"]
      implementation := ["Implement quarter buffer zone policy",
        "Establish emergency pricing approval", "Create compressed planning protocols"]
      metrics := ["Quarter-end vs. other period success rates",
        "Client complaint frequency", "Project planning time adequacy"] }

/-- The three remaining detectors are stubs returning the placeholder. -/
def detectIndustryExperiencePattern (_data : List JRecord) : PatternRule :=
  createDefaultPattern "industry_amplification" "Industry Experience Pattern"

def detectCommunicationPattern (_data : List JRecord) : PatternRule :=
  createDefaultPattern "communication_hierarchy" "Communication Pattern"

def detectGeographicPattern (_data : List JRecord) : PatternRule :=
  createDefaultPattern "geographic_inefficiency" "Geographic Pattern"

/-- `AssociationRuleMiner.detectSalesPatterns`: the five detectors, keeping
only patterns with positive confidence. -/
def detectSalesPatterns (P : Platform) (data : List JRecord) : List PatternRule :=
  ([detectCertificationPattern P data,
    detectQuarterEndPattern P data,
    detectIndustryExperiencePattern data,
    detectCommunicationPattern data,
    detectGeographicPattern data]).filter (fun p => JSNum.gt p.confidence (.fin 0))

/-- `AssociationRuleMiner.determineComplexity`. -/
def determineComplexity (rule : AssociationRule) : String :=
  let totalVariables := rule.antecedent.length + rule.consequent.length
  if totalVariables ≤ 2 && JSNum.lt rule.confidence (.fin (7/10)) then "Low"
  else if totalVariables ≤ 3 && JSNum.lt rule.confidence (.fin (8/10)) then "Medium"
  else if totalVariables ≤ 4 && JSNum.lt rule.confidence (.fin (9/10)) then "High"
  else "Very High"

/-- `AssociationRuleMiner.createPatternFromRule`. -/
def createPatternFromRule (P : Platform) (rule : AssociationRule) (index : ℕ) : PatternRule :=
  let antecedentStr := String.intercalate " + " rule.antecedent
  let consequentStr := String.intercalate " → " rule.consequent
  { id := "pattern_" ++ toString (index + 1)
    title := "Association Rule: " ++ antecedentStr ++ " → " ++ consequentStr
    description := "When " ++ antecedentStr ++ " occurs, " ++ consequentStr
      ++ " follows with " ++ P.toFixed1 (JSNum.mul rule.confidence (.fin 100))
      ++ "% confidence."
    impact := JSNum.mul rule.lift (.fin 10)
    confidence := JSNum.mul rule.confidence (.fin 100)
    complexity := determineComplexity rule
    «variables» := rule.antecedent ++ rule.consequent
    businessValue := [P.toFixed1 (JSNum.mul rule.confidence (.fin 100)) ++ "% prediction accuracy",
      P.toFixed1 (JSNum.mul rule.lift (.fin 100)) ++ "% improvement over random chance"]
    implementation := ["Monitor antecedent conditions", "Prepare for consequent outcomes",
      "Optimize based on pattern strength"]
    metrics := ["Pattern occurrence frequency", "Prediction accuracy tracking",
      "Business impact measurement"] }

/-- `AssociationRuleMiner.convertRulesToPatterns`. -/
def convertRulesToPatterns (P : Platform) (rules : List AssociationRule) : List PatternRule :=
  rules.enum.map (fun ir => createPatternFromRule P ir.2 ir.1)

/-- C7: when no record carries a `certification_density` or
`team_composition` field, the certification-density detector returns (totally,
without raising) the `certification_paradox` placeholder with zero impact,
zero confidence and empty variables, businessValue, implementation and
metrics; and the scorer's minConfidence = 0.6 filter excludes that placeholder
from the scored output whatever the other scoring parameters are. -/
theorem cert_detector_placeholder (P : Platform) (data : List JRecord)
    (h : ∀ r ∈ data, getField r "certification_density" = none
      ∧ getField r "team_composition" = none) :
    detectCertificationPattern P data
        = createDefaultPattern "certification_paradox" "Certification Pattern"
    ∧ (detectCertificationPattern P data).impact = .fin 0
    ∧ (detectCertificationPattern P data).confidence = .fin 0
    ∧ (detectCertificationPattern P data).«variables» = []
    ∧ (detectCertificationPattern P data).businessValue = []
    ∧ (detectCertificationPattern P data).implementation = []
    ∧ (detectCertificationPattern P data).metrics = []
    ∧ ∀ (maxPatterns : ℕ) (minSupport : ℚ),
        Scorer.scoreAndFilterPatterns [detectCertificationPattern P data]
          maxPatterns (6/10) minSupport = [] := by
  have hfilter : data.filter (fun d =>
      truthyOpt (getField d "certification_density")
        || truthyOpt (getField d "team_composition")) = [] := by
    rw [List.filter_eq_nil_iff]
    intro d hd
    rw [(h d hd).1, (h d hd).2]
    decide
  have hdet : detectCertificationPattern P data
      = createDefaultPattern "certification_paradox" "Certification Pattern" := by
    unfold detectCertificationPattern
    rw [hfilter]
    rfl
  refine ⟨hdet, by rw [hdet]; rfl, by rw [hdet]; rfl, by rw [hdet]; rfl,
    by rw [hdet]; rfl, by rw [hdet]; rfl, by rw [hdet]; rfl, ?_⟩
  intro maxPatterns minSupport
  rw [hdet]
  have hconf : Scorer.calculateConfidence
      (createDefaultPattern "certification_paradox" "Certification Pattern") = .fin 0 := by
    norm_num [Scorer.calculateConfidence, createDefaultPattern, JSNum.truthy,
      JSNum.div, JSNum.mul, JSNum.min2, Scorer.getComplexityFactor]
  have hge : JSNum.ge (Scorer.calculateConfidence
      (createDefaultPattern "certification_paradox" "Certification Pattern"))
        (.fin (6/10)) = false := by
    rw [hconf, JSNum.ge_fin_fin]
    norm_num
  unfold Scorer.scoreAndFilterPatterns
  simp only [List.map_cons, List.map_nil, List.filter, Scorer.calculatePatternScores]
  rw [hge]
  simp [Scorer.sortByScoreDesc]

/-- C7 witness: a record set carrying only `profit` fields triggers the
placeholder path and the 0.6 filter empties the scored output. -/
theorem cert_detector_placeholder_witness :
    detectCertificationPattern testPlatform [[("profit", .num 5)]]
        = createDefaultPattern "certification_paradox" "Certification Pattern"
    ∧ Scorer.scoreAndFilterPatterns
        [detectCertificationPattern testPlatform [[("profit", .num 5)]]]
        8 (6/10) (1/10) = [] := by
  have h := cert_detector_placeholder testPlatform [[("profit", .num 5)]]
    (by intro r hr; rw [List.mem_singleton] at hr; subst hr; exact ⟨rfl, rfl⟩)
  exact ⟨h.1, h.2.2.2.2.2.2.2 8 (1/10)⟩

/-! ## Column Type Detector (`DataCleaner.ts`) -/

/-- The inferred column type enum
(`'date' | 'numeric' | 'categorical' | 'text' | 'boolean'`). -/
inductive CType where
  | date
  | numeric
  | boolean
  | categorical
  | text
deriving DecidableEq, Repr

/-- One `ColumnType` inference result. -/
structure ColumnType where
  name : String
  type : CType
  confidence : ℚ
deriving DecidableEq, Repr

/-- `toLowerCase`, written over the character list so it evaluates. -/
def jsToLower (s : String) : String := String.mk (s.data.map Char.toLower)

/-- `DataCleaner.isDateValue`. -/
def isDateValue (P : Platform) : JValue → Bool
  | .jdate _ => true
  | .str s => (P.dateParse s).isSome
  | _ => false

/-- `DataCleaner.isNumericValue` (`parseFloat` success with a finite
result). -/
def isNumericValue (P : Platform) : JValue → Bool
  | .num _ => true
  | .str s => (P.parseFloatQ s).isSome
  | _ => false

/-- `DataCleaner.isBooleanValue`. -/
def isBooleanValue : JValue → Bool
  | .boolean _ => true
  | .str s => ["true", "false", "yes", "no", "1", "0"].contains (jsToLower s)
  | _ => false

/-- `new Set(sample).size`: primitive values compare by value, `Date`s and
other objects by reference — and every object in a freshly parsed record is a
distinct reference, so each object occurrence counts separately. -/
def countDistinctJS (sample : List JValue) : ℕ :=
  ((sample.filter (fun v => !v.isObjectType || v == .jnull)).dedup).length
    + (sample.filter (fun v => v.isObjectType && v != .jnull)).length

/-- The non-null, non-undefined values of a column, in record order
(`data.map(r => r[col]).filter(v => v !== undefined && v !== null)`). -/
def columnSampleValues (data : List JRecord) (column : String) : List JValue :=
  (data.map (fun r => getField r column)).filterMap (fun o =>
    match o with
    | none => none
    | some .jnull => none
    | some v => some v)

/-- The five (type, confidence) candidates of `detectColumnType`, in the
source's fixed evaluation order: date, numeric, boolean, categorical, text. -/
def columnConfidences (P : Platform) (data : List JRecord) (column : String) :
    List (CType × ℚ) :=
  let values := columnSampleValues data column
  let sampleSize := min values.length 100
  let sample := values.take sampleSize
  let dateConfidence := ((sample.filter (isDateValue P)).length : ℚ) / (sampleSize : ℚ)
  let numericConfidence := ((sample.filter (isNumericValue P)).length : ℚ) / (sampleSize : ℚ)
  let booleanConfidence := ((sample.filter isBooleanValue).length : ℚ) / (sampleSize : ℚ)
  let categoricalConfidence : ℚ :=
    if (countDistinctJS sample : ℚ) ≤ min 20 ((sampleSize : ℚ) * (3/10)) then 8/10 else 2/10
  [(CType.date, dateConfidence), (CType.numeric, numericConfidence),
   (CType.boolean, booleanConfidence), (CType.categorical, categoricalConfidence),
   (CType.text, 1/10)]

/-- The source's `confidences.reduce((best, current) => current.confidence >
best.confidence ? current : best)`: fold from the first element, replacing
only on strictly higher confidence. -/
def pickBest (l : List (CType × ℚ)) (hd : CType × ℚ) : CType × ℚ :=
  l.foldl (fun best current => if best.2 < current.2 then current else best) hd

/-- `DataCleaner.detectColumnType`. -/
def detectColumnType (P : Platform) (data : List JRecord) (column : String) :
    CType × ℚ :=
  if (columnSampleValues data column).length = 0 then (CType.text, 0)
  else
    pickBest ((columnConfidences P data column).drop 1)
      ((columnConfidences P data column).headD (CType.text, 0))

/-- `DataCleaner.detectColumnTypes`: one inference per key of the first
record. -/
def detectColumnTypes (P : Platform) (data : List JRecord) : List ColumnType :=
  match data with
  | [] => []
  | first :: _ =>
      (keysOf first).map (fun column =>
        let tc := detectColumnType P data column
        ⟨column, tc.1, tc.2⟩)

theorem pickBest_spec :
    ∀ (l : List (CType × ℚ)) (hd : CType × ℚ),
      ∃ pre post, hd :: l = pre ++ pickBest l hd :: post
        ∧ (∀ c ∈ pre, c.2 < (pickBest l hd).2)
        ∧ (∀ c ∈ hd :: l, c.2 ≤ (pickBest l hd).2)
  | [], hd => ⟨[], [], rfl, by simp, by simp [pickBest]⟩
  | x :: xs, hd => by
      by_cases hlt : hd.2 < x.2
      · obtain ⟨pre, post, hsplit, hpre, hall⟩ := pickBest_spec xs x
        have hres : pickBest (x :: xs) hd = pickBest xs x := by
          simp [pickBest, hlt]
        refine ⟨hd :: pre, post, ?_, ?_, ?_⟩
        · rw [hres, List.cons_append, ← hsplit]
        · intro c hc
          rw [hres]
          rcases List.mem_cons.mp hc with rfl | hc2
          · exact lt_of_lt_of_le hlt (hall x (List.mem_cons_self ..))
          · exact hpre c hc2
        · intro c hc
          rw [hres]
          rcases List.mem_cons.mp hc with rfl | hc2
          · exact le_of_lt (lt_of_lt_of_le hlt (hall x (List.mem_cons_self ..)))
          · exact hall c hc2
      · obtain ⟨pre, post, hsplit, hpre, hall⟩ := pickBest_spec xs hd
        have hres : pickBest (x :: xs) hd = pickBest xs hd := by
          simp [pickBest, hlt]
        rw [hres]
        match pre, hsplit with
        | [], hsplit =>
            have hhd : pickBest xs hd = hd := by
              have := congrArg (fun l => l.headD (CType.text, 0)) hsplit
              simpa using this.symm
            refine ⟨[], x :: xs, by simp [hhd], by simp, ?_⟩
            intro c hc
            rcases List.mem_cons.mp hc with rfl | hc2
            · exact le_of_eq (by rw [hhd])
            · rcases List.mem_cons.mp hc2 with rfl | hc3
              · rw [hhd]; exact le_of_not_lt hlt
              · exact hall c (List.mem_cons_of_mem _ hc3)
        | p0 :: pre', hsplit =>
            have hp0 : p0 = hd := by
              have := congrArg (fun l => l.headD (CType.text, 0)) hsplit
              simpa using this.symm
            subst hp0
            have hxs : xs = pre' ++ pickBest xs p0 :: post := by
              simpa using congrArg List.tail hsplit
            have hhdlt : p0.2 < (pickBest xs p0).2 := hpre p0 (List.mem_cons_self ..)
            refine ⟨p0 :: x :: pre', post, ?_, ?_, ?_⟩
            · rw [List.cons_append, List.cons_append, ← hxs]
            · intro c hc
              rcases List.mem_cons.mp hc with rfl | hc2
              · exact hhdlt
              · rcases List.mem_cons.mp hc2 with rfl | hc3
                · exact lt_of_le_of_lt (le_of_not_lt hlt) hhdlt
                · exact hpre c (List.mem_cons_of_mem _ hc3)
            · intro c hc
              rcases List.mem_cons.mp hc with rfl | hc2
              · exact hall c (List.mem_cons_self ..)
              · rcases List.mem_cons.mp hc2 with rfl | hc3
                · exact le_trans (le_of_not_lt hlt) (le_of_lt hhdlt)
                · exact hall c (List.mem_cons_of_mem _ hc3)

/-- C8: the detector's candidate list is evaluated in the fixed order date,
numeric, boolean, categorical, text; an empty non-null sample yields
`(text, 0)`; otherwise the result is the first candidate of maximal
confidence — every earlier candidate has strictly lower confidence and no
candidate beats it, so exact ties go to the earlier type. -/
theorem detectColumnType_first_max (P : Platform) (data : List JRecord)
    (column : String) :
    ((columnConfidences P data column).map (fun c => c.1)
        = [CType.date, CType.numeric, CType.boolean, CType.categorical, CType.text])
    ∧ (columnSampleValues data column = [] →
        detectColumnType P data column = (CType.text, 0))
    ∧ (columnSampleValues data column ≠ [] →
        ∃ pre post,
          columnConfidences P data column
            = pre ++ detectColumnType P data column :: post
          ∧ (∀ c ∈ pre, c.2 < (detectColumnType P data column).2)
          ∧ (∀ c ∈ columnConfidences P data column,
              c.2 ≤ (detectColumnType P data column).2)) := by
  refine ⟨rfl, ?_, ?_⟩
  · intro hempty
    unfold detectColumnType
    rw [if_pos (by rw [hempty]; rfl)]
  · intro hne
    have hlen : ¬ (columnSampleValues data column).length = 0 := by
      simpa [List.length_eq_zero] using hne
    have hdet : detectColumnType P data column
        = pickBest ((columnConfidences P data column).drop 1)
            ((columnConfidences P data column).headD (CType.text, 0)) := by
      unfold detectColumnType
      rw [if_neg hlen]
    have hcs : columnConfidences P data column
        = ((columnConfidences P data column).headD (CType.text, 0))
          :: ((columnConfidences P data column).drop 1) := rfl
    obtain ⟨pre, post, hsplit, hpre, hall⟩ :=
      pickBest_spec ((columnConfidences P data column).drop 1)
        ((columnConfidences P data column).headD (CType.text, 0))
    exact ⟨pre, post, by rw [hcs, hsplit, hdet], fun c hc => hdet ▸ hpre c hc,
      fun c hc => hdet ▸ hall c (hcs ▸ hc)⟩

/-- C8 witness: on a one-record dataset whose column `x` holds the numeric
string "10", the sample is non-empty and the detector's pick is the first
candidate of maximal confidence (numeric, confidence 1). -/
theorem detectColumnType_first_max_witness :
    detectColumnType testPlatform [[("x", .str "10")]] "x" = (CType.numeric, 1)
    ∧ ∃ pre post,
        columnConfidences testPlatform [[("x", .str "10")]] "x"
          = pre ++ detectColumnType testPlatform [[("x", .str "10")]] "x" :: post
        ∧ (∀ c ∈ pre, c.2 < (detectColumnType testPlatform [[("x", .str "10")]] "x").2)
        ∧ (∀ c ∈ columnConfidences testPlatform [[("x", .str "10")]] "x",
            c.2 ≤ (detectColumnType testPlatform [[("x", .str "10")]] "x").2) := by
  constructor
  · norm_num +decide [detectColumnType, columnSampleValues, columnConfidences,
      pickBest, getField, List.find?, countDistinctJS, isDateValue, isNumericValue,
      isBooleanValue, jsToLower, testPlatform, JValue.isObjectType, List.dedup,
      List.filter, List.filterMap]
  · exact (detectColumnType_first_max testPlatform [[("x", .str "10")]] "x").2.2
      (by decide)

/-! ## Data Cleaner / Transformer (`DataCleaner.ts`)

`DataCleaner.cleanRecord` as written passes the undefined identifier
`cleanedData` to `getColumnStats` (line 115), which neither type-checks in
TypeScript nor runs in JavaScript (ReferenceError) — see C2.  Modelled from
the spec: §4.2 computes the column statistics "over all values in the full
input set", so the model threads the full input `data` into the per-record
transform; everything else follows the source line by line. -/

/-- `CleaningConfig`. -/
structure CleaningConfig where
  dateColumns : List String
  numericColumns : List String
  categoricalColumns : List String
  maxBins : ℕ
  dateThreshold : ℕ
deriving DecidableEq, Repr

/-- The defaults merged under the caller's partial config. -/
def defaultCleaningConfig : CleaningConfig := ⟨[], [], [], 5, 20⟩

/-- `if (!list.includes(name)) list.push(name)`. -/
def pushIfAbsent (l : List String) (c : String) : List String :=
  if l.contains c then l else l ++ [c]

/-- One step of the auto-configuration loop: a column whose inferred-type
confidence exceeds 0.7 is appended to the matching override list,
deduplicated. -/
def autoStep (cfg : CleaningConfig) (ct : ColumnType) : CleaningConfig :=
  if 7/10 < ct.confidence then
    match ct.type with
    | .date => { cfg with dateColumns := pushIfAbsent cfg.dateColumns ct.name }
    | .numeric => { cfg with numericColumns := pushIfAbsent cfg.numericColumns ct.name }
    | .categorical =>
        { cfg with categoricalColumns := pushIfAbsent cfg.categoricalColumns ct.name }
    | _ => cfg
  else cfg

/-- The auto-configuration loop of `cleanAndTransformData`. -/
def autoConfig (columnTypes : List ColumnType) (config : CleaningConfig) :
    CleaningConfig :=
  columnTypes.foldl autoStep config

/-- `DataCleaner.parseNumeric`. -/
def parseNumeric (P : Platform) : JValue → Option ℚ
  | .num q => some q
  | .str s => P.parseFloatQ s
  | _ => none

/-- `DataCleaner.parseDate`. -/
def parseDateClean (P : Platform) : JValue → Option ℤ
  | .jdate d => some d
  | .str s => P.dateParse s
  | _ => none

/-- `trim()` over the character list (so it evaluates). -/
def jsTrim (s : String) : String :=
  String.mk (((s.data.dropWhile Char.isWhitespace).reverse.dropWhile
    Char.isWhitespace).reverse)

/-- `DataCleaner.cleanCategoricalValue`. -/
def cleanCategoricalValue (P : Platform) : JValue → JValue
  | .str s => .str (jsToLower (jsTrim s))
  | v => .str (jsToLower (jsToString P v))

/-- Column statistics (`{min, max, mean, std}`). -/
structure ColStats where
  min : ℚ
  max : ℚ
  mean : ℚ
  std : ℚ
deriving DecidableEq, Repr

/-- `DataCleaner.getColumnStats`: statistics over every value of the column
that passes `isNumericValue`, with the `{0, 0, 0, 1}` fallback for an empty
value set.  `Math.sqrt` is the host's. -/
def getColumnStats (P : Platform) (data : List JRecord) (columnName : String) :
    ColStats :=
  let values := (data.map (fun r => getField r columnName)).filterMap (fun o =>
    match o with
    | some v => if isNumericValue P v then parseNumeric P v else none
    | none => none)
  if values.length = 0 then ⟨0, 0, 0, 1⟩
  else
    let mn := values.foldl min (values.headD 0)
    let mx := values.foldl max (values.headD 0)
    let mean := values.sum / (values.length : ℚ)
    let variance := (values.map (fun v => (v - mean) ^ 2)).sum / (values.length : ℚ)
    ⟨mn, mx, mean, P.sqrtQ variance⟩

/-- The bin count `Math.min(maxBins, Math.ceil(range / std) || 5)`.  When
`std = 0` the quotient is `+∞` for the positive ranges `getColumnStats`
produces, `Math.ceil` keeps it and the min collapses to `maxBins`; a zero
ceiling is replaced by 5 before the min. -/
def binsOf (stats : ColStats) (maxBins : ℕ) : ℤ :=
  if stats.std = 0 then maxBins
  else
    let c := Int.ceil ((stats.max - stats.min) / stats.std)
    min (maxBins : ℤ) (if c = 0 then 5 else c)

/-- `DataCleaner.discretizeValue`: equal-width binning with inclusive edges;
zero range short-circuits to "constant" and a value no bin interval contains
falls through to the last bin label. -/
def discretizeValue (value : ℚ) (stats : ColStats) (maxBins : ℕ) : String :=
  if stats.max - stats.min = 0 then "constant"
  else
    match (List.range (binsOf stats maxBins).toNat).find? (fun (i : ℕ) =>
      decide (stats.min + (i : ℚ) * ((stats.max - stats.min) / (binsOf stats maxBins : ℚ)) ≤ value
        ∧ value ≤ stats.min
          + ((i : ℚ) + 1) * ((stats.max - stats.min) / (binsOf stats maxBins : ℚ)))) with
    | some i => "bin_" ++ toString (i + 1)
    | none => "bin_" ++ toString (binsOf stats maxBins)

/-- One date column of `cleanRecord`: on truthy value and parse success,
overwrite and add the four derived time-part fields. -/
def cleanDateColumn (P : Platform) (r : JRecord) (dateCol : String) : JRecord :=
  match getField r dateCol with
  | some v =>
      if v.truthy then
        match parseDateClean P v with
        | some d =>
            let r1 := setField r dateCol (.jdate d)
            let r2 := setField r1 (dateCol ++ "_year") (.num (P.dYear d))
            let r3 := setField r2 (dateCol ++ "_month") (.num ((P.dMonth0 d : ℚ) + 1))
            let r4 := setField r3 (dateCol ++ "_quarter")
              (.num (Int.ceil (((P.dMonth0 d : ℚ) + 1) / 3) : ℤ))
            setField r4 (dateCol ++ "_dayofweek") (.num (P.dDayOfWeek d))
        | none => r
      else r
  | none => r

/-- One numeric column of `cleanRecord`: on non-null value and parse success,
overwrite with the parsed float and add the `{col}_bin` discretization over
the full input set's statistics. -/
def cleanNumericColumn (P : Platform) (data : List JRecord) (maxBins : ℕ)
    (r : JRecord) (numericCol : String) : JRecord :=
  match getField r numericCol with
  | some v =>
      if v == .jnull then r
      else
        match parseNumeric P v with
        | some q =>
            let r1 := setField r numericCol (.num q)
            setField r1 (numericCol ++ "_bin")
              (.str (discretizeValue q (getColumnStats P data numericCol) maxBins))
        | none => r
  | none => r

/-- One categorical column of `cleanRecord`. -/
def cleanCategoricalColumn (P : Platform) (r : JRecord) (catCol : String) : JRecord :=
  match getField r catCol with
  | some v => if v == .jnull then r else setField r catCol (cleanCategoricalValue P v)
  | none => r

/-- `DataCleaner.cleanRecord`, with the full input set threaded in for the
column statistics (see the section comment). -/
def cleanRecord (P : Platform) (data : List JRecord) (config : CleaningConfig)
    (r : JRecord) : JRecord :=
  config.categoricalColumns.foldl (fun acc c => cleanCategoricalColumn P acc c)
    (config.numericColumns.foldl
      (fun acc c => cleanNumericColumn P data config.maxBins acc c)
      (config.dateColumns.foldl (fun acc c => cleanDateColumn P acc c) r))

/-- `DataCleaner.cleanAndTransformData`. -/
def cleanAndTransformData (P : Platform) (data : List JRecord)
    (columnTypes : List ColumnType) (config : CleaningConfig) : List JRecord :=
  let finalConfig := autoConfig columnTypes config
  data.map (fun r => cleanRecord P data finalConfig r)

/-- The field names a date column's cleaning step writes. -/
def writesOfDate (d : String) : List String :=
  [d, d ++ "_year", d ++ "_month", d ++ "_quarter", d ++ "_dayofweek"]

theorem string_ne_append_bin (s : String) : s ≠ s ++ "_bin" := by
  intro h
  have hlen := congrArg String.length h
  rw [String.length_append, show String.length "_bin" = 4 from rfl] at hlen
  omega

theorem getField_cleanDateColumn_ne (P : Platform) (r : JRecord) (d k : String)
    (h : ∀ w ∈ writesOfDate d, k ≠ w) :
    getField (cleanDateColumn P r d) k = getField r k := by
  unfold cleanDateColumn
  cases hv : getField r d with
  | none => rfl
  | some v =>
      by_cases ht : v.truthy
      · cases hp : parseDateClean P v with
        | none => simp [ht, hp]
        | some dd =>
            simp only [ht, hp, if_true]
            rw [getField_setField_ne _ _ (Ne.symm (h _ (by simp [writesOfDate]))),
              getField_setField_ne _ _ (Ne.symm (h _ (by simp [writesOfDate]))),
              getField_setField_ne _ _ (Ne.symm (h _ (by simp [writesOfDate]))),
              getField_setField_ne _ _ (Ne.symm (h _ (by simp [writesOfDate]))),
              getField_setField_ne _ _ (Ne.symm (h _ (by simp [writesOfDate])))]
      · simp [ht]

theorem getField_cleanNumericColumn_ne (P : Platform) (data : List JRecord)
    (mb : ℕ) (r : JRecord) (c k : String) (h1 : k ≠ c) (h2 : k ≠ c ++ "_bin") :
    getField (cleanNumericColumn P data mb r c) k = getField r k := by
  unfold cleanNumericColumn
  cases hv : getField r c with
  | none => rfl
  | some v =>
      by_cases hnull : v == JValue.jnull
      · simp [hnull]
      · cases hp : parseNumeric P v with
        | none => simp [hnull, hp]
        | some q =>
            simp only [hnull, hp, Bool.false_eq_true, if_false]
            rw [getField_setField_ne _ _ (Ne.symm h2), getField_setField_ne _ _ (Ne.symm h1)]

theorem getField_cleanCategoricalColumn_ne (P : Platform) (r : JRecord)
    (c k : String) (h1 : k ≠ c) :
    getField (cleanCategoricalColumn P r c) k = getField r k := by
  unfold cleanCategoricalColumn
  cases hv : getField r c with
  | none => rfl
  | some v =>
      by_cases hnull : v == JValue.jnull
      · simp [hnull]
      · simp only [hnull, Bool.false_eq_true, if_false]
        rw [getField_setField_ne _ _ (Ne.symm h1)]

theorem cleanNumericColumn_writes (P : Platform) (data : List JRecord) (mb : ℕ)
    (r : JRecord) (c : String) (v : JValue) (q : ℚ)
    (hv : getField r c = some v) (hnn : ¬ v = JValue.jnull)
    (hp : parseNumeric P v = some q) :
    getField (cleanNumericColumn P data mb r c) c = some (.num q)
    ∧ getField (cleanNumericColumn P data mb r c) (c ++ "_bin")
        = some (.str (discretizeValue q (getColumnStats P data c) mb)) := by
  unfold cleanNumericColumn
  rw [hv]
  have hnnb : (v == JValue.jnull) = false := beq_eq_false_iff_ne.mpr hnn
  simp only [hnnb, Bool.false_eq_true, if_false, hp]
  refine ⟨?_, ?_⟩
  · rw [getField_setField_ne _ _ (Ne.symm (string_ne_append_bin c)),
      getField_setField_self]
  · rw [getField_setField_self]

theorem exists_first_occurrence {col : String} :
    ∀ {l : List String}, col ∈ l → ∃ pre suf, l = pre ++ col :: suf ∧ col ∉ pre
  | [], h => by simp at h
  | a :: as, h => by
      by_cases hac : a = col
      · exact ⟨[], as, by simp [hac], by simp⟩
      · rcases List.mem_cons.mp h with h1 | h1
        · exact absurd h1.symm hac
        · obtain ⟨pre, suf, h2, h3⟩ := exists_first_occurrence h1
          refine ⟨a :: pre, suf, by rw [List.cons_append, h2], ?_⟩
          intro hmem
          rcases List.mem_cons.mp hmem with h4 | h4
          · exact hac h4.symm
          · exact h3 h4

theorem getField_foldl_preserved {step : JRecord → String → JRecord}
    {cols : List String} {k : String}
    (h : ∀ r c, c ∈ cols → getField (step r c) k = getField r k) :
    ∀ r, getField (cols.foldl step r) k = getField r k := by
  induction cols with
  | nil => intro r; rfl
  | cons c cs ih =>
      intro r
      rw [List.foldl_cons, ih (fun r' c' hc' => h r' c' (List.mem_cons_of_mem _ hc')),
        h r c (List.mem_cons_self ..)]

/-- The hypotheses under which the numeric column `col` and its derived
`col_bin` field are not clobbered by another configured column's writes. -/
def noClash (col : String) (config : CleaningConfig) : Bool :=
  config.dateColumns.all (fun d =>
    !(writesOfDate d).contains col && !(writesOfDate d).contains (col ++ "_bin"))
  && config.numericColumns.all (fun c =>
    c == col || (col != c ++ "_bin" && col ++ "_bin" != c && col ++ "_bin" != c ++ "_bin"))
  && config.categoricalColumns.all (fun k => col != k && col ++ "_bin" != k)

/-- C2 over the spec-modelled cleaner (the source's `cleanRecord` references
the undefined `cleanedData`; see the section comment and the C2 entry): for a
configured numeric column without name clashes whose value parses, the cleaned
record holds the parsed number under `col` and the label
`discretizeValue value (getColumnStats data col) maxBins` under `col_bin`;
`discretizeValue` returns "constant" exactly on zero range and falls back to
the last bin label when no bin interval contains the value. -/
theorem cleanRecord_numeric_bins (P : Platform) (data : List JRecord)
    (config : CleaningConfig) (r : JRecord) (col : String) (v : JValue) (q : ℚ)
    (hcol : col ∈ config.numericColumns)
    (hsane : noClash col config = true)
    (hv : getField r col = some v) (hnn : ¬ v = JValue.jnull)
    (hp : parseNumeric P v = some q) :
    (getField (cleanRecord P data config r) col = some (.num q)
      ∧ getField (cleanRecord P data config r) (col ++ "_bin")
          = some (.str (discretizeValue q (getColumnStats P data col) config.maxBins)))
    ∧ (∀ (value : ℚ) (stats : ColStats) (maxBins : ℕ), stats.max - stats.min = 0 →
        discretizeValue value stats maxBins = "constant")
    ∧ (∀ (value : ℚ) (stats : ColStats) (maxBins : ℕ), stats.max - stats.min ≠ 0 →
        (∀ i : ℕ, i < (binsOf stats maxBins).toNat →
          ¬ (stats.min + (i : ℚ) * ((stats.max - stats.min) / (binsOf stats maxBins : ℚ)) ≤ value
            ∧ value ≤ stats.min
              + ((i : ℚ) + 1) * ((stats.max - stats.min) / (binsOf stats maxBins : ℚ)))) →
        discretizeValue value stats maxBins = "bin_" ++ toString (binsOf stats maxBins)) := by
  unfold noClash at hsane
  rw [Bool.and_eq_true, Bool.and_eq_true] at hsane
  obtain ⟨⟨hdates, hnums⟩, hcats⟩ := hsane
  rw [List.all_eq_true] at hdates hnums hcats
  refine ⟨?_, ?_, ?_⟩
  · -- main claim: chase the three folds
    unfold cleanRecord
    have hdatefold : ∀ k, (k = col ∨ k = col ++ "_bin") →
        getField (config.dateColumns.foldl (fun acc c => cleanDateColumn P acc c) r) k
          = getField r k := by
      intro k hk
      refine getField_foldl_preserved (fun r' d hd => ?_) r
      refine getField_cleanDateColumn_ne P r' d k (fun w hw => ?_)
      have hthis := hdates d hd
      simp only [Bool.and_eq_true, Bool.not_eq_true'] at hthis
      rcases hk with rfl | rfl
      · intro heq
        exact absurd (List.contains_iff_exists_mem_beq.mpr
          ⟨w, hw, beq_iff_eq.mpr heq⟩) (by rw [hthis.1]; exact Bool.false_ne_true)
      · intro heq
        exact absurd (List.contains_iff_exists_mem_beq.mpr
          ⟨w, hw, beq_iff_eq.mpr heq⟩) (by rw [hthis.2]; exact Bool.false_ne_true)
    set r1 := config.dateColumns.foldl (fun acc c => cleanDateColumn P acc c) r with hr1
    have hv1 : getField r1 col = some v := by rw [hdatefold col (Or.inl rfl), hv]
    -- invariant through the numeric fold, processed as first occurrence then rest
    have hnumfold : ∀ (cols : List String) (r' : JRecord),
        (∀ c ∈ cols, c = col ∨ (col ≠ c ++ "_bin" ∧ col ++ "_bin" ≠ c
          ∧ col ++ "_bin" ≠ c ++ "_bin" ∧ c ≠ col)) →
        getField r' col = some (.num q) →
        getField r' (col ++ "_bin")
          = some (.str (discretizeValue q (getColumnStats P data col) config.maxBins)) →
        getField (cols.foldl (fun acc c => cleanNumericColumn P data config.maxBins acc c) r') col
            = some (.num q)
        ∧ getField (cols.foldl (fun acc c => cleanNumericColumn P data config.maxBins acc c) r')
            (col ++ "_bin")
          = some (.str (discretizeValue q (getColumnStats P data col) config.maxBins)) := by
      intro cols
      induction cols with
      | nil => intro r' _ h1 h2; exact ⟨h1, h2⟩
      | cons c cs ih =>
          intro r' hprop h1 h2
          rw [List.foldl_cons]
          rcases hprop c (List.mem_cons_self ..) with rfl | ⟨hb1, hb2, hb3, hb4⟩
          · have hw := cleanNumericColumn_writes P data config.maxBins r' c (.num q) q h1
              (by simp) rfl
            exact ih _ (fun c' hc' => hprop c' (List.mem_cons_of_mem _ hc')) hw.1 hw.2
          · have hk1 : getField (cleanNumericColumn P data config.maxBins r' c) col
                = getField r' col :=
              getField_cleanNumericColumn_ne P data config.maxBins r' c col
                (Ne.symm hb4) hb1
            have hk2 : getField (cleanNumericColumn P data config.maxBins r' c)
                (col ++ "_bin") = getField r' (col ++ "_bin") :=
              getField_cleanNumericColumn_ne P data config.maxBins r' c (col ++ "_bin") hb2 hb3
            exact ih _ (fun c' hc' => hprop c' (List.mem_cons_of_mem _ hc'))
              (hk1 ▸ h1) (hk2 ▸ h2)
    -- split the numeric columns at the first occurrence of col
    obtain ⟨pre, suf, hsplit, hpre⟩ := exists_first_occurrence hcol
    have hproc : ∀ c ∈ config.numericColumns, c ≠ col →
        col ≠ c ++ "_bin" ∧ col ++ "_bin" ≠ c ∧ col ++ "_bin" ≠ c ++ "_bin" := by
      intro c hc hne
      have hthis := hnums c hc
      rcases Bool.or_eq_true .. |>.mp hthis with hcc | hrest
      · exact absurd (by simpa using hcc) hne
      · simp only [Bool.and_eq_true, bne_iff_ne, ne_eq] at hrest
        exact ⟨hrest.1.1, hrest.1.2, hrest.2⟩
    have hprefold : getField (pre.foldl
        (fun acc c => cleanNumericColumn P data config.maxBins acc c) r1) col
          = some v := by
      rw [getField_foldl_preserved (fun r' c hc => ?_) r1, hv1]
      have hcnc : c ≠ col := fun h => hpre (h ▸ hc)
      have hcc := hproc c (hsplit ▸ List.mem_append_left _ hc) hcnc
      exact getField_cleanNumericColumn_ne P data config.maxBins r' c col
        (Ne.symm hcnc) hcc.1
    rw [hsplit]
    rw [List.foldl_append, List.foldl_cons]
    set r2 := pre.foldl (fun acc c => cleanNumericColumn P data config.maxBins acc c) r1
    have hw := cleanNumericColumn_writes P data config.maxBins r2 col v q hprefold hnn hp
    have hsuf := hnumfold suf _ (fun c hc => by
        by_cases hcc : c = col
        · exact Or.inl hcc
        · exact Or.inr ⟨(hproc c (hsplit ▸ List.mem_append_right _
            (List.mem_cons_of_mem _ hc)) hcc).1,
            (hproc c (hsplit ▸ List.mem_append_right _ (List.mem_cons_of_mem _ hc)) hcc).2.1,
            (hproc c (hsplit ▸ List.mem_append_right _ (List.mem_cons_of_mem _ hc)) hcc).2.2,
            hcc⟩)
      hw.1 hw.2
    have hcatfold : ∀ k, (k = col ∨ k = col ++ "_bin") → ∀ r',
        getField (config.categoricalColumns.foldl
          (fun acc c => cleanCategoricalColumn P acc c) r') k = getField r' k := by
      intro k hk r'
      refine getField_foldl_preserved (fun r'' c hc => ?_) r'
      have hthis := hcats c hc
      simp only [Bool.and_eq_true, bne_iff_ne, ne_eq] at hthis
      rcases hk with rfl | rfl
      · exact getField_cleanCategoricalColumn_ne P r'' c _ hthis.1
      · exact getField_cleanCategoricalColumn_ne P r'' c _ hthis.2
    exact ⟨by rw [hcatfold col (Or.inl rfl)]; exact hsuf.1,
      by rw [hcatfold (col ++ "_bin") (Or.inr rfl)]; exact hsuf.2⟩
  · intro value stats maxBins h0
    unfold discretizeValue
    rw [if_pos h0]
  · intro value stats maxBins h0 hout
    unfold discretizeValue
    rw [if_neg h0]
    have hnone : (List.range (binsOf stats maxBins).toNat).find? (fun (i : ℕ) =>
        decide (stats.min + (i : ℚ) * ((stats.max - stats.min) / (binsOf stats maxBins : ℚ)) ≤ value
          ∧ value ≤ stats.min
            + ((i : ℚ) + 1) * ((stats.max - stats.min) / (binsOf stats maxBins : ℚ)))) = none := by
      rw [List.find?_eq_none]
      intro i hi
      rw [List.mem_range] at hi
      simpa using hout i hi
    rw [hnone]

/-- C2 witness: a two-record dataset with numeric column `x`; the first
record's cleaned form holds the parsed 10 and the derived `x_bin` label from
the statistics over the full input set. -/
theorem cleanRecord_numeric_bins_witness :
    getField (cleanRecord testPlatform [[("x", .str "10")], [("x", .str "20")]]
        ⟨[], ["x"], [], 5, 20⟩ [("x", .str "10")]) "x" = some (.num 10)
    ∧ getField (cleanRecord testPlatform [[("x", .str "10")], [("x", .str "20")]]
        ⟨[], ["x"], [], 5, 20⟩ [("x", .str "10")]) ("x" ++ "_bin")
      = some (.str (discretizeValue 10
          (getColumnStats testPlatform [[("x", .str "10")], [("x", .str "20")]] "x") 5)) :=
  (cleanRecord_numeric_bins testPlatform [[("x", .str "10")], [("x", .str "20")]]
    ⟨[], ["x"], [], 5, 20⟩ [("x", .str "10")] "x" (.str "10") 10
    (by decide) (by decide) rfl (by decide) rfl).1

/-! ## Export / import boundary (`PatternAnalysisAPI.ts`)

`exportPatternsToJSON` is `JSON.stringify({patterns, exportMetadata}, null, 2)`
and `importPatternsFromJSON` is `JSON.parse` + `data.patterns || []` under a
`try/catch` returning `[]`.  The platform codec is modelled by a concrete
printer/parser pair over a `Json` value type: numbers carry an exact decimal
representation (mantissa and fraction-digit count, as every JavaScript number
serializes to a finite decimal), the printer emits the compact form (the
`null, 2` indentation argument only inserts whitespace that `JSON.parse`
discards, so it is immaterial to the round trip), and the parser consumes the
printed grammar exactly, failing on anything malformed the way the `catch`
branch does. -/

mutual
/-- A JSON value (`JsonA` for "API boundary JSON"). -/
inductive Json where
  | jnull
  | jbool (b : Bool)
  | jnum (mantissa : ℤ) (fracDigits : ℕ)
  | jstr (s : String)
  | jarr (elems : JsonArr)
  | jobj (members : JsonObj)

/-- A JSON array, as a specialized list so the mutual recursion stays
structural. -/
inductive JsonArr where
  | anil
  | acons (hd : Json) (tl : JsonArr)

/-- A JSON object: ordered key/value members. -/
inductive JsonObj where
  | onil
  | ocons (k : String) (v : Json) (tl : JsonObj)
end

/-- `0`-`9` as a character. -/
def digitChar (d : ℕ) : Char := Char.ofNat (48 + d)

/-- Lowercase hex digit. -/
def hexChar (d : ℕ) : Char := if d < 10 then digitChar d else Char.ofNat (97 + (d - 10))

def isDigitCh (c : Char) : Bool := 48 ≤ c.toNat && c.toNat ≤ 57

/-- One string character, JSON-escaped the way `JSON.stringify` escapes it. -/
def jsonEscapeChar (c : Char) : List Char :=
  if c = '"' then ['\\', '"']
  else if c = '\\' then ['\\', '\\']
  else if c = Char.ofNat 10 then ['\\', 'n']
  else if c = Char.ofNat 13 then ['\\', 'r']
  else if c = Char.ofNat 9 then ['\\', 't']
  else if c = Char.ofNat 8 then ['\\', 'b']
  else if c = Char.ofNat 12 then ['\\', 'f']
  else if c.toNat < 32 then
    ['\\', 'u', '0', '0', hexChar (c.toNat / 16), hexChar (c.toNat % 16)]
  else [c]

/-- A quoted, escaped JSON string literal. -/
def jsonQuote (s : String) : List Char :=
  '"' :: (s.data.flatMap jsonEscapeChar ++ ['"'])

/-- Decimal digits, least significant first, with explicit fuel so the
definition is structural and evaluates in the kernel. -/
def natDigitsRevAux : ℕ → ℕ → List ℕ
  | 0, _ => []
  | fuel + 1, n => if n = 0 then [] else n % 10 :: natDigitsRevAux fuel (n / 10)

/-- Decimal digits of `n`, least significant first (empty for 0). -/
def natDigitsRev (n : ℕ) : List ℕ := natDigitsRevAux n n

theorem natDigitsRevAux_congr :
    ∀ (fuel1 fuel2 n : ℕ), n ≤ fuel1 → n ≤ fuel2 →
      natDigitsRevAux fuel1 n = natDigitsRevAux fuel2 n
  | 0, 0, _, _, _ => rfl
  | 0, _ + 1, n, h1, _ => by
      interval_cases n
      rfl
  | _ + 1, 0, n, _, h2 => by
      interval_cases n
      rfl
  | f1 + 1, f2 + 1, n, h1, h2 => by
      by_cases hn : n = 0
      · simp [natDigitsRevAux, hn]
      · simp only [natDigitsRevAux, if_neg hn]
        rw [natDigitsRevAux_congr f1 f2 (n / 10) (by omega) (by omega)]

/-- The defining recurrence of `natDigitsRev`. -/
theorem natDigitsRev_eq (n : ℕ) :
    natDigitsRev n = if n = 0 then [] else n % 10 :: natDigitsRev (n / 10) := by
  by_cases hn : n = 0
  · simp [natDigitsRev, natDigitsRevAux, hn]
  · obtain ⟨m, rfl⟩ : ∃ m, n = m + 1 := ⟨n - 1, by omega⟩
    rw [natDigitsRev, natDigitsRev]
    simp only [natDigitsRevAux, if_neg hn]
    rw [natDigitsRevAux_congr m ((m + 1) / 10) ((m + 1) / 10) (by omega) (by omega)]

/-- Decimal digits of `n`, most significant first, nonempty. -/
def natDigitList (n : ℕ) : List ℕ :=
  if n = 0 then [0] else (natDigitsRev n).reverse

/-- The digits of `|m|` padded with leading zeros to at least `e + 1` digits,
so a decimal point can sit `e` digits from the right. -/
def decDigits (m : ℤ) (e : ℕ) : List ℕ :=
  List.replicate (e + 1 - (natDigitList m.natAbs).length) 0 ++ natDigitList m.natAbs

/-- Print `mantissa × 10^-fracDigits` in plain decimal notation. -/
def printNum (m : ℤ) (e : ℕ) : List Char :=
  (if m < 0 then ['-'] else [])
    ++ ((decDigits m e).take ((decDigits m e).length - e)).map digitChar
    ++ (if e = 0 then [] else
        '.' :: ((decDigits m e).drop ((decDigits m e).length - e)).map digitChar)

mutual
/-- Print a JSON value compactly. -/
def printJson : Json → List Char
  | .jnull => ['n', 'u', 'l', 'l']
  | .jbool true => ['t', 'r', 'u', 'e']
  | .jbool false => ['f', 'a', 'l', 's', 'e']
  | .jnum m e => printNum m e
  | .jstr s => jsonQuote s
  | .jarr .anil => ['[', ']']
  | .jarr (.acons x tl) => '[' :: (printArrItems (.acons x tl) ++ [']'])
  | .jobj .onil => ['{', '}']
  | .jobj (.ocons k v tl) => '{' :: (printObjItems (.ocons k v tl) ++ ['}'])

/-- Comma-separated array elements (nonempty case). -/
def printArrItems : JsonArr → List Char
  | .anil => []
  | .acons x .anil => printJson x
  | .acons x (.acons y tl) => printJson x ++ ',' :: printArrItems (.acons y tl)

/-- Comma-separated object members (nonempty case). -/
def printObjItems : JsonObj → List Char
  | .onil => []
  | .ocons k v .onil => jsonQuote k ++ ':' :: printJson v
  | .ocons k v (.ocons k2 v2 tl) =>
      jsonQuote k ++ ':' :: (printJson v ++ ',' :: printObjItems (.ocons k2 v2 tl))
end

/-- The numeric value of a digit run, most significant first. -/
def digitsVal (ds : List ℕ) : ℕ := ds.foldl (fun a d => 10 * a + d) 0

def hexVal (c : Char) : Option ℕ :=
  if 48 ≤ c.toNat ∧ c.toNat ≤ 57 then some (c.toNat - 48)
  else if 97 ≤ c.toNat ∧ c.toNat ≤ 102 then some (c.toNat - 87)
  else if 65 ≤ c.toNat ∧ c.toNat ≤ 70 then some (c.toNat - 55)
  else none

/-- String body parser: everything after the opening quote, undoing
escapes. -/
def parseStringBody (acc : List Char) : List Char → Option (String × List Char)
  | [] => none
  | c :: rest =>
      if c = '"' then some (String.mk acc.reverse, rest)
      else if c = '\\' then
        match rest with
        | 'u' :: a :: b :: c2 :: d :: r2 =>
            match hexVal a, hexVal b, hexVal c2, hexVal d with
            | some va, some vb, some vc, some vd =>
                parseStringBody (Char.ofNat (((va * 16 + vb) * 16 + vc) * 16 + vd) :: acc) r2
            | _, _, _, _ => none
        | e :: r2 =>
            if e = '"' then parseStringBody ('"' :: acc) r2
            else if e = '\\' then parseStringBody ('\\' :: acc) r2
            else if e = '/' then parseStringBody ('/' :: acc) r2
            else if e = 'n' then parseStringBody (Char.ofNat 10 :: acc) r2
            else if e = 'r' then parseStringBody (Char.ofNat 13 :: acc) r2
            else if e = 't' then parseStringBody (Char.ofNat 9 :: acc) r2
            else if e = 'b' then parseStringBody (Char.ofNat 8 :: acc) r2
            else if e = 'f' then parseStringBody (Char.ofNat 12 :: acc) r2
            else none
        | [] => none
      else parseStringBody (c :: acc) rest

/-- Longest digit run at the head of the input. -/
def takeDigitRun : List Char → List Char × List Char
  | c :: cs =>
      if isDigitCh c then
        ((c :: (takeDigitRun cs).1), (takeDigitRun cs).2)
      else ([], c :: cs)
  | [] => ([], [])

/-- Is the head of the input this character? -/
def headIs (cs : List Char) (h : Char) : Bool :=
  match cs with
  | c :: _ => c = h
  | [] => false

/-- Apply the parsed sign. -/
def signedVal (neg : Bool) (n : ℕ) : ℤ := if neg then -(n : ℤ) else (n : ℤ)

/-- Parse an unsigned decimal (integer digits, optional point and fraction
digits), paired with the already-parsed sign. -/
def parseNumAbs (neg : Bool) (cs1 : List Char) : Option ((ℤ × ℕ) × List Char) :=
  if (takeDigitRun cs1).1.isEmpty then none
  else if headIs (takeDigitRun cs1).2 '.' then
    if (takeDigitRun ((takeDigitRun cs1).2.tail)).1.isEmpty then none
    else
      some ((signedVal neg (digitsVal
          (((takeDigitRun cs1).1 ++ (takeDigitRun ((takeDigitRun cs1).2.tail)).1).map
            (fun c => c.toNat - 48))),
        (takeDigitRun ((takeDigitRun cs1).2.tail)).1.length),
        (takeDigitRun ((takeDigitRun cs1).2.tail)).2)
  else
    some ((signedVal neg (digitsVal ((takeDigitRun cs1).1.map (fun c => c.toNat - 48))), 0),
      (takeDigitRun cs1).2)

/-- Parse a plain decimal number into mantissa and fraction-digit count. -/
def parseNumber (cs : List Char) : Option ((ℤ × ℕ) × List Char) :=
  match cs with
  | c :: r => if c = '-' then parseNumAbs true r else parseNumAbs false (c :: r)
  | [] => parseNumAbs false []

/-- Does the input start like a number (`-` or a digit)? -/
def startsNumber : List Char → Bool
  | c :: _ => c = '-' || isDigitCh c
  | [] => false

mutual
/-- Fuel-indexed JSON parser (compact grammar; see the section comment). -/
def parseJson : ℕ → List Char → Option (Json × List Char)
  | 0, _ => none
  | fuel + 1, cs =>
      if startsNumber cs then
        (parseNumber cs).map (fun nr => (.jnum nr.1.1 nr.1.2, nr.2))
      else
        match cs with
        | 'n' :: 'u' :: 'l' :: 'l' :: r => some (.jnull, r)
        | 't' :: 'r' :: 'u' :: 'e' :: r => some (.jbool true, r)
        | 'f' :: 'a' :: 'l' :: 's' :: 'e' :: r => some (.jbool false, r)
        | '"' :: r => (parseStringBody [] r).map (fun sr => (.jstr sr.1, sr.2))
        | '[' :: r =>
            match r with
            | [] => none
            | c :: r1 =>
                if c = ']' then some (.jarr .anil, r1)
                else (parseArrItems fuel (c :: r1)).map (fun ar => (.jarr ar.1, ar.2))
        | '{' :: r =>
            match r with
            | [] => none
            | c :: r1 =>
                if c = '}' then some (.jobj .onil, r1)
                else (parseObjItems fuel (c :: r1)).map (fun br => (.jobj br.1, br.2))
        | _ => none

/-- One-or-more comma-separated elements then `]`. -/
def parseArrItems : ℕ → List Char → Option (JsonArr × List Char)
  | 0, _ => none
  | fuel + 1, cs =>
      match parseJson fuel cs with
      | none => none
      | some (v, r) =>
          match r with
          | ',' :: r2 =>
              match parseArrItems fuel r2 with
              | some (vs, r3) => some (.acons v vs, r3)
              | none => none
          | ']' :: r2 => some (.acons v .anil, r2)
          | _ => none

/-- One-or-more `"key":value` members then `}`. -/
def parseObjItems : ℕ → List Char → Option (JsonObj × List Char)
  | 0, _ => none
  | fuel + 1, cs =>
      match cs with
      | '"' :: r =>
          match parseStringBody [] r with
          | none => none
          | some (key, r1) =>
              match r1 with
              | ':' :: r2 =>
                  match parseJson fuel r2 with
                  | none => none
                  | some (v, r3) =>
                      match r3 with
                      | ',' :: r4 =>
                          match parseObjItems fuel r4 with
                          | some (ms, r5) => some (.ocons key v ms, r5)
                          | none => none
                      | '}' :: r4 => some (.ocons key v .onil, r4)
                      | _ => none
              | _ => none
      | _ => none
end

/-- `JSON.parse`: parse the whole input, rejecting trailing characters. -/
def jsonParseTop (s : String) : Option Json :=
  match parseJson (s.data.length + 1) s.data with
  | some (j, []) => some j
  | _ => none

def arrLength : JsonArr → ℕ
  | .anil => 0
  | .acons _ tl => arrLength tl + 1

def objFind : JsonObj → String → Option Json
  | .onil, _ => none
  | .ocons k v tl, key => if k = key then some v else objFind tl key

/-- JavaScript truthiness of a parsed JSON value. -/
def jsonTruthy : Json → Bool
  | .jnull => false
  | .jbool b => b
  | .jnum m _ => m ≠ 0
  | .jstr s => s ≠ ""
  | .jarr _ => true
  | .jobj _ => true

/-- `PatternAnalysisAPI.exportPatternsToJSON`: wrap the pattern array with the
export metadata and stringify. -/
def exportPatternsToJSON (patternsJson : JsonArr) (exportedAt : String) : String :=
  String.mk (printJson (.jobj (.ocons "patterns" (.jarr patternsJson)
    (.ocons "exportMetadata" (.jobj
      (.ocons "exportedAt" (.jstr exportedAt)
        (.ocons "totalPatterns" (.jnum (arrLength patternsJson) 0)
          (.ocons "version" (.jstr "1.0.0") .onil))))
      .onil))))

/-- `PatternAnalysisAPI.importPatternsFromJSON`: `JSON.parse` then
`data.patterns || []`, and `[]` when parsing throws (also when `data` is a
primitive whose property access yields `undefined`, or `null`, whose property
access throws and is caught). -/
def importPatternsFromJSON (jsonData : String) : Json :=
  match jsonParseTop jsonData with
  | some (.jobj members) =>
      match objFind members "patterns" with
      | some v => if jsonTruthy v then v else .jarr .anil
      | none => .jarr .anil
  | _ => .jarr .anil

theorem natDigitsRev_lt_ten (n : ℕ) : ∀ d ∈ natDigitsRev n, d < 10 := by
  induction n using Nat.strong_induction_on with
  | _ n ih =>
      rw [natDigitsRev_eq]
      by_cases hn : n = 0
      · simp [hn]
      · rw [if_neg hn]
        intro d hd
        rcases List.mem_cons.mp hd with rfl | hd2
        · omega
        · exact ih (n / 10) (Nat.div_lt_self (by omega) (by omega)) d hd2

theorem natDigitsRev_foldr (n : ℕ) :
    (natDigitsRev n).foldr (fun d a => 10 * a + d) 0 = n := by
  induction n using Nat.strong_induction_on with
  | _ n ih =>
      rw [natDigitsRev_eq]
      by_cases hn : n = 0
      · simp [hn]
      · rw [if_neg hn, List.foldr_cons,
          ih (n / 10) (Nat.div_lt_self (by omega) (by omega))]
        omega

theorem digitsVal_natDigitList (n : ℕ) : digitsVal (natDigitList n) = n := by
  by_cases hn : n = 0
  · simp [hn, natDigitList, digitsVal]
  · rw [natDigitList, if_neg hn, digitsVal, List.foldl_reverse]
    exact natDigitsRev_foldr n

theorem natDigitList_lt_ten (n : ℕ) : ∀ d ∈ natDigitList n, d < 10 := by
  by_cases hn : n = 0
  · simp [hn, natDigitList]
  · rw [natDigitList, if_neg hn]
    intro d hd
    exact natDigitsRev_lt_ten n d (List.mem_reverse.mp hd)

theorem natDigitList_ne_nil (n : ℕ) : natDigitList n ≠ [] := by
  by_cases hn : n = 0
  · simp [hn, natDigitList]
  · rw [natDigitList, if_neg hn]
    intro h
    rw [List.reverse_eq_nil_iff] at h
    rw [natDigitsRev_eq, if_neg hn] at h
    exact List.noConfusion h

theorem digitsVal_replicate_zero (k : ℕ) (ds : List ℕ) :
    digitsVal (List.replicate k 0 ++ ds) = digitsVal ds := by
  induction k with
  | zero => rfl
  | succ m ih => simpa [List.replicate_succ, digitsVal] using ih

theorem decDigits_val (m : ℤ) (e : ℕ) : digitsVal (decDigits m e) = m.natAbs := by
  rw [decDigits, digitsVal_replicate_zero, digitsVal_natDigitList]

theorem decDigits_lt_ten (m : ℤ) (e : ℕ) : ∀ d ∈ decDigits m e, d < 10 := by
  intro d hd
  rcases List.mem_append.mp hd with h | h
  · rw [List.eq_of_mem_replicate h]; omega
  · exact natDigitList_lt_ten _ d h

theorem decDigits_length (m : ℤ) (e : ℕ) : e + 1 ≤ (decDigits m e).length := by
  rw [decDigits, List.length_append, List.length_replicate]
  omega

theorem digitChar_spec (d : ℕ) (h : d < 10) :
    isDigitCh (digitChar d) = true ∧ (digitChar d).toNat - 48 = d
    ∧ digitChar d ≠ '-' ∧ digitChar d ≠ '.' ∧ digitChar d ≠ ']'
    ∧ digitChar d ≠ '}' ∧ digitChar d ≠ ',' := by
  interval_cases d <;> exact ⟨by decide, by decide, by decide, by decide,
    by decide, by decide, by decide⟩

/-- A remainder that cannot extend a printed number: empty or starting with
neither a digit nor a decimal point. -/
def numDelim : List Char → Bool
  | [] => true
  | c :: _ => !(isDigitCh c || c = '.')

theorem takeDigitRun_of_delim (cs : List Char)
    (h : numDelim cs = true ∨ ∃ c t, cs = c :: t ∧ isDigitCh c = false) :
    takeDigitRun cs = ([], cs) := by
  match cs, h with
  | [], _ => rfl
  | c :: t, h =>
      have hc : isDigitCh c = false := by
        rcases h with h | ⟨c2, t2, heq, h2⟩
        · simp only [numDelim, Bool.not_eq_true', Bool.or_eq_false_iff] at h
          exact h.1
        · rw [List.cons.injEq] at heq
          rw [heq.1]
          exact h2
      rw [takeDigitRun, if_neg (by simp [hc])]

theorem takeDigitRun_digits (ds : List Char) (hds : ∀ c ∈ ds, isDigitCh c = true)
    (rest : List Char) (hrest : takeDigitRun rest = ([], rest)) :
    takeDigitRun (ds ++ rest) = (ds, rest) := by
  induction ds with
  | nil => simpa using hrest
  | cons c t ih =>
      have hc := hds c (List.mem_cons_self ..)
      have ht := ih (fun x hx => hds x (List.mem_cons_of_mem _ hx))
      rw [List.cons_append, takeDigitRun]
      rw [if_pos (by simp [hc]), ht]

theorem digitsVal_map_digitChar (ds : List ℕ) (h : ∀ d ∈ ds, d < 10) :
    (ds.map digitChar).map (fun c => c.toNat - 48) = ds := by
  induction ds with
  | nil => rfl
  | cons d t ih =>
      rw [List.map_cons, List.map_cons, (digitChar_spec d (h d (List.mem_cons_self ..))).2.1,
        ih (fun x hx => h x (List.mem_cons_of_mem _ hx))]

/-- The number codec round trip: parsing a printed number recovers exactly its
mantissa/fraction-digit representation, given a remainder that cannot extend
the number. -/
theorem parseNumber_print (m : ℤ) (e : ℕ) (rest : List Char)
    (hrest : numDelim rest = true) :
    parseNumber (printNum m e ++ rest) = some ((m, e), rest) := by
  have hlen := decDigits_length m e
  set ds := decDigits m e with hdsdef
  set ip := (ds.take (ds.length - e)).map digitChar with hip
  set fp := (ds.drop (ds.length - e)).map digitChar with hfp
  have hipfp : ip ++ fp = ds.map digitChar := by
    rw [hip, hfp, ← List.map_append, List.take_append_drop]
  have hall : ∀ c ∈ ds.map digitChar, isDigitCh c = true := by
    intro c hc
    rw [List.mem_map] at hc
    obtain ⟨d, hd, rfl⟩ := hc
    exact (digitChar_spec d (decDigits_lt_ten m e d hd)).1
  have hiplen : ip.length = ds.length - e := by
    rw [hip, List.length_map, List.length_take]
    omega
  have hfplen : fp.length = e := by
    rw [hfp, List.length_map, List.length_drop]
    omega
  have hipne : ip.isEmpty = false := by
    rw [List.isEmpty_eq_false_iff_exists_mem]
    have : 0 < ip.length := by omega
    exact List.exists_mem_of_length_pos this
  have hipdig : ∀ c ∈ ip, isDigitCh c = true :=
    fun c hc => hall c (hipfp ▸ List.mem_append_left _ hc)
  have hfpdig : ∀ c ∈ fp, isDigitCh c = true :=
    fun c hc => hall c (hipfp ▸ List.mem_append_right _ hc)
  have hvalipfp : digitsVal ((ip ++ fp).map (fun c => c.toNat - 48)) = m.natAbs := by
    rw [hipfp, digitsVal_map_digitChar _ (decDigits_lt_ten m e), decDigits_val]
  have hsigned : ∀ neg : Bool, (neg = true ↔ m < 0) → signedVal neg m.natAbs = m := by
    intro neg hneg
    cases neg with
    | true =>
        have hm : m < 0 := hneg.mp rfl
        simp only [signedVal, if_true]
        omega
    | false =>
        have hm : ¬ m < 0 := fun h => by simpa using hneg.mpr h
        simp only [signedVal, Bool.false_eq_true, if_false]
        omega
  have hheadrest : headIs rest '.' = false := by
    match rest, hrest with
    | [], _ => rfl
    | c :: t, hrest =>
        simp only [numDelim, Bool.not_eq_true', Bool.or_eq_false_iff] at hrest
        simp [headIs, hrest.2]
  have habs : ∀ neg : Bool, (neg = true ↔ m < 0) →
      parseNumAbs neg (ip ++ (if e = 0 then [] else '.' :: fp) ++ rest)
        = some ((m, e), rest) := by
    intro neg hneg
    by_cases he : e = 0
    · have hfpnil : fp = [] := by rw [← List.length_eq_zero, hfplen, he]
      rw [if_pos he]
      have hdig : takeDigitRun (ip ++ [] ++ rest) = (ip, rest) := by
        rw [List.append_nil]
        exact takeDigitRun_digits ip hipdig rest (takeDigitRun_of_delim rest (Or.inl hrest))
      rw [parseNumAbs, hdig]
      simp only [hipne, Bool.false_eq_true, if_false, hheadrest]
      have hval0 : digitsVal (ip.map (fun c => c.toNat - 48)) = m.natAbs := by
        have hv2 := hvalipfp
        rw [hfpnil, List.append_nil] at hv2
        exact hv2
      rw [hval0, hsigned neg hneg, he]
    · rw [if_neg he]
      have hfpne : fp.isEmpty = false := by
        rw [List.isEmpty_eq_false_iff_exists_mem]
        refine List.exists_mem_of_length_pos ?_
        omega
      have hdig1 : takeDigitRun (ip ++ '.' :: fp ++ rest) = (ip, '.' :: (fp ++ rest)) := by
        rw [List.append_assoc]
        refine takeDigitRun_digits ip hipdig _ (takeDigitRun_of_delim _ (Or.inr ?_))
        exact ⟨'.', fp ++ rest, rfl, by decide⟩
      rw [parseNumAbs, hdig1]
      simp only [hipne, Bool.false_eq_true, if_false]
      rw [show headIs ('.' :: (fp ++ rest)) '.' = true from rfl]
      simp only [if_true, List.tail_cons]
      have hdig2 : takeDigitRun (fp ++ rest) = (fp, rest) :=
        takeDigitRun_digits fp hfpdig rest (takeDigitRun_of_delim rest (Or.inl hrest))
      rw [hdig2]
      simp only [hfpne, Bool.false_eq_true, if_false]
      rw [hvalipfp, hsigned neg hneg, hfplen]
  by_cases hm : m < 0
  · have hprint : printNum m e ++ rest
        = '-' :: (ip ++ (if e = 0 then [] else '.' :: fp) ++ rest) := by
      rw [printNum, if_pos hm, ← hdsdef, ← hip, ← hfp]
      simp [List.append_assoc]
    rw [hprint, parseNumber, if_pos rfl]
    exact habs true (by simp [hm])
  · obtain ⟨c0, t0, hip0⟩ : ∃ c0 t0, ip = c0 :: t0 := by
      match hh : ip, hipne with
      | c0 :: t0, _ => exact ⟨c0, t0, rfl⟩
    have hc0dig : isDigitCh c0 = true := hipdig c0 (by rw [hip0]; exact List.mem_cons_self ..)
    have hc0ne : ¬ c0 = '-' := by
      intro h
      rw [h] at hc0dig
      exact absurd hc0dig (by decide)
    have hprint : printNum m e ++ rest
        = c0 :: (t0 ++ (if e = 0 then [] else '.' :: fp) ++ rest) := by
      rw [printNum, if_neg hm, ← hdsdef, ← hip, ← hfp, hip0]
      simp [List.append_assoc]
    rw [hprint, parseNumber, if_neg hc0ne]
    have := habs false (by simp [hm])
    rw [hip0] at this
    simpa [List.append_assoc] using this

theorem hexVal_hexChar (d : ℕ) (h : d < 16) : hexVal (hexChar d) = some d := by
  interval_cases d <;> decide

theorem parseStringBody_cons (acc : List Char) (c : Char) (rest : List Char)
    (h1 : c ≠ '"') (h2 : c ≠ '\\') :
    parseStringBody acc (c :: rest) = parseStringBody (c :: acc) rest := by
  conv_lhs => rw [parseStringBody.eq_def]
  simp [h1, h2]

theorem parseStringBody_escape (c : Char) (acc rest : List Char) :
    parseStringBody acc (jsonEscapeChar c ++ rest) = parseStringBody (c :: acc) rest := by
  unfold jsonEscapeChar
  by_cases h1 : c = '"'
  · subst h1; rfl
  rw [if_neg h1]
  by_cases h2 : c = '\\'
  · subst h2; rfl
  rw [if_neg h2]
  by_cases h3 : c = Char.ofNat 10
  · subst h3; rfl
  rw [if_neg h3]
  by_cases h4 : c = Char.ofNat 13
  · subst h4; rfl
  rw [if_neg h4]
  by_cases h5 : c = Char.ofNat 9
  · subst h5; rfl
  rw [if_neg h5]
  by_cases h6 : c = Char.ofNat 8
  · subst h6; rfl
  rw [if_neg h6]
  by_cases h7 : c = Char.ofNat 12
  · subst h7; rfl
  rw [if_neg h7]
  by_cases h8 : c.toNat < 32
  · rw [if_pos h8]
    show parseStringBody acc ('\\' :: 'u' :: '0' :: '0'
        :: hexChar (c.toNat / 16) :: hexChar (c.toNat % 16) :: rest)
      = parseStringBody (c :: acc) rest
    have hhi : hexVal (hexChar (c.toNat / 16)) = some (c.toNat / 16) :=
      hexVal_hexChar _ (by omega)
    have hlo : hexVal (hexChar (c.toNat % 16)) = some (c.toNat % 16) :=
      hexVal_hexChar _ (by omega)
    show (match hexVal '0', hexVal '0', hexVal (hexChar (c.toNat / 16)),
        hexVal (hexChar (c.toNat % 16)) with
      | some va, some vb, some vc, some vd =>
          parseStringBody (Char.ofNat (((va * 16 + vb) * 16 + vc) * 16 + vd) :: acc) rest
      | _, _, _, _ => none) = parseStringBody (c :: acc) rest
    rw [hhi, hlo]
    show parseStringBody (Char.ofNat (((0 * 16 + 0) * 16 + c.toNat / 16) * 16
      + c.toNat % 16) :: acc) rest = parseStringBody (c :: acc) rest
    rw [show ((0 * 16 + 0) * 16 + c.toNat / 16) * 16 + c.toNat % 16 = c.toNat by omega,
      Char.ofNat_toNat]
  · rw [if_neg h8]
    exact parseStringBody_cons acc c rest h1 h2

theorem parseStringBody_print (cs : List Char) :
    ∀ (acc rest : List Char),
      parseStringBody acc (cs.flatMap jsonEscapeChar ++ '"' :: rest)
        = some (String.mk (acc.reverse ++ cs), rest) := by
  induction cs with
  | nil =>
      intro acc rest
      simp only [List.flatMap_nil, List.nil_append, List.append_nil]
      conv_lhs => rw [parseStringBody.eq_def]
      simp
  | cons c cs ih =>
      intro acc rest
      rw [List.flatMap_cons, List.append_assoc, parseStringBody_escape, ih]
      simp

theorem parseStringBody_quote (str : String) (rest : List Char) :
    parseStringBody [] (str.data.flatMap jsonEscapeChar ++ '"' :: rest)
      = some (str, rest) := by
  rw [parseStringBody_print]
  rfl

theorem parseJson_null (fuel : ℕ) (rest : List Char) :
    parseJson (fuel + 1) ('n' :: 'u' :: 'l' :: 'l' :: rest) = some (.jnull, rest) := by
  rw [parseJson]
  rfl

theorem parseJson_btrue (fuel : ℕ) (rest : List Char) :
    parseJson (fuel + 1) ('t' :: 'r' :: 'u' :: 'e' :: rest) = some (.jbool true, rest) := by
  rw [parseJson]
  rfl

theorem parseJson_bfalse (fuel : ℕ) (rest : List Char) :
    parseJson (fuel + 1) ('f' :: 'a' :: 'l' :: 's' :: 'e' :: rest)
      = some (.jbool false, rest) := by
  rw [parseJson]
  rfl

theorem parseJson_str (fuel : ℕ) (r : List Char) :
    parseJson (fuel + 1) ('"' :: r)
      = (parseStringBody [] r).map (fun sr => (.jstr sr.1, sr.2)) := by
  rw [parseJson]
  rfl

theorem parseJson_arrnil (fuel : ℕ) (r : List Char) :
    parseJson (fuel + 1) ('[' :: ']' :: r) = some (.jarr .anil, r) := by
  rw [parseJson]
  rfl

theorem parseJson_objnil (fuel : ℕ) (r : List Char) :
    parseJson (fuel + 1) ('{' :: '}' :: r) = some (.jobj .onil, r) := by
  rw [parseJson]
  rfl

theorem parseJson_arr (fuel : ℕ) (c : Char) (r : List Char) (hc : c ≠ ']') :
    parseJson (fuel + 1) ('[' :: c :: r)
      = (parseArrItems fuel (c :: r)).map (fun ar => (.jarr ar.1, ar.2)) := by
  rw [parseJson]
  have hs : startsNumber ('[' :: c :: r) = false := rfl
  rw [hs]
  rw [if_neg (by simp)]
  show (if c = ']' then some (Json.jarr JsonArr.anil, r)
    else (parseArrItems fuel (c :: r)).map (fun ar => (Json.jarr ar.1, ar.2))) = _
  rw [if_neg hc]

theorem parseJson_objb (fuel : ℕ) (c : Char) (r : List Char) (hc : c ≠ '\x7d') :
    parseJson (fuel + 1) ('\x7b' :: c :: r)
      = (parseObjItems fuel (c :: r)).map (fun br => (.jobj br.1, br.2)) := by
  rw [parseJson]
  have hs : startsNumber ('\x7b' :: c :: r) = false := rfl
  rw [hs]
  rw [if_neg (by simp)]
  show (if c = '\x7d' then some (Json.jobj JsonObj.onil, r)
    else (parseObjItems fuel (c :: r)).map (fun br => (Json.jobj br.1, br.2))) = _
  rw [if_neg hc]

theorem parseJson_num (fuel : ℕ) (c : Char) (t : List Char)
    (hc : c = '-' ∨ isDigitCh c = true) :
    parseJson (fuel + 1) (c :: t)
      = (parseNumber (c :: t)).map (fun nr => (Json.jnum nr.1.1 nr.1.2, nr.2)) := by
  have hstart : startsNumber (c :: t) = true := by
    rcases hc with rfl | h
    · rfl
    · simp [startsNumber, h]
  rw [parseJson, if_pos hstart]
  all_goals intro r heq
  all_goals rw [List.cons.injEq] at heq
  all_goals rcases hc with rfl | h
  all_goals first
    | exact absurd heq.1 (by decide)
    | (rw [heq.1] at h; exact absurd h (by decide))

theorem parseArrItems_last (fuel : ℕ) (cs1 : List Char) (x : Json) (r2 : List Char)
    (h : parseJson fuel cs1 = some (x, ']' :: r2)) :
    parseArrItems (fuel + 1) cs1 = some (.acons x .anil, r2) := by
  rw [parseArrItems, h]
  rfl

theorem parseArrItems_more (fuel : ℕ) (cs1 : List Char) (x : Json)
    (r2 : List Char) (vs : JsonArr) (r3 : List Char)
    (h : parseJson fuel cs1 = some (x, ',' :: r2))
    (h2 : parseArrItems fuel r2 = some (vs, r3)) :
    parseArrItems (fuel + 1) cs1 = some (.acons x vs, r3) := by
  rw [parseArrItems, h]
  show (match parseArrItems fuel r2 with
    | some (vs, r3) => some (JsonArr.acons x vs, r3)
    | none => none) = _
  rw [h2]

theorem parseObjItems_last (fuel : ℕ) (r : List Char) (key : String) (v : Json)
    (r2 r4 : List Char)
    (hkey : parseStringBody [] r = some (key, ':' :: r2))
    (hval : parseJson fuel r2 = some (v, '\x7d' :: r4)) :
    parseObjItems (fuel + 1) ('"' :: r) = some (.ocons key v .onil, r4) := by
  rw [parseObjItems, hkey]
  show (match parseJson fuel r2 with
    | none => none
    | some (v, r3) =>
        match r3 with
        | ',' :: r4 =>
            match parseObjItems fuel r4 with
            | some (ms, r5) => some (JsonObj.ocons key v ms, r5)
            | none => none
        | '\x7d' :: r4 => some (JsonObj.ocons key v JsonObj.onil, r4)
        | _ => none) = _
  rw [hval]
  rfl

theorem parseObjItems_more (fuel : ℕ) (r : List Char) (key : String) (v : Json)
    (r2 r4 : List Char) (ms : JsonObj) (r5 : List Char)
    (hkey : parseStringBody [] r = some (key, ':' :: r2))
    (hval : parseJson fuel r2 = some (v, ',' :: r4))
    (hrec : parseObjItems fuel r4 = some (ms, r5)) :
    parseObjItems (fuel + 1) ('"' :: r) = some (.ocons key v ms, r5) := by
  rw [parseObjItems, hkey]
  show (match parseJson fuel r2 with
    | none => none
    | some (v, r3) =>
        match r3 with
        | ',' :: r4 =>
            match parseObjItems fuel r4 with
            | some (ms, r5) => some (JsonObj.ocons key v ms, r5)
            | none => none
        | '\x7d' :: r4 => some (JsonObj.ocons key v JsonObj.onil, r4)
        | _ => none) = _
  rw [hval]
  show (match parseObjItems fuel r4 with
    | some (ms, r5) => some (JsonObj.ocons key v ms, r5)
    | none => none) = _
  rw [hrec]

theorem printNum_head (m : ℤ) (e : ℕ) :
    ∃ c t, printNum m e = c :: t ∧ (c = '-' ∨ isDigitCh c = true)
      ∧ c ≠ ']' ∧ c ≠ '\x7d' := by
  have hlen := decDigits_length m e
  by_cases hm : m < 0
  · refine ⟨'-', ((decDigits m e).take ((decDigits m e).length - e)).map digitChar
        ++ (if e = 0 then [] else
          '.' :: ((decDigits m e).drop ((decDigits m e).length - e)).map digitChar),
      ?_, Or.inl rfl, by decide, by decide⟩
    rw [printNum, if_pos hm]
    rfl
  · obtain ⟨d, ds2, hdds⟩ :
        ∃ d ds2, (decDigits m e).take ((decDigits m e).length - e) = d :: ds2 := by
      have h1 : ((decDigits m e).take ((decDigits m e).length - e)).length
          = (decDigits m e).length - e := by
        rw [List.length_take]
        omega
      match hx : (decDigits m e).take ((decDigits m e).length - e) with
      | [] =>
          rw [hx] at h1
          simp at h1
          omega
      | d :: ds2 => exact ⟨d, ds2, rfl⟩
    have hd10 : d < 10 := by
      refine decDigits_lt_ten m e d ?_
      have hsub := List.take_subset ((decDigits m e).length - e) (decDigits m e)
      exact hsub (hdds ▸ List.mem_cons_self ..)
    refine ⟨digitChar d, ds2.map digitChar ++ (if e = 0 then [] else
        '.' :: ((decDigits m e).drop ((decDigits m e).length - e)).map digitChar),
      ?_, Or.inr (digitChar_spec d hd10).1,
      (digitChar_spec d hd10).2.2.2.2.1, (digitChar_spec d hd10).2.2.2.2.2.1⟩
    rw [printNum, if_neg hm, hdds]
    rfl

theorem printJson_head (j : Json) :
    ∃ c t, printJson j = c :: t ∧ c ≠ ']' ∧ c ≠ '\x7d' := by
  match j with
  | .jnull =>
      rw [printJson]
      exact ⟨'n', _, rfl, by decide, by decide⟩
  | .jbool true =>
      rw [printJson]
      exact ⟨'t', _, rfl, by decide, by decide⟩
  | .jbool false =>
      rw [printJson]
      exact ⟨'f', _, rfl, by decide, by decide⟩
  | .jnum m e =>
      rw [printJson]
      obtain ⟨c, t, h1, _, h3, h4⟩ := printNum_head m e
      exact ⟨c, t, h1, h3, h4⟩
  | .jstr str =>
      rw [printJson]
      exact ⟨'"', _, rfl, by decide, by decide⟩
  | .jarr .anil =>
      rw [printJson]
      exact ⟨'[', _, rfl, by decide, by decide⟩
  | .jarr (.acons x tl) =>
      rw [printJson]
      exact ⟨'[', _, rfl, by decide, by decide⟩
  | .jobj .onil =>
      rw [printJson]
      exact ⟨'\x7b', _, rfl, by decide, by decide⟩
  | .jobj (.ocons k v tl) =>
      rw [printJson]
      exact ⟨'\x7b', _, rfl, by decide, by decide⟩

theorem printArrItems_acons_eq (x : Json) (tl : JsonArr) :
    ∃ s, printArrItems (.acons x tl) = printJson x ++ s := by
  match tl with
  | .anil =>
      refine ⟨[], ?_⟩
      rw [printArrItems, List.append_nil]
  | .acons y tl2 =>
      refine ⟨',' :: printArrItems (.acons y tl2), ?_⟩
      rw [printArrItems]

theorem printObjItems_ocons_eq (k : String) (v : Json) (tl : JsonObj) :
    ∃ s, printObjItems (.ocons k v tl) = jsonQuote k ++ s := by
  match tl with
  | .onil =>
      refine ⟨':' :: printJson v, ?_⟩
      rw [printObjItems]
  | .ocons k2 v2 tl2 =>
      refine ⟨':' :: (printJson v ++ ',' :: printObjItems (.ocons k2 v2 tl2)), ?_⟩
      rw [printObjItems]

/-- Joint round-trip invariant for the JSON codec, by induction on the
parser fuel: parsing a printed value (with a non-extending remainder)
recovers the value, and likewise for nonempty array and object tails. -/
theorem roundtrip_all (fuel : ℕ) :
    (∀ (j : Json) (rest : List Char), (printJson j).length < fuel → numDelim rest = true →
      parseJson fuel (printJson j ++ rest) = some (j, rest)) ∧
    (∀ (x : Json) (a : JsonArr) (rest : List Char),
      (printArrItems (.acons x a)).length + 1 < fuel →
      parseArrItems fuel (printArrItems (.acons x a) ++ ']' :: rest)
        = some (.acons x a, rest)) ∧
    (∀ (k : String) (v : Json) (o : JsonObj) (rest : List Char),
      (printObjItems (.ocons k v o)).length + 1 < fuel →
      parseObjItems fuel (printObjItems (.ocons k v o) ++ '\x7d' :: rest)
        = some (.ocons k v o, rest)) := by
  induction fuel with
  | zero =>
      refine ⟨fun j rest h _ => absurd h (by omega),
        fun x a rest h => absurd h (by omega),
        fun k v o rest h => absurd h (by omega)⟩
  | succ fuel ih =>
      obtain ⟨ihJ, ihA, ihO⟩ := ih
      refine ⟨?_, ?_, ?_⟩
      · intro j rest hflen hrest
        cases j with
        | jnull =>
            rw [printJson]
            exact parseJson_null fuel rest
        | jbool b =>
            cases b with
            | true =>
                rw [printJson]
                exact parseJson_btrue fuel rest
            | false =>
                rw [printJson]
                exact parseJson_bfalse fuel rest
        | jnum m e =>
            rw [printJson]
            obtain ⟨c, t, hct, hc, _, _⟩ := printNum_head m e
            rw [hct, List.cons_append, parseJson_num fuel c (t ++ rest) hc,
              ← List.cons_append, ← hct, parseNumber_print m e rest hrest]
            rfl
        | jstr str =>
            rw [printJson, jsonQuote, List.cons_append, List.append_assoc,
              List.singleton_append, parseJson_str fuel _, parseStringBody_quote str rest]
            rfl
        | jarr a =>
            cases a with
            | anil =>
                rw [printJson]
                exact parseJson_arrnil fuel rest
            | acons x tl =>
                have hplen : (printJson (.jarr (.acons x tl))).length
                    = (printArrItems (.acons x tl)).length + 2 := by
                  rw [printJson]
                  simp only [List.length_cons, List.length_append, List.length_nil]
                rw [printJson, List.cons_append, List.append_assoc, List.singleton_append]
                obtain ⟨s, hs⟩ := printArrItems_acons_eq x tl
                obtain ⟨c, t, hct, hc1, hc2⟩ := printJson_head x
                rw [hs, hct, List.append_assoc, List.cons_append]
                rw [parseJson_arr fuel c _ hc1]
                rw [← List.cons_append, ← hct, ← List.append_assoc, ← hs]
                rw [ihA x tl rest (by omega)]
                rfl
        | jobj o =>
            cases o with
            | onil =>
                rw [printJson]
                exact parseJson_objnil fuel rest
            | ocons k v tl =>
                have hplen : (printJson (.jobj (.ocons k v tl))).length
                    = (printObjItems (.ocons k v tl)).length + 2 := by
                  rw [printJson]
                  simp only [List.length_cons, List.length_append, List.length_nil]
                rw [printJson, List.cons_append, List.append_assoc, List.singleton_append]
                obtain ⟨s, hs⟩ := printObjItems_ocons_eq k v tl
                rw [hs, List.append_assoc, jsonQuote, List.cons_append]
                rw [parseJson_objb fuel '"' _ (by decide)]
                rw [← List.cons_append, ← jsonQuote, ← List.append_assoc, ← hs]
                rw [ihO k v tl rest (by omega)]
                rfl
      · intro x a rest hlen
        cases a with
        | anil =>
            have hpa : printArrItems (.acons x .anil) = printJson x := by
              rw [printArrItems]
            rw [hpa] at hlen ⊢
            exact parseArrItems_last fuel _ x rest (ihJ x (']' :: rest) (by omega) rfl)
        | acons y tl =>
            have hpa : printArrItems (.acons x (.acons y tl))
                = printJson x ++ ',' :: printArrItems (.acons y tl) := by
              rw [printArrItems]
            rw [hpa] at hlen ⊢
            simp only [List.length_append, List.length_cons] at hlen
            rw [List.append_assoc, List.cons_append]
            exact parseArrItems_more fuel _ x _ (.acons y tl) rest
              (ihJ x (',' :: (printArrItems (.acons y tl) ++ ']' :: rest)) (by omega) rfl)
              (ihA y tl rest (by omega))
      · intro k v o rest hlen
        cases o with
        | onil =>
            have hpo : printObjItems (.ocons k v .onil)
                = jsonQuote k ++ ':' :: printJson v := by
              rw [printObjItems]
            rw [hpo] at hlen ⊢
            simp only [List.length_append, List.length_cons] at hlen
            simp only [jsonQuote, List.cons_append, List.singleton_append, List.append_assoc]
            exact parseObjItems_last fuel _ k v _ rest
              (parseStringBody_quote k (':' :: (printJson v ++ '\x7d' :: rest)))
              (ihJ v ('\x7d' :: rest) (by omega) rfl)
        | ocons k2 v2 tl =>
            have hpo : printObjItems (.ocons k v (.ocons k2 v2 tl))
                = jsonQuote k ++ ':' :: (printJson v ++ ','
                  :: printObjItems (.ocons k2 v2 tl)) := by
              rw [printObjItems]
            rw [hpo] at hlen ⊢
            simp only [List.length_append, List.length_cons] at hlen
            simp only [jsonQuote, List.cons_append, List.singleton_append, List.append_assoc]
            exact parseObjItems_more fuel _ k v _ _ (.ocons k2 v2 tl) rest
              (parseStringBody_quote k (':' :: (printJson v
                ++ ',' :: (printObjItems (.ocons k2 v2 tl) ++ '\x7d' :: rest))))
              (ihJ v (',' :: (printObjItems (.ocons k2 v2 tl) ++ '\x7d' :: rest))
                (by omega) rfl)
              (ihO k2 v2 tl rest (by omega))

/-- C6: for every pattern list (as a JSON array) and every export timestamp,
`importPatternsFromJSON (exportPatternsToJSON patterns)` returns exactly the
pattern list again: the export/import boundary is a round trip. -/
theorem export_import_roundtrip (ps : JsonArr) (ts : String) :
    importPatternsFromJSON (exportPatternsToJSON ps ts) = .jarr ps := by
  rw [importPatternsFromJSON, exportPatternsToJSON]
  have h := (roundtrip_all ((printJson (.jobj (.ocons "patterns" (.jarr ps)
      (.ocons "exportMetadata" (.jobj
        (.ocons "exportedAt" (.jstr ts)
          (.ocons "totalPatterns" (.jnum (arrLength ps) 0)
            (.ocons "version" (.jstr "1.0.0") .onil))))
        .onil)))).length + 1)).1
    (.jobj (.ocons "patterns" (.jarr ps)
      (.ocons "exportMetadata" (.jobj
        (.ocons "exportedAt" (.jstr ts)
          (.ocons "totalPatterns" (.jnum (arrLength ps) 0)
            (.ocons "version" (.jstr "1.0.0") .onil))))
        .onil)))
    [] (by omega) rfl
  rw [List.append_nil] at h
  rw [jsonParseTop]
  have hd : (String.mk (printJson (.jobj (.ocons "patterns" (.jarr ps)
      (.ocons "exportMetadata" (.jobj
        (.ocons "exportedAt" (.jstr ts)
          (.ocons "totalPatterns" (.jnum (arrLength ps) 0)
            (.ocons "version" (.jstr "1.0.0") .onil))))
        .onil))))).data
      = printJson (.jobj (.ocons "patterns" (.jarr ps)
      (.ocons "exportMetadata" (.jobj
        (.ocons "exportedAt" (.jstr ts)
          (.ocons "totalPatterns" (.jnum (arrLength ps) 0)
            (.ocons "version" (.jstr "1.0.0") .onil))))
        .onil))) := rfl
  rw [hd, h]
  rfl

/-! ## Stamp-independence machinery (C9): the non-system view of records -/

theorem getField_nsys (r : JRecord) (k : String) (hk : startsWithSys k = false) :
    getField (nsys r) k = getField r k := by
  induction r with
  | nil => rfl
  | cons kv t ih =>
      by_cases hs : startsWithSys kv.1
      · have hne : kv.1 ≠ k := by
          intro heq
          rw [heq, hk] at hs
          exact Bool.false_ne_true hs
        rw [nsys_cons, if_pos hs, ih]
        show getField t k = getField (kv :: t) k
        rw [getField, getField, List.find?, decide_eq_false hne]
      · rw [nsys_cons, if_neg hs]
        show getField (kv :: nsys t) k = getField (kv :: t) k
        rw [getField, getField, List.find?, List.find?]
        by_cases heq : kv.1 = k
        · rw [decide_eq_true heq]
        · rw [decide_eq_false heq]
          exact ih

theorem nsys_setField (r : JRecord) (k : String) (v : JValue) :
    nsys (setField r k v)
      = if startsWithSys k then nsys r else setField (nsys r) k v := by
  induction r with
  | nil =>
      by_cases hk : startsWithSys k <;> simp [setField, nsys, hk]
  | cons kv t ih =>
      rw [setField]
      by_cases heq : kv.1 = k
      · rw [if_pos heq]
        by_cases hk : startsWithSys k
        · have hs : startsWithSys kv.1 = true := by rw [heq]; exact hk
          rw [if_pos hk, nsys_cons, nsys_cons, if_pos hs]
          simp only [hk, if_pos]
        · have hs : startsWithSys kv.1 = false := by
            rw [heq]
            simpa using hk
          rw [if_neg hk, nsys_cons, nsys_cons, if_neg hk, if_neg (by simp [hs])]
          rw [setField, if_pos heq]
      · rw [if_neg heq]
        by_cases hs : startsWithSys kv.1
        · rw [nsys_cons, nsys_cons, if_pos hs, if_pos hs, ih]
        · rw [nsys_cons, nsys_cons, if_neg hs, if_neg hs, ih]
          by_cases hk : startsWithSys k
          · rw [if_pos hk, if_pos hk]
          · rw [if_neg hk, if_neg hk, setField, if_neg heq]

theorem nsys_setField_congr (r1 r2 : JRecord) (k : String) (v : JValue)
    (h : nsys r1 = nsys r2) :
    nsys (setField r1 k v) = nsys (setField r2 k v) := by
  rw [nsys_setField, nsys_setField, h]

theorem keysOf_setField (r : JRecord) (k : String) (v : JValue) :
    keysOf (setField r k v)
      = if k ∈ keysOf r then keysOf r else keysOf r ++ [k] := by
  induction r with
  | nil => simp [setField, keysOf]
  | cons kv t ih =>
      have hkeys : keysOf (kv :: t) = kv.1 :: keysOf t := rfl
      rw [setField, hkeys]
      by_cases heq : kv.1 = k
      · rw [if_pos heq, if_pos (List.mem_cons.mpr (Or.inl heq.symm))]
        show k :: keysOf t = kv.1 :: keysOf t
        rw [heq]
      · rw [if_neg heq]
        by_cases ht : k ∈ keysOf t
        · rw [if_pos (List.mem_cons.mpr (Or.inr ht))]
          show kv.1 :: keysOf (setField t k v) = kv.1 :: keysOf t
          rw [ih, if_pos ht]
        · rw [if_neg (by
            intro hmem
            rcases List.mem_cons.mp hmem with h1 | h2
            · exact heq h1.symm
            · exact ht h2)]
          show kv.1 :: keysOf (setField t k v) = (kv.1 :: keysOf t) ++ [k]
          rw [ih, if_neg ht]
          rfl

theorem keysOf_setField_congr (r1 r2 : JRecord) (k : String) (v1 v2 : JValue)
    (h : keysOf r1 = keysOf r2) :
    keysOf (setField r1 k v1) = keysOf (setField r2 k v2) := by
  rw [keysOf_setField, keysOf_setField, h]

theorem keysOf_stampRecord_congr (src : DataSource) (idx : ℕ)
    (ms1 ms2 : ℤ) (iso1 iso2 : String) (r : JRecord) :
    keysOf (stampRecord src idx ms1 iso1 r) = keysOf (stampRecord src idx ms2 iso2 r) := by
  rw [stampRecord, stampRecord]
  exact keysOf_setField_congr _ _ _ _ _ (keysOf_setField_congr _ _ _ _ _
    (keysOf_setField_congr _ _ _ _ _ (keysOf_setField_congr _ _ _ _ _ rfl)))

theorem mergeAux_nsys_congr (stamp1 stamp2 : ℕ → ℕ → ℤ × String) :
    ∀ (sources : List DataSource) (si1 si2 : ℕ),
      (mergeAux stamp1 si1 sources).map nsys = (mergeAux stamp2 si2 sources).map nsys
  | [], _, _ => rfl
  | src :: rest, si1, si2 => by
      rw [mergeAux, mergeAux, List.map_append, List.map_append,
        mergeAux_nsys_congr stamp1 stamp2 rest (si1 + 1) (si2 + 1),
        List.map_map, List.map_map]
      congr 1
      refine List.map_congr_left (fun ri _ => ?_)
      show nsys (stampRecord _ _ _ _ _) = nsys (stampRecord _ _ _ _ _)
      rw [nsys_stampRecord, nsys_stampRecord]

theorem mergeAux_keys_congr (stamp1 stamp2 : ℕ → ℕ → ℤ × String) :
    ∀ (sources : List DataSource) (si1 si2 : ℕ),
      (mergeAux stamp1 si1 sources).map keysOf = (mergeAux stamp2 si2 sources).map keysOf
  | [], _, _ => rfl
  | src :: rest, si1, si2 => by
      rw [mergeAux, mergeAux, List.map_append, List.map_append,
        mergeAux_keys_congr stamp1 stamp2 rest (si1 + 1) (si2 + 1),
        List.map_map, List.map_map]
      congr 1
      refine List.map_congr_left (fun ri _ => ?_)
      exact keysOf_stampRecord_congr src ri.1 _ _ _ _ ri.2

theorem map_getField_congr (c : String) (hc : startsWithSys c = false) :
    ∀ (data1 data2 : List JRecord), data1.map nsys = data2.map nsys →
      data1.map (fun r => getField r c) = data2.map (fun r => getField r c)
  | [], [], _ => rfl
  | [], _ :: _, h => by simp at h
  | _ :: _, [], h => by simp at h
  | r :: t, r2 :: t2, h => by
      simp only [List.map_cons, List.cons.injEq] at h ⊢
      refine ⟨?_, map_getField_congr c hc t t2 h.2⟩
      rw [← getField_nsys r c hc, ← getField_nsys r2 c hc, h.1]

theorem columnSampleValues_congr (data1 data2 : List JRecord) (c : String)
    (hc : startsWithSys c = false) (h : data1.map nsys = data2.map nsys) :
    columnSampleValues data1 c = columnSampleValues data2 c := by
  rw [columnSampleValues, columnSampleValues, map_getField_congr c hc data1 data2 h]

theorem detectColumnType_congr (P : Platform) (data1 data2 : List JRecord)
    (c : String) (hc : startsWithSys c = false)
    (h : data1.map nsys = data2.map nsys) :
    detectColumnType P data1 c = detectColumnType P data2 c := by
  have hs := columnSampleValues_congr data1 data2 c hc h
  rw [detectColumnType, detectColumnType, hs, columnConfidences, columnConfidences, hs]

/-- How the per-column inferences of two runs relate: same column name, and
identical inference whenever the column is not a system (`__`) column. -/
def ctRel (ct1 ct2 : ColumnType) : Prop :=
  ct1.name = ct2.name ∧ (startsWithSys ct1.name = false → ct1 = ct2)

theorem detectColumnTypes_rel (P : Platform) (data1 data2 : List JRecord)
    (hk : data1.map keysOf = data2.map keysOf) (hn : data1.map nsys = data2.map nsys) :
    List.Forall₂ ctRel (detectColumnTypes P data1) (detectColumnTypes P data2) := by
  match data1, data2, hk with
  | [], [], _ => exact List.Forall₂.nil
  | [], _ :: _, hk => simp at hk
  | _ :: _, [], hk => simp at hk
  | r :: t, r2 :: t2, hk =>
      rw [detectColumnTypes, detectColumnTypes]
      have hkeys : keysOf r = keysOf r2 := by
        simp only [List.map_cons, List.cons.injEq] at hk
        exact hk.1
      rw [← hkeys]
      have hgen : ∀ l : List String,
          List.Forall₂ ctRel
            (l.map (fun column => ColumnType.mk column
              (detectColumnType P (r :: t) column).1 (detectColumnType P (r :: t) column).2))
            (l.map (fun column => ColumnType.mk column
              (detectColumnType P (r2 :: t2) column).1 (detectColumnType P (r2 :: t2) column).2)) := by
        intro l
        induction l with
        | nil => exact List.Forall₂.nil
        | cons c cs ih =>
            rw [List.map_cons, List.map_cons]
            refine List.Forall₂.cons ⟨rfl, fun hc => ?_⟩ ih
            show ColumnType.mk c (detectColumnType P (r :: t) c).1
                (detectColumnType P (r :: t) c).2
              = ColumnType.mk c (detectColumnType P (r2 :: t2) c).1
                (detectColumnType P (r2 :: t2) c).2
            rw [detectColumnType_congr P (r :: t) (r2 :: t2) c hc hn]
      exact hgen (keysOf r)

/-- How the cleaning configurations of two runs relate: identical once the
system (`__`) columns are dropped from every override list, and identical
`maxBins`. -/
def cfgSim (c1 c2 : CleaningConfig) : Prop :=
  c1.dateColumns.filter (fun c => !startsWithSys c)
      = c2.dateColumns.filter (fun c => !startsWithSys c)
    ∧ c1.numericColumns.filter (fun c => !startsWithSys c)
      = c2.numericColumns.filter (fun c => !startsWithSys c)
    ∧ c1.categoricalColumns.filter (fun c => !startsWithSys c)
      = c2.categoricalColumns.filter (fun c => !startsWithSys c)
    ∧ c1.maxBins = c2.maxBins

theorem filter_pushIfAbsent_sys (l : List String) (c : String)
    (hc : startsWithSys c = true) :
    (pushIfAbsent l c).filter (fun x => !startsWithSys x)
      = l.filter (fun x => !startsWithSys x) := by
  rw [pushIfAbsent]
  by_cases h : l.contains c
  · rw [if_pos h]
  · rw [if_neg h, List.filter_append]
    simp [hc]

theorem contains_congr_nonsys (l1 l2 : List String) (c : String)
    (hc : startsWithSys c = false)
    (h : l1.filter (fun x => !startsWithSys x) = l2.filter (fun x => !startsWithSys x)) :
    l1.contains c = l2.contains c := by
  have key : ∀ l : List String, l.contains c
      = (l.filter (fun x => !startsWithSys x)).contains c := by
    intro l
    induction l with
    | nil => rfl
    | cons a t ih =>
        by_cases ha : startsWithSys a
        · have hne : (c == a) = false := by
            rw [beq_eq_false_iff_ne]
            intro heq
            rw [← heq, hc] at ha
            exact Bool.false_ne_true ha
          rw [List.filter_cons, List.contains_cons, hne, Bool.false_or, ih]
          simp [ha]
        · rw [List.filter_cons]
          simp only [ha, Bool.not_false, if_true]
          rw [List.contains_cons, List.contains_cons, ih]
  rw [key l1, key l2, h]

theorem filter_pushIfAbsent_congr (l1 l2 : List String) (c : String)
    (hc : startsWithSys c = false)
    (h : l1.filter (fun x => !startsWithSys x) = l2.filter (fun x => !startsWithSys x)) :
    (pushIfAbsent l1 c).filter (fun x => !startsWithSys x)
      = (pushIfAbsent l2 c).filter (fun x => !startsWithSys x) := by
  rw [pushIfAbsent, pushIfAbsent, contains_congr_nonsys l1 l2 c hc h]
  by_cases h2 : l2.contains c
  · rw [if_pos h2, if_pos h2, h]
  · rw [if_neg h2, if_neg h2, List.filter_append, List.filter_append, h]

theorem autoStep_sys_sim (cfg : CleaningConfig) (ct : ColumnType)
    (hs : startsWithSys ct.name = true) :
    cfgSim (autoStep cfg ct) cfg := by
  rw [autoStep]
  by_cases hconf : 7/10 < ct.confidence
  · rw [if_pos hconf]
    match ct, hs with
    | ⟨n, .date, q⟩, hs => exact ⟨filter_pushIfAbsent_sys _ _ hs, rfl, rfl, rfl⟩
    | ⟨n, .numeric, q⟩, hs => exact ⟨rfl, filter_pushIfAbsent_sys _ _ hs, rfl, rfl⟩
    | ⟨n, .categorical, q⟩, hs => exact ⟨rfl, rfl, filter_pushIfAbsent_sys _ _ hs, rfl⟩
    | ⟨n, .boolean, q⟩, hs => exact ⟨rfl, rfl, rfl, rfl⟩
    | ⟨n, .text, q⟩, hs => exact ⟨rfl, rfl, rfl, rfl⟩
  · rw [if_neg hconf]
    exact ⟨rfl, rfl, rfl, rfl⟩

theorem cfgSim_trans {a b c : CleaningConfig} (h1 : cfgSim a b) (h2 : cfgSim b c) :
    cfgSim a c :=
  ⟨h1.1.trans h2.1, h1.2.1.trans h2.2.1, h1.2.2.1.trans h2.2.2.1, h1.2.2.2.trans h2.2.2.2⟩

theorem cfgSim_symm {a b : CleaningConfig} (h : cfgSim a b) : cfgSim b a :=
  ⟨h.1.symm, h.2.1.symm, h.2.2.1.symm, h.2.2.2.symm⟩

theorem autoStep_congr (cfg1 cfg2 : CleaningConfig) (ct : ColumnType)
    (hc : startsWithSys ct.name = false) (h : cfgSim cfg1 cfg2) :
    cfgSim (autoStep cfg1 ct) (autoStep cfg2 ct) := by
  rw [autoStep, autoStep]
  by_cases hconf : 7/10 < ct.confidence
  · rw [if_pos hconf, if_pos hconf]
    match ct, hc with
    | ⟨n, .date, q⟩, hc =>
        exact ⟨filter_pushIfAbsent_congr _ _ _ hc h.1, h.2.1, h.2.2.1, h.2.2.2⟩
    | ⟨n, .numeric, q⟩, hc =>
        exact ⟨h.1, filter_pushIfAbsent_congr _ _ _ hc h.2.1, h.2.2.1, h.2.2.2⟩
    | ⟨n, .categorical, q⟩, hc =>
        exact ⟨h.1, h.2.1, filter_pushIfAbsent_congr _ _ _ hc h.2.2.1, h.2.2.2⟩
    | ⟨n, .boolean, q⟩, hc => exact h
    | ⟨n, .text, q⟩, hc => exact h
  · rw [if_neg hconf, if_neg hconf]
    exact h

theorem autoConfig_congr :
    ∀ {cts1 cts2 : List ColumnType}, List.Forall₂ ctRel cts1 cts2 →
    ∀ {cfg1 cfg2 : CleaningConfig}, cfgSim cfg1 cfg2 →
      cfgSim (autoConfig cts1 cfg1) (autoConfig cts2 cfg2) := by
  intro cts1 cts2 hrel
  induction hrel with
  | nil => exact fun h => h
  | @cons ct1 ct2 tl1 tl2 hab htl ih =>
      intro cfg1 cfg2 h
      show cfgSim (autoConfig tl1 (autoStep cfg1 ct1)) (autoConfig tl2 (autoStep cfg2 ct2))
      apply ih
      by_cases hs : startsWithSys ct1.name
      · have hs2 : startsWithSys ct2.name = true := hab.1 ▸ hs
        exact cfgSim_trans (autoStep_sys_sim cfg1 ct1 hs)
          (cfgSim_trans h (cfgSim_symm (autoStep_sys_sim cfg2 ct2 hs2)))
      · have hct : ct1 = ct2 := hab.2 (by simpa using hs)
        rw [← hct]
        exact autoStep_congr cfg1 cfg2 ct1 (by simpa using hs) h

theorem startsWithSys_append (c s : String) (h : startsWithSys c = true) :
    startsWithSys (c ++ s) = true := by
  have hdata : (c ++ s).toList = c.toList ++ s.toList := by
    show (c ++ s).data = c.data ++ s.data
    rw [String.data_append]
  rw [startsWithSys] at h ⊢
  rw [hdata]
  match hm : c.toList with
  | [] =>
      rw [hm] at h
      simp at h
  | [a] =>
      rw [hm] at h
      simp at h
  | a :: b :: t =>
      rw [hm] at h
      simpa using h

theorem getColumnStats_congr (P : Platform) (data1 data2 : List JRecord)
    (c : String) (hc : startsWithSys c = false)
    (h : data1.map nsys = data2.map nsys) :
    getColumnStats P data1 c = getColumnStats P data2 c := by
  rw [getColumnStats, getColumnStats, map_getField_congr c hc data1 data2 h]

theorem cleanDateColumn_sys (P : Platform) (r : JRecord) (c : String)
    (hc : startsWithSys c = true) : nsys (cleanDateColumn P r c) = nsys r := by
  unfold cleanDateColumn
  cases hv : getField r c with
  | none => rfl
  | some v =>
      by_cases ht : v.truthy
      · cases hp : parseDateClean P v with
        | none => simp [ht, hp]
        | some d =>
            simp only [ht, hp, if_true]
            rw [stamped_keeps_sys _ _ (startsWithSys_append c "_dayofweek" hc),
              stamped_keeps_sys _ _ (startsWithSys_append c "_quarter" hc),
              stamped_keeps_sys _ _ (startsWithSys_append c "_month" hc),
              stamped_keeps_sys _ _ (startsWithSys_append c "_year" hc),
              stamped_keeps_sys _ _ hc]
      · simp [ht]

theorem cleanNumericColumn_sys (P : Platform) (data : List JRecord) (mb : ℕ)
    (r : JRecord) (c : String) (hc : startsWithSys c = true) :
    nsys (cleanNumericColumn P data mb r c) = nsys r := by
  unfold cleanNumericColumn
  cases hv : getField r c with
  | none => rfl
  | some v =>
      by_cases hnull : v == JValue.jnull
      · simp [hnull]
      · cases hp : parseNumeric P v with
        | none => simp [hnull, hp]
        | some q =>
            have hnnb : (v == JValue.jnull) = false := by simpa using hnull
            simp only [hnnb, Bool.false_eq_true, if_false, hp]
            rw [stamped_keeps_sys _ _ (startsWithSys_append c "_bin" hc),
              stamped_keeps_sys _ _ hc]

theorem cleanCategoricalColumn_sys (P : Platform) (r : JRecord) (c : String)
    (hc : startsWithSys c = true) : nsys (cleanCategoricalColumn P r c) = nsys r := by
  unfold cleanCategoricalColumn
  cases hv : getField r c with
  | none => rfl
  | some v =>
      by_cases hnull : v == JValue.jnull
      · simp [hnull]
      · have hnnb : (v == JValue.jnull) = false := by simpa using hnull
        simp only [hnnb, Bool.false_eq_true, if_false]
        rw [stamped_keeps_sys _ _ hc]

theorem cleanDateColumn_congr (P : Platform) (r1 r2 : JRecord) (c : String)
    (hc : startsWithSys c = false) (hr : nsys r1 = nsys r2) :
    nsys (cleanDateColumn P r1 c) = nsys (cleanDateColumn P r2 c) := by
  unfold cleanDateColumn
  have hg : getField r1 c = getField r2 c := by
    rw [← getField_nsys r1 c hc, ← getField_nsys r2 c hc, hr]
  rw [hg]
  cases hg2 : getField r2 c with
  | none => exact hr
  | some v =>
      by_cases ht : v.truthy
      · cases hp : parseDateClean P v with
        | none =>
            simp only [ht, hp, if_true]
            exact hr
        | some d =>
            simp only [ht, hp, if_true]
            exact nsys_setField_congr _ _ _ _ (nsys_setField_congr _ _ _ _
              (nsys_setField_congr _ _ _ _ (nsys_setField_congr _ _ _ _
                (nsys_setField_congr _ _ _ _ hr))))
      · have htb : v.truthy = false := by simpa using ht
        simp only [htb, Bool.false_eq_true, if_false]
        exact hr

theorem cleanNumericColumn_congr (P : Platform) (data1 data2 : List JRecord)
    (mb : ℕ) (r1 r2 : JRecord) (c : String)
    (hc : startsWithSys c = false) (hdata : data1.map nsys = data2.map nsys)
    (hr : nsys r1 = nsys r2) :
    nsys (cleanNumericColumn P data1 mb r1 c) = nsys (cleanNumericColumn P data2 mb r2 c) := by
  unfold cleanNumericColumn
  have hg : getField r1 c = getField r2 c := by
    rw [← getField_nsys r1 c hc, ← getField_nsys r2 c hc, hr]
  rw [hg]
  cases hg2 : getField r2 c with
  | none => exact hr
  | some v =>
      by_cases hnull : v == JValue.jnull
      · simp only [hnull, if_true]
        exact hr
      · have hnnb : (v == JValue.jnull) = false := by simpa using hnull
        cases hp : parseNumeric P v with
        | none =>
            simp only [hnnb, Bool.false_eq_true, if_false, hp]
            exact hr
        | some q =>
            simp only [hnnb, Bool.false_eq_true, if_false, hp]
            rw [getColumnStats_congr P data1 data2 c hc hdata]
            exact nsys_setField_congr _ _ _ _ (nsys_setField_congr _ _ _ _ hr)

theorem cleanCategoricalColumn_congr (P : Platform) (r1 r2 : JRecord) (c : String)
    (hc : startsWithSys c = false) (hr : nsys r1 = nsys r2) :
    nsys (cleanCategoricalColumn P r1 c) = nsys (cleanCategoricalColumn P r2 c) := by
  unfold cleanCategoricalColumn
  have hg : getField r1 c = getField r2 c := by
    rw [← getField_nsys r1 c hc, ← getField_nsys r2 c hc, hr]
  rw [hg]
  cases hg2 : getField r2 c with
  | none => exact hr
  | some v =>
      by_cases hnull : v == JValue.jnull
      · simp only [hnull, if_true]
        exact hr
      · have hnnb : (v == JValue.jnull) = false := by simpa using hnull
        simp only [hnnb, Bool.false_eq_true, if_false]
        exact nsys_setField_congr _ _ _ _ hr

theorem foldl_nsys_sys (f : JRecord → String → JRecord)
    (hsys : ∀ r c, startsWithSys c = true → nsys (f r c) = nsys r) :
    ∀ (l : List String), l.filter (fun c => !startsWithSys c) = [] →
    ∀ r, nsys (l.foldl f r) = nsys r
  | [], _, r => rfl
  | c :: t, h, r => by
      rw [List.filter_cons] at h
      by_cases hc : startsWithSys c
      · simp only [hc, Bool.not_true, Bool.false_eq_true, if_false] at h
        rw [List.foldl_cons, foldl_nsys_sys f hsys t h (f r c), hsys r c hc]
      · simp [hc] at h

theorem filter_eq_cons_split :
    ∀ (l : List String) (c : String) (Y : List String),
      l.filter (fun x => !startsWithSys x) = c :: Y →
      ∃ pre suf, l = pre ++ c :: suf
        ∧ pre.filter (fun x => !startsWithSys x) = []
        ∧ suf.filter (fun x => !startsWithSys x) = Y
  | [], c, Y, h => by simp at h
  | a :: t, c, Y, h => by
      rw [List.filter_cons] at h
      by_cases ha : startsWithSys a
      · simp only [ha, Bool.not_true, Bool.false_eq_true, if_false] at h
        obtain ⟨pre, suf, h1, h2, h3⟩ := filter_eq_cons_split t c Y h
        refine ⟨a :: pre, suf, by rw [h1, List.cons_append], ?_, h3⟩
        rw [List.filter_cons]
        simp only [ha, Bool.not_true, Bool.false_eq_true, if_false]
        exact h2
      · simp only [ha, Bool.not_false, if_true] at h
        rw [List.cons.injEq] at h
        exact ⟨[], t, by rw [h.1, List.nil_append], rfl, h.2⟩

theorem foldl_nsys_congr (f1 f2 : JRecord → String → JRecord)
    (hsys1 : ∀ r c, startsWithSys c = true → nsys (f1 r c) = nsys r)
    (hsys2 : ∀ r c, startsWithSys c = true → nsys (f2 r c) = nsys r)
    (hcong : ∀ r1 r2 c, startsWithSys c = false → nsys r1 = nsys r2 →
      nsys (f1 r1 c) = nsys (f2 r2 c)) :
    ∀ (l1 l2 : List String),
      l1.filter (fun c => !startsWithSys c) = l2.filter (fun c => !startsWithSys c) →
    ∀ r1 r2, nsys r1 = nsys r2 →
      nsys (l1.foldl f1 r1) = nsys (l2.foldl f2 r2)
  | [], l2, hl, r1, r2, hr => by
      rw [foldl_nsys_sys f2 hsys2 l2 hl.symm r2]
      exact hr
  | c :: t, l2, hl, r1, r2, hr => by
      rw [List.filter_cons] at hl
      by_cases hc : startsWithSys c
      · simp only [hc, Bool.not_true, Bool.false_eq_true, if_false] at hl
        rw [List.foldl_cons]
        exact foldl_nsys_congr f1 f2 hsys1 hsys2 hcong t l2 hl (f1 r1 c) r2
          ((hsys1 r1 c hc).trans hr)
      · simp only [hc, Bool.not_false, if_true] at hl
        obtain ⟨pre, suf, h1, h2, h3⟩ := filter_eq_cons_split l2 c _ hl.symm
        rw [h1, List.foldl_append, List.foldl_cons, List.foldl_cons]
        have hpre : nsys (pre.foldl f2 r2) = nsys r2 := foldl_nsys_sys f2 hsys2 pre h2 r2
        exact foldl_nsys_congr f1 f2 hsys1 hsys2 hcong t suf h3.symm (f1 r1 c)
          (f2 (pre.foldl f2 r2) c)
          (hcong r1 (pre.foldl f2 r2) c (by simpa using hc) (hr.trans hpre.symm))

theorem cleanRecord_congr (P : Platform) (data1 data2 : List JRecord)
    (cfg1 cfg2 : CleaningConfig) (r1 r2 : JRecord)
    (hdata : data1.map nsys = data2.map nsys) (hcfg : cfgSim cfg1 cfg2)
    (hr : nsys r1 = nsys r2) :
    nsys (cleanRecord P data1 cfg1 r1) = nsys (cleanRecord P data2 cfg2 r2) := by
  rw [cleanRecord, cleanRecord]
  refine foldl_nsys_congr _ _
    (fun r c hc => cleanCategoricalColumn_sys P r c hc)
    (fun r c hc => cleanCategoricalColumn_sys P r c hc)
    (fun a b c hc h => cleanCategoricalColumn_congr P a b c hc h)
    cfg1.categoricalColumns cfg2.categoricalColumns hcfg.2.2.1 _ _ ?_
  refine foldl_nsys_congr _ _
    (fun r c hc => cleanNumericColumn_sys P data1 cfg1.maxBins r c hc)
    (fun r c hc => cleanNumericColumn_sys P data2 cfg2.maxBins r c hc)
    (fun a b c hc h => by
      rw [hcfg.2.2.2]
      exact cleanNumericColumn_congr P data1 data2 cfg2.maxBins a b c hc hdata h)
    cfg1.numericColumns cfg2.numericColumns hcfg.2.1 _ _ ?_
  refine foldl_nsys_congr _ _
    (fun r c hc => cleanDateColumn_sys P r c hc)
    (fun r c hc => cleanDateColumn_sys P r c hc)
    (fun a b c hc h => cleanDateColumn_congr P a b c hc h)
    cfg1.dateColumns cfg2.dateColumns hcfg.1 _ _ hr

theorem cleanAndTransformData_nsys_congr (P : Platform) (data1 data2 : List JRecord)
    (cts1 cts2 : List ColumnType) (cfg : CleaningConfig)
    (hdata : data1.map nsys = data2.map nsys)
    (hcts : List.Forall₂ ctRel cts1 cts2) :
    (cleanAndTransformData P data1 cts1 cfg).map nsys
      = (cleanAndTransformData P data2 cts2 cfg).map nsys := by
  have hcfg : cfgSim (autoConfig cts1 cfg) (autoConfig cts2 cfg) :=
    autoConfig_congr hcts ⟨rfl, rfl, rfl, rfl⟩
  have key : ∀ (l1 l2 : List JRecord), l1.map nsys = l2.map nsys →
      (l1.map (fun r => cleanRecord P data1 (autoConfig cts1 cfg) r)).map nsys
        = (l2.map (fun r => cleanRecord P data2 (autoConfig cts2 cfg) r)).map nsys := by
    intro l1 l2 h12
    induction l1 generalizing l2 with
    | nil =>
        cases l2 with
        | nil => rfl
        | cons => simp at h12
    | cons a t ih =>
        cases l2 with
        | nil => simp at h12
        | cons b t2 =>
            simp only [List.map_cons, List.cons.injEq] at h12 ⊢
            exact ⟨cleanRecord_congr P data1 data2 _ _ a b hdata hcfg h12.1, ih t2 h12.2⟩
  exact key data1 data2 hdata

theorem generateTransactions_congr (P : Platform) (data1 data2 : List JRecord)
    (h : data1.map nsys = data2.map nsys) :
    generateTransactions P data1 = generateTransactions P data2 := by
  rw [← generateTransactions_nsys P data1, ← generateTransactions_nsys P data2, h]

theorem detectAssociationRules_congr (P : Platform) (data1 data2 : List JRecord)
    (ms mc : ℚ) (h : data1.map nsys = data2.map nsys) :
    detectAssociationRules P data1 ms mc = detectAssociationRules P data2 ms mc := by
  rw [detectAssociationRules, detectAssociationRules,
    generateTransactions_congr P data1 data2 h]

theorem jsGetOr_nsys (r : JRecord) (k : String) (b : JValue)
    (hk : startsWithSys k = false) : jsGetOr (nsys r) k b = jsGetOr r k b := by
  rw [jsGetOr, jsGetOr, getField_nsys r k hk]

theorem filter_map_nsys (p : JRecord → Bool) (hp : ∀ r, p (nsys r) = p r) :
    ∀ l : List JRecord, (l.map nsys).filter p = (l.filter p).map nsys
  | [] => rfl
  | r :: t => by
      rw [List.map_cons, List.filter_cons, List.filter_cons, hp r]
      by_cases hr : p r
      · rw [if_pos hr, if_pos hr, List.map_cons, filter_map_nsys p hp t]
      · rw [if_neg hr, if_neg hr, filter_map_nsys p hp t]

theorem map_fn_nsys {α : Type} (f : JRecord → α) (hf : ∀ r, f (nsys r) = f r)
    (l : List JRecord) : (l.map nsys).map f = l.map f := by
  rw [List.map_map]
  exact List.map_congr_left (fun r _ => hf r)

theorem calculateAverageProfit_nsys (P : Platform) (l : List JRecord) :
    calculateAverageProfit P (l.map nsys) = calculateAverageProfit P l := by
  rw [calculateAverageProfit, calculateAverageProfit, List.length_map,
    map_fn_nsys (fun r => jsGetOr r "profit" (jsGetOr r "margin" (.num 0)))
      (fun r => by
        show jsGetOr (nsys r) "profit" (jsGetOr (nsys r) "margin" (JValue.num 0))
          = jsGetOr r "profit" (jsGetOr r "margin" (JValue.num 0))
        rw [jsGetOr_nsys _ _ _ (by decide), jsGetOr_nsys _ _ _ (by decide)]) l]

theorem calculateWinRate_nsys (l : List JRecord) :
    calculateWinRate (l.map nsys) = calculateWinRate l := by
  rw [calculateWinRate, calculateWinRate, List.length_map,
    filter_map_nsys (fun r => getField r "status" == some (.str "won")
        || getField r "outcome" == some (.str "success"))
      (fun r => by
        show (getField (nsys r) "status" == some (JValue.str "won")
            || getField (nsys r) "outcome" == some (JValue.str "success"))
          = (getField r "status" == some (JValue.str "won")
            || getField r "outcome" == some (JValue.str "success"))
        rw [getField_nsys _ _ (by decide), getField_nsys _ _ (by decide)]) l,
    List.length_map]

theorem tenderDateValue_nsys (d : JRecord) : tenderDateValue (nsys d) = tenderDateValue d := by
  rw [tenderDateValue, tenderDateValue, getField_nsys _ _ (by decide),
    getField_nsys _ _ (by decide)]

theorem detectCertificationPattern_nsys (P : Platform) (l : List JRecord) :
    detectCertificationPattern P (l.map nsys) = detectCertificationPattern P l := by
  simp only [detectCertificationPattern]
  rw [filter_map_nsys (fun d => truthyOpt (getField d "certification_density")
        || truthyOpt (getField d "team_composition"))
      (fun r => by
        show (truthyOpt (getField (nsys r) "certification_density")
            || truthyOpt (getField (nsys r) "team_composition"))
          = (truthyOpt (getField r "certification_density")
            || truthyOpt (getField r "team_composition"))
        rw [getField_nsys _ _ (by decide), getField_nsys _ _ (by decide)]) l]
  rw [List.length_map]
  rw [filter_map_nsys (fun d =>
        JSNum.ge (jsToNumber P (jsGetOr d "certification_density" (.num 0))) (.fin (4/10))
          && JSNum.le (jsToNumber P (jsGetOr d "certification_density" (.num 0))) (.fin (6/10)))
      (fun r => by
        show (JSNum.ge (jsToNumber P (jsGetOr (nsys r) "certification_density" (JValue.num 0)))
              (.fin (4/10))
            && JSNum.le (jsToNumber P (jsGetOr (nsys r) "certification_density" (JValue.num 0)))
              (.fin (6/10)))
          = (JSNum.ge (jsToNumber P (jsGetOr r "certification_density" (JValue.num 0)))
              (.fin (4/10))
            && JSNum.le (jsToNumber P (jsGetOr r "certification_density" (JValue.num 0)))
              (.fin (6/10)))
        rw [jsGetOr_nsys _ _ _ (by decide)])]
  rw [filter_map_nsys (fun d =>
        JSNum.lt (jsToNumber P (jsGetOr d "certification_density" (.num 0))) (.fin (4/10))
          || JSNum.gt (jsToNumber P (jsGetOr d "certification_density" (.num 0))) (.fin (6/10)))
      (fun r => by
        show (JSNum.lt (jsToNumber P (jsGetOr (nsys r) "certification_density" (JValue.num 0)))
              (.fin (4/10))
            || JSNum.gt (jsToNumber P (jsGetOr (nsys r) "certification_density" (JValue.num 0)))
              (.fin (6/10)))
          = (JSNum.lt (jsToNumber P (jsGetOr r "certification_density" (JValue.num 0)))
              (.fin (4/10))
            || JSNum.gt (jsToNumber P (jsGetOr r "certification_density" (JValue.num 0)))
              (.fin (6/10)))
        rw [jsGetOr_nsys _ _ _ (by decide)])]
  rw [calculateAverageProfit_nsys, calculateAverageProfit_nsys]

theorem detectQuarterEndPattern_nsys (P : Platform) (l : List JRecord) :
    detectQuarterEndPattern P (l.map nsys) = detectQuarterEndPattern P l := by
  simp only [detectQuarterEndPattern]
  rw [filter_map_nsys (fun d => truthyOpt (getField d "submission_date")
        || truthyOpt (getField d "tender_date"))
      (fun r => by
        show (truthyOpt (getField (nsys r) "submission_date")
            || truthyOpt (getField (nsys r) "tender_date"))
          = (truthyOpt (getField r "submission_date")
            || truthyOpt (getField r "tender_date"))
        rw [getField_nsys _ _ (by decide), getField_nsys _ _ (by decide)]) l]
  rw [List.length_map]
  rw [filter_map_nsys (fun d =>
        match minerParseDate P (tenderDateValue d) with
        | some ms => decide (15 ≤ P.dDayOfMonth ms)
        | none => false)
      (fun r => by
        show (match minerParseDate P (tenderDateValue (nsys r)) with
          | some ms => decide (15 ≤ P.dDayOfMonth ms)
          | none => false)
          = (match minerParseDate P (tenderDateValue r) with
          | some ms => decide (15 ≤ P.dDayOfMonth ms)
          | none => false)
        rw [tenderDateValue_nsys])]
  rw [filter_map_nsys (fun d =>
        match minerParseDate P (tenderDateValue d) with
        | some ms => decide (P.dDayOfMonth ms < 15)
        | none => false)
      (fun r => by
        show (match minerParseDate P (tenderDateValue (nsys r)) with
          | some ms => decide (P.dDayOfMonth ms < 15)
          | none => false)
          = (match minerParseDate P (tenderDateValue r) with
          | some ms => decide (P.dDayOfMonth ms < 15)
          | none => false)
        rw [tenderDateValue_nsys])]
  rw [calculateWinRate_nsys, calculateWinRate_nsys]

theorem detectSalesPatterns_congr (P : Platform) (data1 data2 : List JRecord)
    (h : data1.map nsys = data2.map nsys) :
    detectSalesPatterns P data1 = detectSalesPatterns P data2 := by
  rw [detectSalesPatterns, detectSalesPatterns,
    ← detectCertificationPattern_nsys P data1, ← detectQuarterEndPattern_nsys P data1, h,
    detectCertificationPattern_nsys P data2, detectQuarterEndPattern_nsys P data2,
    show detectIndustryExperiencePattern data1 = detectIndustryExperiencePattern data2 from rfl,
    show detectCommunicationPattern data1 = detectCommunicationPattern data2 from rfl,
    show detectGeographicPattern data1 = detectGeographicPattern data2 from rfl]

/-- Modelled from the spec: the orchestrator configuration of §6
(`maxPatterns`, `minConfidence`, `minSupport`; the advisory
`complexityLevel` and `focusAreas` are not enforced by the core and are
omitted). -/
structure AnalysisConfig where
  maxPatterns : ℕ
  minConfidence : ℚ
  minSupport : ℚ

/-- Modelled from the spec: the `analyze` orchestrator entry point of §6
composed from the source-embedded stages, in the pipeline order of §4 —
merge (§4.3), column-type inference (§4.1), cleaning with auto-configured
override lists (§4.2), association-rule mining and conversion to pattern
candidates plus the domain detectors (§4.4), and scoring/ranking (§4.6).
The orchestrator itself lives behind a remote `/analyze` call outside this
repository's sources, so its composition is taken from the spec; the
temporal miner stage (§4.5) and the validation reporting are omitted.
`stamp si ri` is the pair of host clock values (`Date.now()`, ISO string)
the merger observes while stamping record `ri` of source `si`. -/
def analyze (P : Platform) (sources : List DataSource) (cfg : AnalysisConfig)
    (stamp : ℕ → ℕ → ℤ × String) : List ScoredPattern :=
  Scorer.scoreAndFilterPatterns
    (convertRulesToPatterns P
        (detectAssociationRules P
          (cleanAndTransformData P (mergeDataSources sources stamp)
            (detectColumnTypes P (mergeDataSources sources stamp)) defaultCleaningConfig)
          cfg.minSupport cfg.minConfidence)
      ++ detectSalesPatterns P
        (cleanAndTransformData P (mergeDataSources sources stamp)
          (detectColumnTypes P (mergeDataSources sources stamp)) defaultCleaningConfig))
    cfg.maxPatterns cfg.minConfidence cfg.minSupport

/-- C9: the full modelled pipeline (merge, type inference, clean, mine,
score) returns the *same* ranked pattern list on two runs over identical
data sources and configuration, even though the merger stamps every record
with run-dependent clock values (`Date.now()` / ISO timestamp): the stamps
only ever reach `__`-prefixed provenance fields, which every downstream
stage is proved to ignore. -/
theorem analyze_stamp_independent (P : Platform) (sources : List DataSource)
    (cfg : AnalysisConfig) (stamp1 stamp2 : ℕ → ℕ → ℤ × String) :
    analyze P sources cfg stamp1 = analyze P sources cfg stamp2 := by
  have hmn : (mergeDataSources sources stamp1).map nsys
      = (mergeDataSources sources stamp2).map nsys := by
    rw [mergeDataSources, mergeDataSources]
    exact mergeAux_nsys_congr stamp1 stamp2 sources 0 0
  have hmk : (mergeDataSources sources stamp1).map keysOf
      = (mergeDataSources sources stamp2).map keysOf := by
    rw [mergeDataSources, mergeDataSources]
    exact mergeAux_keys_congr stamp1 stamp2 sources 0 0
  have hcts := detectColumnTypes_rel P _ _ hmk hmn
  have hclean := cleanAndTransformData_nsys_congr P _ _ _ _ defaultCleaningConfig hmn hcts
  rw [analyze, analyze,
    detectAssociationRules_congr P _ _ cfg.minSupport cfg.minConfidence hclean,
    detectSalesPatterns_congr P _ _ hclean]

end PatternRepo
